import Mathlib

/-!
# NotepadNext plugin manager

A shallow embedding of `src/NotepadNext/PluginManager.cpp`, `PluginManager.h` and
the command and event registration functions of `PluginAPI.cpp`, followed by the
properties established about them.

Text is a list of UTF-16 code units, as a `QString` is.  The Qt classes, the JSON
reader and the Lua interpreter are outside the repository: what the manager uses of
them is modelled after their documented behaviour or taken as a parameter.

The interpreter holds a string as UTF-8 bytes.  The embedding holds such a string as the
text that `QString::fromUtf8` reads from the bytes, so that bytes which are no UTF-8
stand as the replacement characters Qt makes of them.  A text handed to the interpreter
goes through `toStdString().c_str()`: a surrogate without its partner becomes a question
mark, as in the encoder of Qt, and the C string ends before the first NUL character.  A
string read back through a `const char *` ends before the first NUL character as well.
A caller of the Lua API that does not call `lua_checkstack` has `LUA_MINSTACK` free
stack slots; to push more has no defined behaviour.  A path is a key of the file system
by its text, for `QFile` and for `luaL_loadfile` alike.

The member functions act on a `World`: the data members of the manager, the open
interpreter instances by address, the files, and a record of the interpreter calls
made.  Pointers are `Option Nat`, `none` being the null pointer.
-/

set_option autoImplicit false

/-! ## QString -/

/-- A `QString`: its UTF-16 code units. -/
abbrev QString := List Nat

/-- UTF-16 code units of one character. -/
def utf16 (c : Char) : List Nat :=
  if c.toNat < 0x10000 then [c.toNat]
  else [0xD800 + (c.toNat - 0x10000) / 0x400, 0xDC00 + (c.toNat - 0x10000) % 0x400]

/-- A string literal of the source as a `QString`. -/
def qs (s : String) : QString := s.toList.flatMap utf16

namespace QString

/-- `QString::isEmpty`. -/
def isEmpty (s : QString) : Bool := s.length == 0

/-- `QString::startsWith`, case sensitive. -/
def startsWith (s p : QString) : Bool := p.isPrefixOf s

/-- `QString::endsWith`, case sensitive. -/
def endsWith (s p : QString) : Bool := p.isSuffixOf s

/-- `QString::mid(position, n)`: the part from `position` on, cut to `n` code units
unless `n` is negative or exceeds what is left. -/
def mid (s : QString) (position : Nat) (n : Int) : QString :=
  if position > s.length then []
  else if n < 0 ∨ n > (s.length : Int) - position then s.drop position
  else (s.drop position).take n.toNat

/-- `QString::split(sep)` with the default `Qt::KeepEmptyParts`: the text between
consecutive separators, empty pieces included; a text without separator is one piece. -/
def split : QString → Nat → List QString
  | [], _ => [[]]
  | c :: cs, sep =>
    if c = sep then [] :: split cs sep
    else
      match split cs sep with
      | [] => [[c]]
      | p :: ps => (c :: p) :: ps

/-- `QChar::isSpace`: the ASCII white space characters, NEL, NBSP and the Unicode
separator categories Zs, Zl and Zp of the basic plane. -/
def isSpace (c : Nat) : Bool :=
  c == 0x20 || (9 ≤ c && c ≤ 13) || c == 0x85 || c == 0xA0 || c == 0x1680 ||
  (0x2000 ≤ c && c ≤ 0x200A) || c == 0x2028 || c == 0x2029 || c == 0x202F ||
  c == 0x205F || c == 0x3000

/-- `QString::trimmed`: white space removed from both ends. -/
def trimmed (s : QString) : QString :=
  ((s.dropWhile isSpace).reverse.dropWhile isSpace).reverse

/-- Code-unit comparison behind `operator<`, `operator<=` and `operator>=` of
`QString`: the sign of the first differing pair of code units, else of the
difference of the lengths. -/
def compare : QString → QString → Int
  | [], [] => 0
  | [], _ :: _ => -1
  | _ :: _, [] => 1
  | a :: as, b :: bs => if a = b then compare as bs else if a < b then -1 else 1

/-- `operator<` of `QString`. -/
def lt (a b : QString) : Bool := decide (compare a b < 0)

/-- `operator<=` of `QString`. -/
def le (a b : QString) : Bool := decide (compare a b ≤ 0)

/-- `operator>=` of `QString`. -/
def ge (a b : QString) : Bool := decide (compare a b ≥ 0)

end QString

/-- Lexicographic "at most" on texts: equal, or smaller at the first difference, a
proper initial segment being smaller. -/
def lexLe (a b : QString) : Prop := a = b ∨ List.Lex (· < ·) a b

instance (a b : QString) : Decidable (lexLe a b) :=
  inferInstanceAs (Decidable (a = b ∨ List.Lex (· < ·) a b))

/-! ## Text handed to the interpreter and read back from it -/

/-- `QChar::isHighSurrogate`. -/
def QChar.isHighSurrogate (u : Nat) : Bool := 0xD800 ≤ u && u < 0xDC00

/-- `QChar::isLowSurrogate`. -/
def QChar.isLowSurrogate (u : Nat) : Bool := 0xDC00 ≤ u && u < 0xE000

/-- What the UTF-8 encoder of Qt makes of one code unit, read back as text: the code
unit, and a question mark for a surrogate without its partner.  `afterHigh` says that
the code unit before is a high surrogate, `next` is the code unit that follows. -/
def QChar.encoded (afterHigh : Bool) (u : Nat) (next : Option Nat) : Nat :=
  if QChar.isHighSurrogate u then
    match next with
    | some v => if QChar.isLowSurrogate v then u else 63
    | none => 63
  else if QChar.isLowSurrogate u then (if afterHigh then u else 63)
  else u

/-- The encoder of `QString::toUtf8`, from a position in the text on. -/
def QString.toUtf8From (afterHigh : Bool) : QString → List Nat
  | [] => []
  | u :: rest =>
    QChar.encoded afterHigh u rest.head? :: toUtf8From (QChar.isHighSurrogate u) rest

/-- `QString::toStdString`: the UTF-8 form of the text, held as the text it encodes. -/
def QString.toStdString (s : QString) : List Nat := QString.toUtf8From false s

/-- `std::string::c_str()` as a function of the C API reads it, and any other
`const char *`: the string up to the first NUL character. -/
def c_str (s : List Nat) : List Nat := s.takeWhile (fun b => b != 0)

/-- `QString::fromUtf8`, and the conversion of a `const char *` to a `QString`: the
text of the bytes.  A string of the interpreter is held as this text already. -/
def QString.fromUtf8 (s : List Nat) : QString := s

/-- `LUA_MINSTACK` of `lua.h`: the stack slots that are free without a call of
`lua_checkstack`. -/
def LUA_MINSTACK : Nat := 20

/-! ## Version compatibility -/

namespace PluginManager

/-- `PluginManager::isVersionCompatible`. -/
def isVersionCompatible (pluginVersion appVersion : QString) : Bool :=
  if !pluginVersion.startsWith (qs "[") || !pluginVersion.endsWith (qs "]") then
    true
  else
    let inner := pluginVersion.mid 1 ((pluginVersion.length : Int) - 2)
    let versions := inner.split 44
    if versions.length != 2 then
      true
    else
      let minV := (versions.getD 0 []).trimmed
      let maxV := (versions.getD 1 []).trimmed
      appVersion.ge minV && appVersion.le maxV

end PluginManager


/-! ## QMap -/

/-- A `QMap<QString, V>`: its entries, kept in ascending order of the keys. -/
abbrev QMap (V : Type) := List (QString × V)

namespace QMap

variable {V : Type}

/-- `QMap::find` (also `value`, `contains`): the value stored under the key. -/
def find : QMap V → QString → Option V
  | [], _ => none
  | (k', v) :: rest, k => if k' = k then some v else find rest k

/-- `QMap::operator[]` followed by an assignment: the value under the key is
replaced, a new key takes its place in the order of the keys. -/
def insert : QMap V → QString → V → QMap V
  | [], k, v => [(k, v)]
  | (k', v') :: rest, k, v =>
    if k' = k then (k, v) :: rest
    else if QString.lt k k' then (k, v) :: (k', v') :: rest
    else (k', v') :: insert rest k v

/-- `QMap::erase` at the position `find` returned. -/
def erase : QMap V → QString → QMap V
  | [], _ => []
  | (k', v') :: rest, k => if k' = k then rest else (k', v') :: erase rest k

/-- The keys, in iteration order. -/
def keys (m : QMap V) : List QString := m.map Prod.fst

end QMap

/-! ## JSON values -/

/-- A `QJsonValue`.  A number is carried as its text: the manager never computes
with one. -/
inductive QJsonValue where
  | null
  | bool (b : Bool)
  | double (text : QString)
  | string (s : QString)
  | array (items : List QJsonValue)
  | object (members : List (QString × QJsonValue))
  | undefined

/-- A `QJsonObject`: its members. -/
abbrev QJsonObject := List (QString × QJsonValue)

/-- A `QJsonDocument` as `QJsonDocument::fromJson` returns it: null after a parse
error, else the top-level array or object. -/
inductive QJsonDocument where
  | null
  | array (items : List QJsonValue)
  | object (members : QJsonObject)

/-- `QJsonValue::toString(defaultValue)`: the text of a string value, the default
for every other value. -/
def QJsonValue.toStringOr : QJsonValue → QString → QString
  | .string s, _ => s
  | _, d => d

/-- `QJsonValue::toString()`: the text of a string value, else the null text. -/
def QJsonValue.toString (v : QJsonValue) : QString := v.toStringOr []

/-- `QJsonObject::value(key)`: the member, `Undefined` when there is none. -/
def QJsonObject.value : QJsonObject → QString → QJsonValue
  | [], _ => .undefined
  | (k', v) :: rest, k => if k' = k then v else QJsonObject.value rest k

/-- `QJsonObject::isEmpty`. -/
def QJsonObject.isEmpty (o : QJsonObject) : Bool := o.length == 0

/-! ## The Lua interpreter, as far as the manager sees it -/

/-- A Lua value.  Tables, functions and userdata are references; a float is carried
as the text the interpreter prints it with, and a string as the text that
`QString::fromUtf8` reads from its bytes. -/
inductive LuaValue where
  | nil
  | boolean (b : Bool)
  | integer (i : Int)
  | float (text : QString)
  | string (s : QString)
  | table (ref : Nat)
  | function (ref : Nat)
  | userdata (ref : Nat)
  deriving DecidableEq

/-- The memory of one interpreter instance (a `lua_State`): its global bindings and
the string-keyed fields of its tables. -/
structure lua_State where
  globals : List (QString × LuaValue)
  tables : List (Nat × List (QString × LuaValue))
  deriving DecidableEq

/-- The value bound to a name in a list of bindings, `nil` when there is none. -/
def luaLookup : List (QString × LuaValue) → QString → LuaValue
  | [], _ => .nil
  | (k', v) :: rest, k => if k' = k then v else luaLookup rest k

/-- Rebinding of a name in a list of bindings. -/
def luaBind : List (QString × LuaValue) → QString → LuaValue → List (QString × LuaValue)
  | [], k, v => [(k, v)]
  | (k', v') :: rest, k, v => if k' = k then (k, v) :: rest else (k', v') :: luaBind rest k v

/-- `lua_getglobal`: the value a global name is bound to.  The name is the C string
the caller hands over. -/
def lua_getglobal (L : lua_State) (name : QString) : LuaValue := luaLookup L.globals name

/-- `lua_setglobal`. -/
def lua_setglobal (L : lua_State) (name : QString) (v : LuaValue) : lua_State :=
  { L with globals := luaBind L.globals name v }

/-- `lua_getfield` on a value: the field of a table, `nil` for a missing field. -/
def lua_getfield (L : lua_State) (t : LuaValue) (key : QString) : LuaValue :=
  match t with
  | .table ref =>
    match L.tables.lookup ref with
    | some fields => luaLookup fields key
    | none => .nil
  | _ => .nil

/-- `lua_isfunction`. -/
def lua_isfunction : LuaValue → Bool
  | .function _ => true
  | _ => false

/-- `lua_istable`. -/
def lua_istable : LuaValue → Bool
  | .table _ => true
  | _ => false

/-- Decimal text of an integer. -/
def integerText (i : Int) : QString :=
  if i < 0 then 45 :: (Nat.toDigits 10 i.natAbs).flatMap utf16
  else (Nat.toDigits 10 i.toNat).flatMap utf16

/-- `lua_tostring`: the text of a string, the printed form of a number, and no text
(a null pointer) for every other value. -/
def lua_tostring : LuaValue → Option QString
  | .string s => some s
  | .integer i => some (integerText i)
  | .float text => some text
  | _ => none

/-- `lua_isstring`: true for a string and for a number, which converts to one. -/
def lua_isstring (v : LuaValue) : Bool := (lua_tostring v).isSome

/-- `luaL_checkstring`: the text of a string or number argument, a Lua error for any
other value. -/
def luaL_checkstring (v : LuaValue) : Except QString QString :=
  match lua_tostring v with
  | some s => .ok s
  | none => .error (qs "string expected")

/-- What the manager needs of the interpreter, which is not part of the repository. -/
structure Interp where
  /-- The memory of the instance that `luaL_newstate` and `luaL_openlibs` set up at the
  given address; `none` when the allocation fails. -/
  newstate : Nat → Option lua_State
  /-- Compilation of the bytes of a script by `luaL_loadfile`: the reference of the
  chunk, or the error value. -/
  load : List Nat → Except LuaValue Nat
  /-- A protected run of the function with this reference on the arguments, in an
  instance with this memory: the returned values or the error value, and the memory
  afterwards. -/
  call : Nat → List LuaValue → lua_State → Except LuaValue (List LuaValue) × lua_State

/-- The `id` and `title` checks and the binding made by `plugin_registerCommand` of
`PluginAPI.cpp`, on the argument list of the call.  The `id` is read as a
`const char *` and the name of the binding handed over as one. -/
def plugin_registerCommand (L : lua_State) (args : List LuaValue) : Except QString lua_State :=
  let arg := args.getD 0 .nil
  if !lua_istable arg then .error (qs "Expected table argument")
  else
    match luaL_checkstring (lua_getfield L arg (qs "id")) with
    | .error e => .error e
    | .ok id =>
      match luaL_checkstring (lua_getfield L arg (qs "title")) with
      | .error e => .error e
      | .ok _ =>
        let execute := lua_getfield L arg (qs "execute")
        if !lua_isfunction execute then .error (qs "execute field must be a function")
        else
          let funcName := qs "executeCommand_" ++ QString.fromUtf8 (c_str id)
          .ok (lua_setglobal L (c_str funcName.toStdString) execute)

/-- The function `plugin_on` of `PluginAPI.cpp`, on the argument list of the call. -/
def plugin_on (L : lua_State) (args : List LuaValue) : Except QString lua_State :=
  match luaL_checkstring (args.getD 0 .nil) with
  | .error e => .error e
  | .ok eventName =>
    let handler := args.getD 1 .nil
    if !lua_isfunction handler then .error (qs "Expected function as second argument")
    else
      let handlerName := qs "__plugin_event_" ++ QString.fromUtf8 (c_str eventName)
      .ok (lua_setglobal L (c_str handlerName.toStdString) handler)

/-! ## Files and the Qt services -/

/-- The files the manager can see: the readable ones with their bytes, the paths
that exist but cannot be opened for reading (a directory, a protected file), and the
paths that cannot be opened for writing. -/
structure FileSystem where
  files : List (QString × List Nat)
  unreadable : List QString
  unwritable : List QString

/-- `QFile::exists`. -/
def FileSystem.exists (fs : FileSystem) (path : QString) : Bool :=
  (fs.files.lookup path).isSome || fs.unreadable.contains path

/-- `QFile::open(ReadOnly)` followed by `readAll`: the bytes, `none` when the file
cannot be opened. -/
def FileSystem.read (fs : FileSystem) (path : QString) : Option (List Nat) :=
  fs.files.lookup path

/-- `QFile::open(WriteOnly)` followed by `write`: the file is replaced, unless it
cannot be opened. -/
def FileSystem.write (fs : FileSystem) (path : QString) (bytes : List Nat) : FileSystem :=
  if fs.unwritable.contains path then fs
  else { fs with files := (path, bytes) :: fs.files.filter (fun e => e.1 != path) }

/-- The services of Qt the manager calls that depend on the platform or on the JSON
text format. -/
structure Qt where
  /-- `QDir(dir).absoluteFilePath(name)`. -/
  absoluteFilePath : QString → QString → QString
  /-- `QDir(dir).dirName()`. -/
  dirName : QString → QString
  /-- `QJsonDocument::fromJson` on the bytes of a file. -/
  fromJson : List Nat → QJsonDocument
  /-- `QJsonDocument(obj).toJson()`. -/
  toJson : QJsonObject → List Nat
  /-- `QStandardPaths::writableLocation(QStandardPaths::AppDataLocation)`. -/
  appDataLocation : QString
  /-- `QDir::separator()`. -/
  separator : Nat

/-! ## The manager -/

/-- The record `PluginInfo` of `PluginManager.h`.  The interpreter is held by its
address, `none` being the null pointer. -/
structure PluginInfo where
  name : QString
  version : QString
  description : QString
  author : QString
  path : QString
  luaState : Option Nat
  enabled : Bool
  error : QString
  manifest : QJsonObject
  config : QMap QString

/-- The data members of the class `PluginManager`; `none` is the null editor. -/
structure PluginManager where
  editor : Option Nat
  plugins : QMap PluginInfo
  failedPlugins : QMap QString

/-- What the manager does to interpreter instances, in the order it does it. -/
inductive Event where
  | newstate (L : Nat)
  | pcall (L : Nat) (f : LuaValue) (args : List LuaValue)
  | close (L : Nat)
  deriving DecidableEq

/-- The interpreter instances that are open, by address, and the address that the
next one gets. -/
structure LuaHeap where
  states : List (Nat × lua_State)
  next : Nat

/-- The state the member functions run in: the manager, the open interpreter
instances, the files, and the record of the interpreter calls made so far. -/
structure World where
  mgr : PluginManager
  heap : LuaHeap
  fs : FileSystem
  log : List Event

/-- The memory of the open instance at an address. -/
def LuaHeap.get (h : LuaHeap) (L : Nat) : Option lua_State := h.states.lookup L

/-- The heap with the memory of the instance at an address replaced. -/
def LuaHeap.set (h : LuaHeap) (L : Nat) (s : lua_State) : LuaHeap :=
  { h with states := h.states.map (fun e => if e.1 = L then (L, s) else e) }

/-- `lua_close`: the instance is no longer open. -/
def LuaHeap.close (h : LuaHeap) (L : Nat) : LuaHeap :=
  { h with states := h.states.filter (fun e => e.1 != L) }

/-- `lua_pcall` of a function value on arguments, in the open instance at `L` with
memory `s`: the outcome, the memory written back and the call recorded. -/
def lua_pcall (lua : Interp) (w : World) (L : Nat) (s : lua_State) (f : Nat)
    (args : List LuaValue) : Except LuaValue (List LuaValue) × World :=
  let r := lua.call f args s
  (r.1, { w with heap := w.heap.set L r.2, log := w.log ++ [Event.pcall L (.function f) args] })

/-- `lua_close` of the instance at `L`, recorded. -/
def lua_close (w : World) (L : Nat) : World :=
  { w with heap := w.heap.close L, log := w.log ++ [Event.close L] }

/-- The world with an entry written to the failed-plugins mapping. -/
def World.setFailed (w : World) (key message : QString) : World :=
  { w with mgr := { w.mgr with failedPlugins := QMap.insert w.mgr.failedPlugins key message } }

namespace PluginManager

/-- `PluginManager::getPluginConfigPath`. -/
def getPluginConfigPath (qt : Qt) (pluginName : QString) : QString :=
  let configDir := qt.appDataLocation ++ [qt.separator] ++ qs "plugins" ++ [qt.separator] ++ qs "config"
  configDir ++ [qt.separator] ++ pluginName ++ qs ".json"

/-- `PluginManager::loadPluginConfig`. -/
def loadPluginConfig (qt : Qt) (fs : FileSystem) (pluginName : QString) : QMap QString :=
  let configPath := getPluginConfigPath qt pluginName
  if !fs.exists configPath then []
  else
    match fs.read configPath with
    | none => []
    | some content =>
      match qt.fromJson content with
      | .object obj => obj.foldl (fun config e => QMap.insert config e.1 e.2.toString) []
      | _ => []

/-- `PluginManager::savePluginConfig`.  The directory of the file is created on the
way; whether the file can then be opened is what `FileSystem.write` decides. -/
def savePluginConfig (qt : Qt) (w : World) (pluginName : QString) (config : QMap QString) : World :=
  let configPath := getPluginConfigPath qt pluginName
  let obj : QJsonObject := config.foldl (fun o e => QMap.insert o e.1 (QJsonValue.string e.2)) []
  { w with fs := w.fs.write configPath (qt.toJson obj) }

/-- `PluginManager::parseManifest`: the top-level object of the file, the empty
object when the file cannot be opened or holds no object. -/
def parseManifest (qt : Qt) (fs : FileSystem) (path : QString) : QJsonObject :=
  match fs.read path with
  | none => []
  | some content =>
    match qt.fromJson content with
    | .object obj => obj
    | _ => []

/-- `PluginManager::createPluginLuaState`: the address of the new instance once the
entry script has run, the null pointer (with the instance closed again) otherwise. -/
def createPluginLuaState (qt : Qt) (lua : Interp) (w : World) (pluginPath : QString)
    (manifest : QJsonObject) : Option Nat × World :=
  let L := w.heap.next
  match lua.newstate L with
  | none => (none, w)
  | some s =>
    let w1 : World :=
      { w with heap := { states := w.heap.states ++ [(L, s)], next := L + 1 },
               log := w.log ++ [Event.newstate L] }
    let entryFile := (manifest.value (qs "entry")).toStringOr (qs "init.lua")
    let entryPath := qt.absoluteFilePath pluginPath entryFile
    let loaded : Except LuaValue Nat :=
      match w1.fs.read entryPath with
      | none => .error (.string (qs "cannot open file"))
      | some bytes => lua.load bytes
    match loaded with
    | .error _ => (none, lua_close w1 L)
    | .ok chunk =>
      let r := lua_pcall lua w1 L s chunk []
      match r.1 with
      | .error _ => (none, lua_close r.2 L)
      | .ok _ => (some L, r.2)

/-- `PluginManager::loadPlugin`.  The closing loop over the `commands` of the manifest
writes to the debug output only and is left out. -/
def loadPlugin (qt : Qt) (lua : Interp) (w : World) (path : QString) : Bool × World :=
  if w.mgr.editor.isNone then (false, w)
  else
    let manifestPath := qt.absoluteFilePath path (qs "manifest.json")
    if !w.fs.exists manifestPath then
      (false, w.setFailed (qt.dirName path) (qs "manifest.json not found"))
    else
      let manifest := parseManifest qt w.fs manifestPath
      if manifest.isEmpty then
        (false, w.setFailed (qt.dirName path) (qs "Failed to parse manifest.json"))
      else
        let pluginName := (manifest.value (qs "name")).toString
        let version := (manifest.value (qs "version")).toString
        if pluginName.isEmpty then
          (false, w.setFailed (qt.dirName path) (qs "Plugin name is empty"))
        else
          let appVersion := qs "0.1.0"
          let compatVersions := (manifest.value (qs "nnp-compatible-versions")).toString
          if !compatVersions.isEmpty && !isVersionCompatible compatVersions appVersion then
            let error := qs "Version incompatible: plugin requires " ++ compatVersions ++
              qs ", app is " ++ appVersion
            (false, w.setFailed pluginName error)
          else
            let entryFile := (manifest.value (qs "entry")).toStringOr (qs "init.lua")
            let entryPath := qt.absoluteFilePath path entryFile
            if !w.fs.exists entryPath then
              (false, w.setFailed pluginName (qs "Entry file not found: " ++ entryFile))
            else
              match createPluginLuaState qt lua w path manifest with
              | (none, w1) => (false, w1.setFailed pluginName (qs "Failed to create Lua state"))
              | (some L, w1) =>
                let pluginInfo : PluginInfo :=
                  { name := pluginName,
                    version := version,
                    description := (manifest.value (qs "description")).toString,
                    author := (manifest.value (qs "author")).toString,
                    path := path,
                    luaState := some L,
                    enabled := true,
                    error := [],
                    manifest := manifest,
                    config := loadPluginConfig qt w1.fs pluginName }
                (true, { w1 with mgr := { w1.mgr with
                  plugins := QMap.insert w1.mgr.plugins pluginName pluginInfo } })

/-- `PluginManager::unloadPlugin`. -/
def unloadPlugin (qt : Qt) (w : World) (pluginName : QString) : World :=
  match QMap.find w.mgr.plugins pluginName with
  | none => w
  | some info =>
    let w1 :=
      match info.luaState with
      | none => w
      | some L => lua_close (savePluginConfig qt w pluginName info.config) L
    { w1 with mgr := { w1.mgr with plugins := QMap.erase w1.mgr.plugins pluginName } }

/-- `PluginManager::reloadPlugin`. -/
def reloadPlugin (qt : Qt) (lua : Interp) (w : World) (pluginName : QString) : World :=
  match QMap.find w.mgr.plugins pluginName with
  | none => w
  | some info => (loadPlugin qt lua (unloadPlugin qt w pluginName) info.path).2

/-- `PluginManager::executeCommand`.  An address that is not open has no behaviour
in the source; the embedding stops there without a call. -/
def executeCommand (lua : Interp) (w : World) (commandId : QString) : Bool × World :=
  let parts := commandId.split 46
  if parts.length < 2 then (false, w)
  else
    let pluginName := parts.getD 0 []
    let cmdName := parts.getD 1 []
    match QMap.find w.mgr.plugins pluginName with
    | none => (false, w)
    | some info =>
      match info.luaState with
      | none => (false, w)
      | some L =>
        match w.heap.get L with
        | none => (false, w)
        | some s =>
          let funcName := qs "executeCommand_" ++ cmdName
          match lua_getglobal s (c_str funcName.toStdString) with
          | .function f =>
            let r := lua_pcall lua w L s f []
            match r.1 with
            | .error _ => (false, r.2)
            | .ok _ => (true, r.2)
          | _ => (false, w)

/-- `PluginManager::callPluginFunction`.  One result is asked of the call: the first
returned value, `nil` when there is none.  The function and the arguments are pushed
without `lua_checkstack`: when they are more than `LUA_MINSTACK` there is no defined
behaviour, and no result, `none`.  An address that is not open has no behaviour in
the source either; the embedding stops there without a call. -/
def callPluginFunction (lua : Interp) (w : World) (pluginName functionName : QString)
    (args : List QString) : Option (QString × World) :=
  match QMap.find w.mgr.plugins pluginName with
  | none => some ([], w)
  | some info =>
    match info.luaState with
    | none => some ([], w)
    | some L =>
      match w.heap.get L with
      | none => some ([], w)
      | some s =>
        match lua_getglobal s (c_str functionName.toStdString) with
        | .function f =>
          if LUA_MINSTACK < 1 + args.length then none
          else
            let r := lua_pcall lua w L s f
              (args.map (fun arg => LuaValue.string (c_str arg.toStdString)))
            match r.1 with
            | .error _ => some ([], r.2)
            | .ok results =>
              let value := results.headD .nil
              let returnValue :=
                if lua_isstring value then
                  QString.fromUtf8 (c_str ((lua_tostring value).getD []))
                else []
              some (returnValue, r.2)
        | _ => some ([], w)

/-- The body the three broadcast loops share: the handler bound to the name in the
plugin's instance is called when it is a function, and an error it raises is dropped. -/
def callHandler (lua : Interp) (handlerName : QString) (args : List LuaValue) (w : World)
    (info : PluginInfo) : World :=
  match info.luaState with
  | none => w
  | some L =>
    match w.heap.get L with
    | none => w
    | some s =>
      match lua_getglobal s handlerName with
      | .function f => (lua_pcall lua w L s f args).2
      | _ => w

/-- `PluginManager::notifyReady`. -/
def notifyReady (lua : Interp) (w : World) : World :=
  w.mgr.plugins.foldl (fun w entry => callHandler lua (qs "__plugin_event_ready") [] w entry.2) w

/-- `PluginManager::notifyShutdown`. -/
def notifyShutdown (lua : Interp) (w : World) : World :=
  w.mgr.plugins.foldl (fun w entry => callHandler lua (qs "__plugin_event_shutdown") [] w entry.2) w

/-- `PluginManager::broadcastFileEvent`. -/
def broadcastFileEvent (lua : Interp) (w : World) (eventName filename : QString) : World :=
  w.mgr.plugins.foldl
    (fun w entry =>
      callHandler lua (c_str (qs "__plugin_event_" ++ eventName).toStdString)
        [LuaValue.string (c_str filename.toStdString)] w entry.2) w

/-- `PluginManager::notifyBeforeFileOpen`. -/
def notifyBeforeFileOpen (lua : Interp) (w : World) (filename : QString) : World :=
  broadcastFileEvent lua w (qs "beforeFileOpen") filename

/-- `PluginManager::notifyAfterFileOpen`. -/
def notifyAfterFileOpen (lua : Interp) (w : World) (filename : QString) : World :=
  broadcastFileEvent lua w (qs "afterFileOpen") filename

/-- `PluginManager::notifyBeforeFileSave`. -/
def notifyBeforeFileSave (lua : Interp) (w : World) (filename : QString) : World :=
  broadcastFileEvent lua w (qs "beforeFileSave") filename

/-- `PluginManager::notifyAfterFileSave`. -/
def notifyAfterFileSave (lua : Interp) (w : World) (filename : QString) : World :=
  broadcastFileEvent lua w (qs "afterFileSave") filename

/-- `PluginManager::notifyBeforeFileClose`. -/
def notifyBeforeFileClose (lua : Interp) (w : World) (filename : QString) : World :=
  broadcastFileEvent lua w (qs "beforeFileClose") filename

/-- `PluginManager::notifyAfterFileClose`. -/
def notifyAfterFileClose (lua : Interp) (w : World) (filename : QString) : World :=
  broadcastFileEvent lua w (qs "afterFileClose") filename

/-- `PluginManager::getLoadedPlugins`. -/
def getLoadedPlugins (w : World) : List QString := QMap.keys w.mgr.plugins

/-- `PluginManager::getFailedPlugins`. -/
def getFailedPlugins (w : World) : QMap QString := w.mgr.failedPlugins

/-- `PluginManager::getPluginInfo`; `none` is the null pointer. -/
def getPluginInfo (w : World) (pluginName : QString) : Option PluginInfo :=
  QMap.find w.mgr.plugins pluginName

/-- `PluginManager::getPluginVersion`. -/
def getPluginVersion (w : World) (pluginName : QString) : QString :=
  match getPluginInfo w pluginName with
  | none => []
  | some info => info.version

/-- `PluginManager::finalize`. -/
def finalize (qt : Qt) (lua : Interp) (w : World) : World :=
  let w1 := notifyShutdown lua w
  let pluginNames := getLoadedPlugins w1
  let w2 := pluginNames.foldl (fun w name => unloadPlugin qt w name) w1
  { w2 with mgr := { editor := none, plugins := [], failedPlugins := [] } }

end PluginManager

/-- `PluginManager::initialize`. -/
def PluginManager.initialize (w : World) (editor_ : Option Nat) : Bool × World :=
  if w.mgr.editor = editor_ then (false, w)
  else
    let w1 : World := { w with mgr := { w.mgr with editor := editor_ } }
    if editor_.isNone then (false, w1) else (true, w1)

/-- A call of one of the public member functions that act on the world. -/
inductive Op where
  | init (editor_ : Option Nat)
  | finalize
  | loadPlugin (path : QString)
  | unloadPlugin (pluginName : QString)
  | reloadPlugin (pluginName : QString)
  | executeCommand (commandId : QString)
  | callPluginFunction (pluginName functionName : QString) (args : List QString)
  | notifyReady
  | notifyShutdown
  | broadcastFileEvent (eventName filename : QString)

/-- The world after one call.  A call without defined behaviour has no world after
it; the embedding keeps the world it was made in. -/
def Op.run (qt : Qt) (lua : Interp) (w : World) : Op → World
  | .init e => ( PluginManager.initialize w e).2
  | .finalize => PluginManager.finalize qt lua w
  | .loadPlugin path => (PluginManager.loadPlugin qt lua w path).2
  | .unloadPlugin n => PluginManager.unloadPlugin qt w n
  | .reloadPlugin n => PluginManager.reloadPlugin qt lua w n
  | .executeCommand c => (PluginManager.executeCommand lua w c).2
  | .callPluginFunction p f args =>
    match PluginManager.callPluginFunction lua w p f args with
    | some r => r.2
    | none => w
  | .notifyReady => PluginManager.notifyReady lua w
  | .notifyShutdown => PluginManager.notifyShutdown lua w
  | .broadcastFileEvent e f => PluginManager.broadcastFileEvent lua w e f

/-- The registry right after construction and a successful `initialize`: an editor,
no plugin, no interpreter instance. -/
def World.initial (editor : Nat) (fs : FileSystem) : World :=
  { mgr := { editor := some editor, plugins := [], failedPlugins := [] },
    heap := { states := [], next := 1 },
    fs := fs,
    log := [] }

/-- The worlds the manager can be in: those that calls of its member functions lead to
from an initialised empty registry, on any files. -/
inductive Reachable (qt : Qt) (lua : Interp) : World → Prop where
  | initial (editor : Nat) (fs : FileSystem) : Reachable qt lua (World.initial editor fs)
  | step (w : World) (op : Op) : Reachable qt lua w → Reachable qt lua (op.run qt lua w)

/-- The addresses of the interpreter instances the loaded records hold, in the order
of the loaded mapping. -/
def World.instances (w : World) : List Nat := w.mgr.plugins.filterMap (fun e => e.2.luaState)

/-- Every loaded record holds an instance of its own, at an address below the next
one to be given out. -/
def World.OwnInstances (w : World) : Prop :=
  (∀ L ∈ w.instances, L < w.heap.next) ∧ w.instances.Nodup

/-- Every loaded record holds an instance, and the instance is open. -/
def World.OpenInstances (w : World) : Prop :=
  ∀ e ∈ w.mgr.plugins, ∃ L s, e.2.luaState = some L ∧ w.heap.get L = some s

/-- The call a broadcast owes a plugin: of the function bound to the handler name in
the plugin's open instance, with the given arguments; none when the plugin has no
such function. -/
def handlerCall (w : World) (handlerName : QString) (args : List LuaValue)
    (info : PluginInfo) : Option Event :=
  match info.luaState with
  | none => none
  | some L =>
    match w.heap.get L with
    | none => none
    | some s =>
      match lua_getglobal s handlerName with
      | .function f => some (Event.pcall L (.function f) args)
      | _ => none

/-- The path of the entry script `loadPlugin` resolves for a plugin root: the `entry`
of the manifest, "init.lua" when the manifest names none, under the root. -/
def resolvedEntryPath (qt : Qt) (fs : FileSystem) (path : QString) : QString :=
  qt.absoluteFilePath path
    (((PluginManager.parseManifest qt fs (qt.absoluteFilePath path (qs "manifest.json"))).value
      (qs "entry")).toStringOr (qs "init.lua"))

/-- The name the manifest of a plugin root declares; empty when there is no manifest,
when it holds no object, and when the object has no `name` that is a string. -/
def declaredName (qt : Qt) (fs : FileSystem) (path : QString) : QString :=
  ((PluginManager.parseManifest qt fs (qt.absoluteFilePath path (qs "manifest.json"))).value
    (qs "name")).toString

/-- The key a failed load of a plugin root is recorded under: the declared name, and
the name of the directory when no name is declared. -/
def failureKey (qt : Qt) (fs : FileSystem) (path : QString) : QString :=
  if (declaredName qt fs path).isEmpty then qt.dirName path else declaredName qt fs path

/-- The record `loadPlugin` stores for a plugin root whose instance, at address `L`,
is set up: the fields read from the manifest, and the configuration read from the
files. -/
def loadedRecord (qt : Qt) (fs : FileSystem) (path : QString) (L : Nat) : PluginInfo :=
  { name := declaredName qt fs path,
    version := ((PluginManager.parseManifest qt fs
      (qt.absoluteFilePath path (qs "manifest.json"))).value (qs "version")).toString,
    description := ((PluginManager.parseManifest qt fs
      (qt.absoluteFilePath path (qs "manifest.json"))).value (qs "description")).toString,
    author := ((PluginManager.parseManifest qt fs
      (qt.absoluteFilePath path (qs "manifest.json"))).value (qs "author")).toString,
    path := path,
    luaState := some L,
    enabled := true,
    error := [],
    manifest := PluginManager.parseManifest qt fs (qt.absoluteFilePath path (qs "manifest.json")),
    config := PluginManager.loadPluginConfig qt fs (declaredName qt fs path) }

/-- The world with a record written to the loaded-plugins mapping. -/
def World.setLoaded (w : World) (key : QString) (info : PluginInfo) : World :=
  { w with mgr := { w.mgr with plugins := QMap.insert w.mgr.plugins key info } }

/-- The keys of a mapping are in strictly ascending order, as a `QMap` keeps them. -/
def QMap.Ascending {V : Type} (m : QMap V) : Prop :=
  (QMap.keys m).Pairwise (fun a b => QString.lt a b = true)

/-- The memory of a new instance at address `L` once the entry script of a plugin
root has run in it: that of an interpreter just set up, changed by the script alone.
There is none when the instance cannot be set up or the script fails. -/
def entryState (qt : Qt) (lua : Interp) (fs : FileSystem) (path : QString) (L : Nat) :
    Option lua_State :=
  match lua.newstate L with
  | none => none
  | some s0 =>
    match fs.read (resolvedEntryPath qt fs path) with
    | none => none
    | some bytes =>
      match lua.load bytes with
      | .error _ => none
      | .ok chunk =>
        match (lua.call chunk [] s0).1 with
        | .error _ => none
        | .ok _ => some (lua.call chunk [] s0).2

/-- The function and the arguments of a call; nothing for the other events. -/
def Event.callee : Event → LuaValue × List LuaValue
  | .pcall _ f args => (f, args)
  | _ => (.nil, [])

/-- The calls a broadcast makes in a world, each with the name of the plugin it is
made for, in the order of the loaded mapping. -/
def broadcastTrace (w : World) (handlerName : QString) (args : List LuaValue) :
    List (QString × Event) :=
  w.mgr.plugins.filterMap (fun e => (handlerCall w handlerName args e.2).map (fun ev => (e.1, ev)))

/-- What a record of the loaded mapping is to be under its key: its name is the key and
is not empty, it holds an interpreter instance, it is enabled and carries no error. -/
def PluginInfo.WellFormed (key : QString) (r : PluginInfo) : Prop :=
  r.name = key ∧ key ≠ [] ∧ r.luaState ≠ none ∧ r.enabled = true ∧ r.error = []

/-! ## The plugin API of `PluginAPI.cpp` -/

/-- The native functions of `PluginAPI.cpp` that `registerPluginAPI` installs, in the
order it installs them. -/
def nativeFunctions : List QString :=
  [qs "plugin_info", qs "plugin_getConfig", qs "plugin_saveConfig", qs "plugin_getRootPath",
   qs "plugin_registerCommand", qs "plugin_on", qs "plugin_call", qs "plugin_log",
   qs "plugin_logError",
   qs "ui_message", qs "ui_confirm", qs "ui_input", qs "ui_select", qs "ui_getClipboard",
   qs "ui_setClipboard",
   qs "fs_read", qs "fs_write", qs "fs_append", qs "fs_exists", qs "fs_isFile",
   qs "fs_isDirectory", qs "fs_mkdir", qs "fs_listdir", qs "fs_realpath", qs "fs_basename",
   qs "fs_dirname", qs "fs_join",
   qs "settings_get", qs "settings_set", qs "settings_has", qs "settings_remove"]

/-- `lua_pushcfunction`: the function value of a native function.  The references
from 1000 on stand for the native functions. -/
def lua_pushcfunction (name : QString) : LuaValue :=
  .function (1000 + nativeFunctions.indexOf name)

/-- `lua_newtable`, the `lua_setfield` calls that fill the table and the
`lua_setglobal` that binds it: a new table with these fields under the global name. -/
def installTable (L : lua_State) (name : QString) (fields : List (QString × LuaValue)) :
    lua_State :=
  lua_setglobal
    { L with tables := ((L.tables.map Prod.fst).foldl max 0 + 1, fields) :: L.tables }
    name (.table ((L.tables.map Prod.fst).foldl max 0 + 1))

/-- The function `registerPluginAPI` of `PluginAPI.cpp`: the global tables `plugin`,
`ui`, `fs` and `settings` with their native functions. -/
def registerPluginAPI (L : lua_State) : lua_State :=
  let L1 := installTable L (qs "plugin")
    [(qs "info", lua_pushcfunction (qs "plugin_info")),
     (qs "getConfig", lua_pushcfunction (qs "plugin_getConfig")),
     (qs "saveConfig", lua_pushcfunction (qs "plugin_saveConfig")),
     (qs "getRootPath", lua_pushcfunction (qs "plugin_getRootPath")),
     (qs "registerCommand", lua_pushcfunction (qs "plugin_registerCommand")),
     (qs "on", lua_pushcfunction (qs "plugin_on")),
     (qs "call", lua_pushcfunction (qs "plugin_call")),
     (qs "log", lua_pushcfunction (qs "plugin_log")),
     (qs "logError", lua_pushcfunction (qs "plugin_logError"))]
  let L2 := installTable L1 (qs "ui")
    [(qs "message", lua_pushcfunction (qs "ui_message")),
     (qs "confirm", lua_pushcfunction (qs "ui_confirm")),
     (qs "input", lua_pushcfunction (qs "ui_input")),
     (qs "select", lua_pushcfunction (qs "ui_select")),
     (qs "getClipboard", lua_pushcfunction (qs "ui_getClipboard")),
     (qs "setClipboard", lua_pushcfunction (qs "ui_setClipboard"))]
  let L3 := installTable L2 (qs "fs")
    [(qs "read", lua_pushcfunction (qs "fs_read")),
     (qs "write", lua_pushcfunction (qs "fs_write")),
     (qs "append", lua_pushcfunction (qs "fs_append")),
     (qs "exists", lua_pushcfunction (qs "fs_exists")),
     (qs "isFile", lua_pushcfunction (qs "fs_isFile")),
     (qs "isDirectory", lua_pushcfunction (qs "fs_isDirectory")),
     (qs "mkdir", lua_pushcfunction (qs "fs_mkdir")),
     (qs "listdir", lua_pushcfunction (qs "fs_listdir")),
     (qs "realpath", lua_pushcfunction (qs "fs_realpath")),
     (qs "basename", lua_pushcfunction (qs "fs_basename")),
     (qs "dirname", lua_pushcfunction (qs "fs_dirname")),
     (qs "join", lua_pushcfunction (qs "fs_join"))]
  installTable L3 (qs "settings")
    [(qs "get", lua_pushcfunction (qs "settings_get")),
     (qs "set", lua_pushcfunction (qs "settings_set")),
     (qs "has", lua_pushcfunction (qs "settings_has")),
     (qs "remove", lua_pushcfunction (qs "settings_remove"))]

/-- `PluginManager::registerPluginAPI`: its body is empty. -/
def PluginManager.registerPluginAPI (L : lua_State) : lua_State := L

/-! ## Example data

A small plugin tree, JSON reader and interpreter on which the functions above can be
evaluated. -/

/-- The reader `QJsonDocument::fromJson` on the manifests of the example tree. -/
def exampleFromJson (bytes : List Nat) : QJsonDocument :=
  if bytes = qs "\x7b\"name\":\"a\"\x7d" then .object [(qs "name", .string (qs "a"))]
  else if bytes = qs "\x7b\"version\":\"1\"\x7d" then .object [(qs "version", .string (qs "1"))]
  else if bytes = qs "\x7b\"entry\":\"main.lua\",\"name\":\"a\"\x7d" then
    .object [(qs "entry", .string (qs "main.lua")), (qs "name", .string (qs "a"))]
  else if bytes = qs "\x7b\"name\":\"p1\"\x7d" then .object [(qs "name", .string (qs "p1"))]
  else if bytes = qs "\x7b\"name\":\"p2\"\x7d" then .object [(qs "name", .string (qs "p2"))]
  else if bytes = qs "\x7b\"name\":\"p3\"\x7d" then .object [(qs "name", .string (qs "p3"))]
  else if bytes = qs "\x7b\x7d" then .object []
  else .null

/-- Qt on a system with "/" as separator and absolute plugin paths. -/
def exampleQt : Qt :=
  { absoluteFilePath := fun dir name => dir ++ qs "/" ++ name,
    dirName := fun dir => (dir.split 47).getLastD [],
    fromJson := exampleFromJson,
    toJson := fun _ => qs "\x7b\x7d",
    appDataLocation := qs "/data",
    separator := 47 }

/-- The script of a plugin that handles the event "afterFileSave". -/
def exampleHandlerScript : List Nat :=
  qs "function __plugin_event_afterFileSave(f) end"

/-- The script of a plugin whose handler of the event "afterFileSave" raises an error. -/
def exampleFailingScript : List Nat :=
  qs "function __plugin_event_afterFileSave(f) error('boom') end"

/-- The functions of the example interpreter: 1 raises an error, 2 returns the integer
42, 3 returns a text, 4 returns a boolean; 5 and 6 are the chunks of the two handler
scripts, binding `__plugin_event_afterFileSave` to function 0 and to function 1; every
other function returns nothing and leaves the memory of its instance as it is. -/
def exampleCall (f : Nat) (_args : List LuaValue) (s : lua_State) :
    Except LuaValue (List LuaValue) × lua_State :=
  match f with
  | 1 => (.error (.string (qs "boom")), s)
  | 2 => (.ok [.integer 42], s)
  | 3 => (.ok [.string (qs "done")], s)
  | 4 => (.ok [.boolean true], s)
  | 5 => (.ok [], lua_setglobal s (qs "__plugin_event_afterFileSave") (.function 0))
  | 6 => (.ok [], lua_setglobal s (qs "__plugin_event_afterFileSave") (.function 1))
  | _ => (.ok [], s)

/-- An interpreter whose instances start without bindings, that compiles the empty
script to function 0, the two handler scripts to functions 5 and 6, and rejects every
other script. -/
def exampleLua : Interp :=
  { newstate := fun _ => some { globals := [], tables := [] },
    load := fun bytes =>
      if bytes = [] then .ok 0
      else if bytes = exampleHandlerScript then .ok 5
      else if bytes = exampleFailingScript then .ok 6
      else .error (.string (qs "syntax error")),
    call := exampleCall }

/-- The example tree: "/plugins/a" has no manifest; "/other/x" declares the name "a"
and has its entry script; "/plugins/b" has a manifest without a name and no entry
script; "/plugins/c" declares the name "a" and the entry "main.lua", which is missing;
"/ev/p1", "/ev/p2" and "/ev/p3" declare the names "p1", "p2" and "p3" and handle the
event "afterFileSave", the handler of "p2" raising an error. -/
def exampleFs : FileSystem :=
  { files :=
      [(qs "/other/x/manifest.json", qs "\x7b\"name\":\"a\"\x7d"),
       (qs "/other/x/init.lua", []),
       (qs "/plugins/b/manifest.json", qs "\x7b\"version\":\"1\"\x7d"),
       (qs "/plugins/c/manifest.json", qs "\x7b\"entry\":\"main.lua\",\"name\":\"a\"\x7d"),
       (qs "/ev/p1/manifest.json", qs "\x7b\"name\":\"p1\"\x7d"),
       (qs "/ev/p1/init.lua", exampleHandlerScript),
       (qs "/ev/p2/manifest.json", qs "\x7b\"name\":\"p2\"\x7d"),
       (qs "/ev/p2/init.lua", exampleFailingScript),
       (qs "/ev/p3/manifest.json", qs "\x7b\"name\":\"p3\"\x7d"),
       (qs "/ev/p3/init.lua", exampleHandlerScript)],
    unreadable := [],
    unwritable := [] }

/-- A loaded-plugin record with the given name and interpreter address. -/
def examplePlugin (name : QString) (L : Nat) : PluginInfo :=
  { name := name, version := qs "1.0", description := [], author := [], path := qs "/p/" ++ name,
    luaState := some L, enabled := true, error := [], manifest := [(qs "name", .string name)],
    config := [] }

/-- A registry with the plugin "pluginA" loaded; its instance, at address 1, binds
`executeCommand_cmd` to function 0, `executeCommand_bad` to function 1, `answer` to
function 2, `text` to function 3, `flag` to function 4 and `executeCommand_off` to a
number. -/
def exampleWorld : World :=
  { mgr := { editor := some 7, plugins := [(qs "pluginA", examplePlugin (qs "pluginA") 1)],
             failedPlugins := [] },
    heap := { states := [(1, { globals :=
                                 [(qs "executeCommand_cmd", .function 0),
                                  (qs "executeCommand_bad", .function 1),
                                  (qs "answer", .function 2), (qs "text", .function 3),
                                  (qs "flag", .function 4),
                                  (qs "executeCommand_off", .integer 5)],
                               tables := [] })],
              next := 2 },
    fs := exampleFs,
    log := [] }

/-- The memory of an instance holding two command tables: at reference 1
`{id = "file.open", title = "Open", execute = function 0}`, at reference 2
`{id = "open", title = "Open", execute = function 0}`. -/
def exampleTables : lua_State :=
  { globals := [],
    tables :=
      [(1, [(qs "id", .string (qs "file.open")), (qs "title", .string (qs "Open")),
            (qs "execute", .function 0)]),
       (2, [(qs "id", .string (qs "open")), (qs "title", .string (qs "Open")),
            (qs "execute", .function 0)])] }

/-- The example registry with the memory of the instance of "pluginA" replaced. -/
def exampleWorldOf (s : lua_State) : World :=
  { exampleWorld with heap := { states := [(1, s)], next := 2 } }

/-- The example registry after the loads of "/ev/p1", "/ev/p2" and "/ev/p3". -/
def exampleEvents : World :=
  (Op.loadPlugin (qs "/ev/p3")).run exampleQt exampleLua
    ((Op.loadPlugin (qs "/ev/p2")).run exampleQt exampleLua
      ((Op.loadPlugin (qs "/ev/p1")).run exampleQt exampleLua (World.initial 7 exampleFs)))

/-- The example registry after a failed load of "/plugins/c", which declares the name
"a" and lacks its entry script, and a load of "/other/x", which declares the name "a"
as well. -/
def exampleOverlap : World :=
  (Op.loadPlugin (qs "/other/x")).run exampleQt exampleLua
    ((Op.loadPlugin (qs "/plugins/c")).run exampleQt exampleLua (World.initial 7 exampleFs))

/-- The example registry after a load of "/other/x": the plugin "a" is loaded. -/
def exampleLoaded : World :=
  (PluginManager.loadPlugin exampleQt exampleLua (World.initial 7 exampleFs) (qs "/other/x")).2

/-- The example registry before `initialize`: no editor, no plugin. -/
def exampleUninitialised : World :=
  { mgr := { editor := none, plugins := [], failedPlugins := [] },
    heap := { states := [], next := 1 },
    fs := exampleFs,
    log := [] }

/-- The reader of the example tree, extended to the manifests of the roots added to
it below. -/
def exampleFromJson2 (bytes : List Nat) : QJsonDocument :=
  if bytes = qs "\x7b\"name\":\"a\",\"version\":\"2\"\x7d" then
    .object [(qs "name", .string (qs "a")), (qs "version", .string (qs "2"))]
  else if bytes = qs "\x7b\"name\":\"api\"\x7d" then .object [(qs "name", .string (qs "api"))]
  else if bytes = qs "\x7b\"name\":\"s\"\x7d" then .object [(qs "name", .string (qs "s"))]
  else exampleFromJson bytes

/-- The example Qt with the extended reader. -/
def exampleQt2 : Qt := { exampleQt with fromJson := exampleFromJson2 }

/-- The script of a plugin that registers a handler through the plugin API at its top
level. -/
def exampleApiScript : List Nat :=
  qs "plugin.on('ready', function() end)"

/-- The script of a plugin that handles the event "shutdown". -/
def exampleShutdownScript : List Nat :=
  qs "function __plugin_event_shutdown() end"

/-- The functions of the extended example interpreter: 7 is the chunk of the API script,
which calls `plugin.on` when the global `plugin` is a table and raises the error of
indexing a nil value otherwise; 8 is the chunk of the shutdown script, binding
`__plugin_event_shutdown` to function 0; the others are as before. -/
def exampleCall2 (f : Nat) (args : List LuaValue) (s : lua_State) :
    Except LuaValue (List LuaValue) × lua_State :=
  match f with
  | 7 =>
    match lua_getglobal s (qs "plugin") with
    | .table _ =>
      match plugin_on s [.string (qs "ready"), .function 0] with
      | .ok s1 => (.ok [], s1)
      | .error e => (.error (.string e), s)
    | _ => (.error (.string (qs "attempt to index a nil value (global 'plugin')")), s)
  | 8 => (.ok [], lua_setglobal s (qs "__plugin_event_shutdown") (.function 0))
  | _ => exampleCall f args s

/-- The example interpreter, extended to the two scripts above. -/
def exampleLua2 : Interp :=
  { newstate := exampleLua.newstate,
    load := fun bytes =>
      if bytes = exampleApiScript then .ok 7
      else if bytes = exampleShutdownScript then .ok 8
      else exampleLua.load bytes,
    call := exampleCall2 }

/-- The example tree with four more roots: "/other/y" declares the name "a", as
"/other/x" does, with the version "2" and an empty entry script; the manifest of
"/plugins/e" is the empty object; "/api/p" declares the name "api" and its entry
script calls `plugin.on` at its top level; "/ev/s" declares the name "s" and handles
the event "shutdown". -/
def exampleFs2 : FileSystem :=
  { exampleFs with
    files := exampleFs.files ++
      [(qs "/other/y/manifest.json", qs "\x7b\"name\":\"a\",\"version\":\"2\"\x7d"),
       (qs "/other/y/init.lua", []),
       (qs "/plugins/e/manifest.json", qs "\x7b\x7d"),
       (qs "/api/p/manifest.json", qs "\x7b\"name\":\"api\"\x7d"),
       (qs "/api/p/init.lua", exampleApiScript),
       (qs "/ev/s/manifest.json", qs "\x7b\"name\":\"s\"\x7d"),
       (qs "/ev/s/init.lua", exampleShutdownScript)] }

/-- The extended example registry after the loads of "/ev/s" and "/other/x": "a" has
the instance at address 2, "s" the one at address 1. -/
def exampleShutdown : World :=
  (Op.loadPlugin (qs "/other/x")).run exampleQt2 exampleLua2
    ((Op.loadPlugin (qs "/ev/s")).run exampleQt2 exampleLua2 (World.initial 7 exampleFs2))

/-- The example registry after two loads of "/other/x", one after the other. -/
def exampleLeak : World :=
  (Op.loadPlugin (qs "/other/x")).run exampleQt exampleLua
    ((Op.loadPlugin (qs "/other/x")).run exampleQt exampleLua (World.initial 7 exampleFs))

/-- The example registry after the loads of "/ev/p3", "/ev/p1" and "/ev/p2", in this
order. -/
def exampleEventsReordered : World :=
  (Op.loadPlugin (qs "/ev/p2")).run exampleQt exampleLua
    ((Op.loadPlugin (qs "/ev/p1")).run exampleQt exampleLua
      ((Op.loadPlugin (qs "/ev/p3")).run exampleQt exampleLua (World.initial 7 exampleFs)))

/-- The entry script of the command example.  The module it loads defines the commands
and the other functions that `exampleCallCmd` lists. -/
def exampleCommandScript : List Nat :=
  qs "require('commands')"

/-- The functions of the interpreter of the command example: 9 is the chunk of the
entry script, which binds `executeCommand_cmd` to function 0, `executeCommand_bad` to
function 1, `answer` to function 2, `text` to function 3, `flag` to function 4, `nul`
to function 10 and `executeCommand_off` to a number; 10 returns the text
"r" + NUL + "s"; the other functions are those of `exampleCall`. -/
def exampleCallCmd (f : Nat) (args : List LuaValue) (s : lua_State) :
    Except LuaValue (List LuaValue) × lua_State :=
  match f with
  | 9 => (.ok [],
      { s with globals :=
          [(qs "executeCommand_cmd", .function 0), (qs "executeCommand_bad", .function 1),
           (qs "answer", .function 2), (qs "text", .function 3), (qs "flag", .function 4),
           (qs "nul", .function 10), (qs "executeCommand_off", .integer 5)] })
  | 10 => (.ok [.string (qs "r" ++ [0] ++ qs "s")], s)
  | _ => exampleCall f args s

/-- The example interpreter, extended to the entry script of the command example. -/
def exampleLuaCmd : Interp :=
  { newstate := exampleLua.newstate,
    load := fun bytes => if bytes = exampleCommandScript then .ok 9 else exampleLua.load bytes,
    call := exampleCallCmd }

/-- The reader of the example tree, extended to the manifest of the command example. -/
def exampleFromJsonCmd (bytes : List Nat) : QJsonDocument :=
  if bytes = qs "\x7b\"name\":\"pluginA\"\x7d" then .object [(qs "name", .string (qs "pluginA"))]
  else exampleFromJson bytes

/-- The example Qt with this reader. -/
def exampleQtCmd : Qt := { exampleQt with fromJson := exampleFromJsonCmd }

/-- The example tree with the root "/cmd/pluginA", which declares the name "pluginA" and
has `exampleCommandScript` as its entry script. -/
def exampleFsCmd : FileSystem :=
  { exampleFs with
    files := exampleFs.files ++
      [(qs "/cmd/pluginA/manifest.json", qs "\x7b\"name\":\"pluginA\"\x7d"),
       (qs "/cmd/pluginA/init.lua", exampleCommandScript)] }

/-- The registry of the command example after the load of "/cmd/pluginA": "pluginA" is
loaded, with its instance at address 1. -/
def exampleCommands : World :=
  (Op.loadPlugin (qs "/cmd/pluginA")).run exampleQtCmd exampleLuaCmd (World.initial 7 exampleFsCmd)

/-! ## Properties of the text operations -/

theorem QString.compare_swap (a b : QString) : QString.compare b a = - QString.compare a b := by
  induction a generalizing b with
  | nil => cases b <;> simp [QString.compare]
  | cons x xs ih =>
    cases b with
    | nil => simp [QString.compare]
    | cons y ys =>
      simp only [QString.compare]
      by_cases hxy : x = y
      · subst hxy
        simpa using ih ys
      · have hyx : ¬ y = x := fun h => hxy h.symm
        rw [if_neg hxy, if_neg hyx]
        rcases Nat.lt_or_gt_of_ne hxy with h | h
        · have h2 : ¬ y < x := by omega
          simp [h, h2]
        · have h2 : ¬ x < y := by omega
          simp [h, h2]

theorem QString.compare_le_iff (a b : QString) : QString.compare a b ≤ 0 ↔ lexLe a b := by
  induction a generalizing b with
  | nil =>
    cases b with
    | nil => simp [QString.compare, lexLe]
    | cons y ys =>
      simp only [QString.compare, lexLe]
      exact ⟨fun _ => Or.inr List.Lex.nil, fun _ => by decide⟩
  | cons x xs ih =>
    cases b with
    | nil =>
      simp only [QString.compare, lexLe]
      constructor
      · intro h
        exact absurd h (by decide)
      · rintro (h | h)
        · cases h
        · cases h
    | cons y ys =>
      simp only [QString.compare]
      by_cases hxy : x = y
      · subst hxy
        rw [if_pos rfl, ih ys]
        simp only [lexLe, List.cons.injEq, true_and, List.Lex.cons_iff]
      · rw [if_neg hxy]
        by_cases hlt : x < y
        · rw [if_pos hlt]
          exact ⟨fun _ => Or.inr (List.Lex.rel hlt), fun _ => by decide⟩
        · rw [if_neg hlt]
          constructor
          · intro h
            exact absurd h (by decide)
          · rintro (h | h)
            · exact absurd (List.cons.inj h).1 hxy
            · cases h with
              | cons _ => exact absurd rfl hxy
              | rel h => exact absurd h hlt

theorem QString.le_iff (a b : QString) : QString.le a b = true ↔ lexLe a b := by
  simp [QString.le, QString.compare_le_iff]

theorem QString.ge_iff (a b : QString) : QString.ge a b = true ↔ lexLe b a := by
  rw [← QString.compare_le_iff, QString.compare_swap a b]
  simp [QString.ge]

theorem QString.mid_bracketed (inner : QString) :
    QString.mid (91 :: (inner ++ [93])) 1 (((91 :: (inner ++ [93])).length : Int) - 2) = inner := by
  have h1 : ¬ (1 > (91 :: (inner ++ [93])).length) := by simp
  have h2 : ¬ ((((91 :: (inner ++ [93])).length : Int) - 2) < 0 ∨
      (((91 :: (inner ++ [93])).length : Int) - 2) > ((91 :: (inner ++ [93])).length : Int) - (1 : Nat)) := by
    simp only [List.length_cons, List.length_append, List.length_nil]
    push_cast
    omega
  have h3 : ((((91 :: (inner ++ [93])).length : Int) - 2)).toNat = inner.length := by
    simp only [List.length_cons, List.length_append, List.length_nil]
    push_cast
    omega
  unfold QString.mid
  rw [if_neg h1, if_neg h2, h3]
  simp

theorem QString.bracketed_startsWith (inner : QString) :
    QString.startsWith (91 :: (inner ++ [93])) (qs "[") = true := by
  have : qs "[" = [91] := by decide
  simp [QString.startsWith, this, List.isPrefixOf]

theorem QString.bracketed_endsWith (inner : QString) :
    QString.endsWith (91 :: (inner ++ [93])) (qs "]") = true := by
  have : qs "]" = [93] := by decide
  simp [QString.endsWith, this, List.isSuffixOf]

/-! ## Text handed to the interpreter: properties -/

theorem c_str_of_not_mem (s : List Nat) (h : 0 ∉ s) : c_str s = s := by
  unfold c_str
  rw [List.takeWhile_eq_self_iff]
  intro x hx
  simp only [bne_iff_ne, ne_eq]
  intro h0
  exact h (h0 ▸ hx)

theorem c_str_not_mem (s : List Nat) : 0 ∉ c_str s := by
  unfold c_str
  intro h
  have := List.mem_takeWhile_imp h
  simp at this

theorem c_str_cons (x : Nat) (s : List Nat) (hx : x ≠ 0) : c_str (x :: s) = x :: c_str s := by
  unfold c_str
  simp [List.takeWhile_cons, hx]

theorem c_str_zero (s : List Nat) : c_str (0 :: s) = [] := by
  unfold c_str
  simp [List.takeWhile_cons]

theorem c_str_append (a b : List Nat) (h : 0 ∉ a) : c_str (a ++ b) = a ++ c_str b := by
  induction a with
  | nil => rfl
  | cons x a ih =>
    have hx : x ≠ 0 := fun e => h (e ▸ List.mem_cons_self _ _)
    have ha : 0 ∉ a := fun m => h (List.mem_cons_of_mem _ m)
    rw [List.cons_append, c_str_cons _ _ hx, ih ha, List.cons_append]

theorem c_str_idem (s : List Nat) : c_str (c_str s) = c_str s :=
  c_str_of_not_mem _ (c_str_not_mem s)

theorem QChar.encoded_ne_zero (b : Bool) (u : Nat) (next : Option Nat) (hu : u ≠ 0) :
    QChar.encoded b u next ≠ 0 := by
  unfold QChar.encoded
  split
  · split
    · split
      · exact hu
      · decide
    · decide
  · split
    · split
      · exact hu
      · decide
    · exact hu

theorem QChar.encoded_zero (b : Bool) (next : Option Nat) : QChar.encoded b 0 next = 0 := by
  simp [QChar.encoded, QChar.isHighSurrogate, QChar.isLowSurrogate]

theorem QChar.encoded_c_str (b : Bool) (u : Nat) (rest : List Nat) :
    QChar.encoded b u (c_str rest).head? = QChar.encoded b u rest.head? := by
  cases rest with
  | nil => rfl
  | cons v r =>
    by_cases hv : v = 0
    · subst hv
      rw [c_str_zero]
      simp [QChar.encoded, QChar.isLowSurrogate]
    · rw [c_str_cons _ _ hv]
      rfl

theorem QString.toUtf8From_c_str (s : QString) : ∀ b : Bool,
    c_str (QString.toUtf8From b s) = QString.toUtf8From b (c_str s) := by
  induction s with
  | nil => intro b; rfl
  | cons u rest ih =>
    intro b
    by_cases hu0 : u = 0
    · subst hu0
      rw [c_str_zero]
      simp only [QString.toUtf8From, QChar.encoded_zero, c_str_zero]
    · rw [c_str_cons _ _ hu0]
      simp only [QString.toUtf8From]
      rw [c_str_cons _ _ (QChar.encoded_ne_zero _ _ _ hu0), ih, QChar.encoded_c_str]

/-- The C string of the UTF-8 form of a text is the UTF-8 form of the text up to its
first NUL character. -/
theorem QString.toStdString_c_str (s : QString) :
    c_str (QString.toStdString s) = QString.toStdString (c_str s) :=
  QString.toUtf8From_c_str s false

theorem QString.toUtf8From_of_plain (s : QString) (b : Bool)
    (h : ∀ u ∈ s, QChar.isHighSurrogate u = false ∧ QChar.isLowSurrogate u = false) :
    QString.toUtf8From b s = s := by
  induction s generalizing b with
  | nil => rfl
  | cons u rest ih =>
    obtain ⟨h1, h2⟩ := h u (List.mem_cons_self _ _)
    simp only [QString.toUtf8From, QChar.encoded, h1, h2, Bool.false_eq_true, if_false]
    rw [ih _ (fun v hv => h v (List.mem_cons_of_mem _ hv))]

/-- A text without NUL character and without surrogates is handed over as it is. -/
theorem c_str_toStdString_of_plain (s : QString)
    (h : ∀ u ∈ s, u ≠ 0 ∧ QChar.isHighSurrogate u = false ∧ QChar.isLowSurrogate u = false) :
    c_str (QString.toStdString s) = s := by
  unfold QString.toStdString
  rw [QString.toUtf8From_of_plain s false (fun u hu => (h u hu).2)]
  exact c_str_of_not_mem s (fun h0 => (h 0 h0).1 rfl)

/-- A name made of a prefix without NUL and a text read from a C string is handed over
as the name made of the prefix and the text itself is. -/
theorem c_str_toStdString_append (a b : QString) (h : 0 ∉ a) :
    c_str (QString.toStdString (a ++ QString.fromUtf8 (c_str b))) =
      c_str (QString.toStdString (a ++ b)) := by
  unfold QString.fromUtf8
  rw [QString.toStdString_c_str, QString.toStdString_c_str, c_str_append _ _ h,
    c_str_append _ _ h, c_str_idem]

/-! ## Version compatibility: properties -/

/-- C1: for a range "[" + inner + "]" whose inner text splits on the comma into exactly
two parts, the host version is admitted exactly when it lies between the two trimmed
parts in lexicographic order of the texts. -/
theorem isVersionCompatible_range (inner a b host : QString)
    (h : inner.split 44 = [a, b]) :
    PluginManager.isVersionCompatible (qs "[" ++ inner ++ qs "]") host = true ↔
      (lexLe a.trimmed host ∧ lexLe host b.trimmed) := by
  have e1 : qs "[" ++ inner ++ qs "]" = 91 :: (inner ++ [93]) := by
    have h1 : qs "[" = [91] := by decide
    have h2 : qs "]" = [93] := by decide
    rw [h1, h2]; rfl
  rw [e1]
  unfold PluginManager.isVersionCompatible
  simp only [QString.bracketed_startsWith, QString.bracketed_endsWith, QString.mid_bracketed, h]
  simp [QString.ge_iff, QString.le_iff]

/-- C1, at the inputs of the specification: "1.5.0" lies in "[1.0.0, 2.0.0]" and "3.0.0"
does not. -/
theorem isVersionCompatible_range_witness :
    (qs "1.0.0, 2.0.0").split 44 = [qs "1.0.0", qs " 2.0.0"] ∧
    PluginManager.isVersionCompatible (qs "[1.0.0, 2.0.0]") (qs "1.5.0") = true ∧
    PluginManager.isVersionCompatible (qs "[1.0.0, 2.0.0]") (qs "3.0.0") = false :=
  ⟨by decide,
   (isVersionCompatible_range (qs "1.0.0, 2.0.0") (qs "1.0.0") (qs " 2.0.0") (qs "1.5.0")
      (by decide)).mpr (by decide),
   by decide⟩

/-- C2: a range that is empty, is not wrapped in "[" and "]", or is "[" + inner + "]" with
an inner text that does not split on the comma into exactly two parts, admits every
host version. -/
theorem isVersionCompatible_unconstrained (range host : QString)
    (h : range = [] ∨
      ¬ (range.startsWith (qs "[") = true ∧ range.endsWith (qs "]") = true) ∨
      ∃ inner, range = qs "[" ++ inner ++ qs "]" ∧ (inner.split 44).length ≠ 2) :
    PluginManager.isVersionCompatible range host = true := by
  rcases h with h | h | ⟨inner, h, hlen⟩
  · subst h
    have h0 : QString.startsWith [] (qs "[") = false := by decide
    unfold PluginManager.isVersionCompatible
    simp [h0]
  · unfold PluginManager.isVersionCompatible
    by_cases h1 : range.startsWith (qs "[") = true
    · by_cases h2 : range.endsWith (qs "]") = true
      · exact absurd ⟨h1, h2⟩ h
      · simp [h2]
    · simp [h1]
  · have e1 : qs "[" ++ inner ++ qs "]" = 91 :: (inner ++ [93]) := by
      have h1 : qs "[" = [91] := by decide
      have h2 : qs "]" = [93] := by decide
      rw [h1, h2]; rfl
    rw [h, e1]
    unfold PluginManager.isVersionCompatible
    simp only [QString.bracketed_startsWith, QString.bracketed_endsWith, QString.mid_bracketed]
    simp [hlen]

/-- C2, at the inputs of the specification: the empty range, "not-a-range", and a
bracketed range with a single part. -/
theorem isVersionCompatible_unconstrained_witness :
    PluginManager.isVersionCompatible (qs "") (qs "0.1.0") = true ∧
    PluginManager.isVersionCompatible (qs "not-a-range") (qs "0.1.0") = true ∧
    PluginManager.isVersionCompatible (qs "[1.0.0]") (qs "0.1.0") = true :=
  ⟨isVersionCompatible_unconstrained (qs "") (qs "0.1.0") (Or.inl (by decide)),
   isVersionCompatible_unconstrained (qs "not-a-range") (qs "0.1.0") (Or.inr (Or.inl (by decide))),
   isVersionCompatible_unconstrained (qs "[" ++ qs "1.0.0" ++ qs "]") (qs "0.1.0")
     (Or.inr (Or.inr ⟨qs "1.0.0", rfl, by decide⟩))⟩

/-! ## Command dispatch: properties -/

theorem QString.split_ne_nil (s : QString) (sep : Nat) : QString.split s sep ≠ [] := by
  cases s with
  | nil => simp [QString.split]
  | cons c cs =>
    unfold QString.split
    split
    · simp
    · split <;> simp

theorem QString.split_of_not_mem (s : QString) (sep : Nat) (h : sep ∉ s) :
    QString.split s sep = [s] := by
  induction s with
  | nil => rfl
  | cons c cs ih =>
    have hc : ¬ c = sep := fun e => h (by simp [e])
    have hcs : sep ∉ cs := fun e => h (by simp [e])
    unfold QString.split
    rw [if_neg hc, ih hcs]

theorem QString.split_append_sep (a rest : QString) (sep : Nat) (h : sep ∉ a) :
    QString.split (a ++ sep :: rest) sep = a :: QString.split rest sep := by
  induction a with
  | nil =>
    show QString.split (sep :: rest) sep = _
    rw [QString.split, if_pos rfl]
  | cons c cs ih =>
    have hc : ¬ c = sep := fun e => h (by simp [e])
    have hcs : sep ∉ cs := fun e => h (by simp [e])
    show QString.split (c :: (cs ++ sep :: rest)) sep = _
    rw [QString.split, if_neg hc, ih hcs]

/-- C3: a command id whose first dot-separated segment is not the name of a loaded
plugin makes `executeCommand` return failure and leave the world as it was: no
handler is called in any instance. -/
theorem executeCommand_plugin_not_found (lua : Interp) (w : World) (commandId : QString)
    (h : ∀ seg, (commandId.split 46).head? = some seg →
      PluginManager.getPluginInfo w seg = none) :
    PluginManager.executeCommand lua w commandId = (false, w) := by
  unfold PluginManager.executeCommand
  cases hs : commandId.split 46 with
  | nil => exact absurd hs (QString.split_ne_nil _ _)
  | cons seg rest =>
    have hfind : QMap.find w.mgr.plugins seg = none := h seg (by simp [hs])
    simp [hfind]

/-- C3, at the input of the specification: with "pluginA" loaded, "missing.cmd" fails
and nothing is called. -/
theorem executeCommand_plugin_not_found_witness :
    PluginManager.executeCommand exampleLua exampleWorld (qs "missing.cmd") =
      (false, exampleWorld) :=
  executeCommand_plugin_not_found exampleLua exampleWorld (qs "missing.cmd") (by
    intro seg hseg
    have hsplit : (qs "missing.cmd").split 46 = [qs "missing", qs "cmd"] := by decide
    rw [hsplit] at hseg
    cases hseg
    rfl)

/-- C4: a command id with fewer than two dot-separated segments, as every text
without a dot is, makes `executeCommand` return failure and leave the world, the
registry included, as it was, without any call. -/
theorem executeCommand_malformed_id (lua : Interp) (w : World) (commandId : QString)
    (h : (commandId.split 46).length < 2 ∨ 46 ∉ commandId) :
    PluginManager.executeCommand lua w commandId = (false, w) := by
  have hlen : (commandId.split 46).length < 2 := by
    rcases h with h | h
    · exact h
    · rw [QString.split_of_not_mem _ _ h]
      simp
  unfold PluginManager.executeCommand
  simp [hlen]

/-- C4, on the empty id and on an id that is the name of a loaded plugin without a
command part. -/
theorem executeCommand_malformed_id_witness :
    PluginManager.executeCommand exampleLua exampleWorld (qs "") = (false, exampleWorld) ∧
    PluginManager.executeCommand exampleLua exampleWorld (qs "pluginA") = (false, exampleWorld) :=
  ⟨executeCommand_malformed_id exampleLua exampleWorld (qs "") (Or.inr (by decide)),
   executeCommand_malformed_id exampleLua exampleWorld (qs "pluginA") (Or.inl (by decide))⟩

theorem luaLookup_luaBind (g : List (QString × LuaValue)) (k : QString) (v : LuaValue) :
    luaLookup (luaBind g k v) k = v := by
  induction g with
  | nil => simp [luaBind, luaLookup]
  | cons e rest ih =>
    obtain ⟨k', v'⟩ := e
    by_cases hk : k' = k
    · simp [luaBind, luaLookup, hk]
    · simp [luaBind, luaLookup, hk, ih]

theorem lua_getglobal_setglobal (s : lua_State) (k : QString) (v : LuaValue) :
    lua_getglobal (lua_setglobal s k v) k = v := by
  simp [lua_getglobal, lua_setglobal, luaLookup_luaBind]

theorem QString.split_qualified (p c : QString) (hp : 46 ∉ p) (hc : 46 ∉ c) :
    QString.split (p ++ qs "." ++ c) 46 = [p, c] := by
  have hdot : qs "." = [46] := by decide
  have e : p ++ qs "." ++ c = p ++ 46 :: c := by rw [hdot]; simp
  rw [e, QString.split_append_sep _ _ _ hp, QString.split_of_not_mem _ _ hc]

/-- C5, as amended: when neither the name of a loaded plugin nor a command id contains
a dot, and the plugin registered the id with handler `h` through
`plugin.registerCommand`, then `executeCommand` on name + "." + id makes exactly one
call in the plugin's instance: `h`, without arguments. -/
theorem executeCommand_registered (lua : Interp) (w : World) (pluginA cmd title : QString)
    (info : PluginInfo) (L : Nat) (s0 s : lua_State) (arg : LuaValue) (h : Nat)
    (hA : 46 ∉ pluginA) (hc : 46 ∉ cmd)
    (hinfo : PluginManager.getPluginInfo w pluginA = some info)
    (hL : info.luaState = some L) (hs : w.heap.get L = some s)
    (hid : lua_getfield s0 arg (qs "id") = .string cmd)
    (htitle : lua_getfield s0 arg (qs "title") = .string title)
    (hexec : lua_getfield s0 arg (qs "execute") = .function h)
    (hreg : plugin_registerCommand s0 [arg] = .ok s) :
    (PluginManager.executeCommand lua w (pluginA ++ qs "." ++ cmd)).2.log =
      w.log ++ [Event.pcall L (.function h) []] := by
  have hbind : lua_getglobal s (c_str (qs "executeCommand_" ++ cmd).toStdString) =
      .function h := by
    have htable : lua_istable arg = true := by
      cases arg <;> first | rfl | simp [lua_getfield] at hid
    unfold plugin_registerCommand at hreg
    simp [htable, hid, htitle, hexec, luaL_checkstring, lua_tostring, lua_isfunction] at hreg
    rw [← hreg, c_str_toStdString_append _ _ (by decide)]
    exact lua_getglobal_setglobal _ _ _
  have hfind : QMap.find w.mgr.plugins pluginA = some info := hinfo
  unfold PluginManager.executeCommand
  rw [QString.split_qualified _ _ hA hc]
  simp only [List.length_cons, List.length_nil, List.getD_cons_zero, List.getD_cons_succ]
  simp only [hfind, hL, hs, hbind]
  cases hcall : (lua_pcall lua w L s h []).1 <;> simp [hcall, lua_pcall]

/-- C5 as amended, on the example registry: "pluginA" registers "open" with function 0,
and `executeCommand` on "pluginA.open" calls function 0 once. -/
theorem executeCommand_registered_witness :
    (PluginManager.executeCommand exampleLua
        (exampleWorldOf (lua_setglobal exampleTables (qs "executeCommand_open") (.function 0)))
        (qs "pluginA" ++ qs "." ++ qs "open")).2.log =
      [Event.pcall 1 (.function 0) []] :=
  executeCommand_registered exampleLua
    (exampleWorldOf (lua_setglobal exampleTables (qs "executeCommand_open") (.function 0)))
    (qs "pluginA") (qs "open") (qs "Open") (examplePlugin (qs "pluginA") 1) 1 exampleTables
    (lua_setglobal exampleTables (qs "executeCommand_open") (.function 0)) (.table 2) 0
    (by decide) (by decide) rfl rfl rfl rfl rfl rfl rfl

/-- C5 fails as stated: "pluginA" registers the command id "file.open" with function 0,
and `executeCommand` on "pluginA" + "." + "file.open" returns failure without a call. -/
theorem executeCommand_registered_counterexample :
    plugin_registerCommand exampleTables [.table 1] =
      .ok (lua_setglobal exampleTables (qs "executeCommand_file.open") (.function 0)) ∧
    PluginManager.getPluginInfo
      (exampleWorldOf (lua_setglobal exampleTables (qs "executeCommand_file.open") (.function 0)))
      (qs "pluginA") = some (examplePlugin (qs "pluginA") 1) ∧
    (PluginManager.executeCommand exampleLua
      (exampleWorldOf (lua_setglobal exampleTables (qs "executeCommand_file.open") (.function 0)))
      (qs "pluginA" ++ qs "." ++ qs "file.open")).1 = false ∧
    (PluginManager.executeCommand exampleLua
      (exampleWorldOf (lua_setglobal exampleTables (qs "executeCommand_file.open") (.function 0)))
      (qs "pluginA" ++ qs "." ++ qs "file.open")).2.log = [] :=
  ⟨rfl, rfl, by decide, by decide⟩

/-! ## Event broadcast: properties -/

theorem lookup_map_replace (l : List (Nat × lua_State)) (L L' : Nat) (s : lua_State)
    (hne : L' ≠ L) :
    List.lookup L' (l.map (fun e => if e.1 = L then (L, s) else e)) = List.lookup L' l := by
  induction l with
  | nil => rfl
  | cons e rest ih =>
    obtain ⟨k, v⟩ := e
    have hb : (L' == L) = false := by simpa using hne
    by_cases hk : k = L
    · have hb2 : (L' == k) = false := by rw [hk]; exact hb
      rw [List.map_cons, if_pos hk, List.lookup, List.lookup, hb, hb2, ih]
    · rw [List.map_cons, if_neg hk, List.lookup, List.lookup, ih]

theorem LuaHeap.get_set_of_ne (h : LuaHeap) (L L' : Nat) (s : lua_State) (hne : L' ≠ L) :
    (h.set L s).get L' = h.get L' :=
  lookup_map_replace h.states L L' s hne

theorem callHandler_spec (lua : Interp) (name : QString) (args : List LuaValue) (w : World)
    (info : PluginInfo) :
    (PluginManager.callHandler lua name args w info).log =
        w.log ++ (handlerCall w name args info).toList ∧
    (PluginManager.callHandler lua name args w info).mgr = w.mgr ∧
    ∀ L', info.luaState ≠ some L' →
      (PluginManager.callHandler lua name args w info).heap.get L' = w.heap.get L' := by
  cases hL : info.luaState with
  | none => simp [PluginManager.callHandler, handlerCall, hL]
  | some L =>
    cases hs : w.heap.get L with
    | none => simp [PluginManager.callHandler, handlerCall, hL, hs]
    | some s =>
      cases hb : lua_getglobal s name with
      | function f =>
        refine ⟨?_, ?_, ?_⟩
        · simp [PluginManager.callHandler, handlerCall, hL, hs, hb, lua_pcall]
        · simp [PluginManager.callHandler, hL, hs, hb, lua_pcall]
        · intro L' hne
          simp only [PluginManager.callHandler, hL, hs, hb, lua_pcall]
          exact LuaHeap.get_set_of_ne _ _ _ _ (fun e => hne (by rw [e]))
      | _ => simp [PluginManager.callHandler, handlerCall, hL, hs, hb]

theorem handlerCall_congr (w w' : World) (name : QString) (args : List LuaValue)
    (info : PluginInfo) (h : ∀ L, info.luaState = some L → w'.heap.get L = w.heap.get L) :
    handlerCall w' name args info = handlerCall w name args info := by
  unfold handlerCall
  cases hL : info.luaState with
  | none => rfl
  | some L => simp only [h L hL]

theorem foldl_callHandler (lua : Interp) (name : QString) (args : List LuaValue) :
    ∀ (ps : List (QString × PluginInfo)) (w : World),
      (ps.filterMap (fun e => e.2.luaState)).Nodup →
      (ps.foldl (fun w e => PluginManager.callHandler lua name args w e.2) w).log =
          w.log ++ ps.filterMap (fun e => handlerCall w name args e.2) ∧
      (ps.foldl (fun w e => PluginManager.callHandler lua name args w e.2) w).mgr = w.mgr := by
  intro ps
  induction ps with
  | nil => intro w _; simp
  | cons p rest ih =>
    intro w hnd
    obtain ⟨hlog, hmgr, hheap⟩ := callHandler_spec lua name args w p.2
    have hrest : (rest.filterMap (fun e => e.2.luaState)).Nodup := by
      cases hp : p.2.luaState with
      | none => simpa [List.filterMap_cons, hp] using hnd
      | some L =>
        rw [List.filterMap_cons, hp] at hnd
        exact (List.nodup_cons.mp hnd).2
    have hsame : ∀ e ∈ rest,
        handlerCall (PluginManager.callHandler lua name args w p.2) name args e.2 =
          handlerCall w name args e.2 := by
      intro e he
      apply handlerCall_congr
      intro L hL
      apply hheap
      intro hpL
      rw [List.filterMap_cons, hpL] at hnd
      have hmem : L ∈ rest.filterMap (fun e => e.2.luaState) :=
        List.mem_filterMap.mpr ⟨e, he, hL⟩
      exact (List.nodup_cons.mp hnd).1 hmem
    obtain ⟨ihlog, ihmgr⟩ := ih (PluginManager.callHandler lua name args w p.2) hrest
    simp only [List.foldl_cons]
    refine ⟨?_, by rw [ihmgr, hmgr]⟩
    rw [ihlog, hlog, List.filterMap_congr hsame, List.filterMap_cons]
    cases handlerCall w name args p.2 <;> simp

theorem broadcastFileEvent_of_distinct (lua : Interp) (w : World) (eventName filename : QString)
    (hdistinct : w.instances.Nodup) :
    (PluginManager.broadcastFileEvent lua w eventName filename).log =
        w.log ++ w.mgr.plugins.filterMap (fun e =>
          handlerCall w (c_str (qs "__plugin_event_" ++ eventName).toStdString)
            [LuaValue.string (c_str filename.toStdString)] e.2) ∧
    (PluginManager.broadcastFileEvent lua w eventName filename).mgr = w.mgr :=
  foldl_callHandler lua (c_str (qs "__plugin_event_" ++ eventName).toStdString)
    [LuaValue.string (c_str filename.toStdString)] w.mgr.plugins w hdistinct

/-! ## Loading: properties -/

theorem QMap.find_insert_self {V : Type} (m : QMap V) (k : QString) (v : V) :
    QMap.find (QMap.insert m k v) k = some v := by
  induction m with
  | nil => simp [QMap.insert, QMap.find]
  | cons e rest ih =>
    obtain ⟨k', v'⟩ := e
    unfold QMap.insert
    by_cases hk : k' = k
    · simp [hk, QMap.find]
    · by_cases hlt : QString.lt k k' = true
      · simp [hk, hlt, QMap.find]
      · simp [hk, hlt, QMap.find, ih]

theorem World.setFailed_spec (w : World) (key message : QString) :
    (w.setFailed key message).mgr.plugins = w.mgr.plugins ∧
    QMap.find (w.setFailed key message).mgr.failedPlugins key = some message :=
  ⟨rfl, QMap.find_insert_self _ _ _⟩

/-- C9 fails on the code: on the example tree, the load of "/plugins/c", whose manifest
declares the name "a" and whose entry script does not exist, fails, the load of
"/other/x", whose manifest declares the name "a" too, succeeds, and afterwards the
name "a" is a key of the loaded mapping and of the failed mapping at once. -/
theorem loaded_and_failed_overlap :
    (PluginManager.loadPlugin exampleQt exampleLua (World.initial 7 exampleFs)
      (qs "/plugins/c")).1 = false ∧
    (PluginManager.loadPlugin exampleQt exampleLua
      (PluginManager.loadPlugin exampleQt exampleLua (World.initial 7 exampleFs)
        (qs "/plugins/c")).2 (qs "/other/x")).1 = true ∧
    QMap.keys exampleOverlap.mgr.plugins = [qs "a"] ∧
    exampleOverlap.mgr.failedPlugins = [(qs "a", qs "Entry file not found: main.lua")] :=
  ⟨by decide, by decide, by decide, by decide⟩

/-- C10, as amended: on an initialised registry, for a plugin root without manifest
file or whose resolved entry file does not exist, `loadPlugin` returns failure and
leaves the loaded mapping as it was, so that the plugin's key is loaded afterwards
only if it was before; and the failed mapping has an entry under that key, which is
the name the manifest declares, and the name of the directory when there is no
manifest or it declares no name. -/
theorem loadPlugin_missing_file (qt : Qt) (lua : Interp) (w : World) (path : QString)
    (hinit : w.mgr.editor.isSome = true)
    (h : w.fs.exists (qt.absoluteFilePath path (qs "manifest.json")) = false ∨
      w.fs.exists (resolvedEntryPath qt w.fs path) = false) :
    (PluginManager.loadPlugin qt lua w path).1 = false ∧
    (PluginManager.loadPlugin qt lua w path).2.mgr.plugins = w.mgr.plugins ∧
    (QMap.find (PluginManager.loadPlugin qt lua w path).2.mgr.failedPlugins
      (failureKey qt w.fs path)).isSome = true ∧
    (w.fs.exists (qt.absoluteFilePath path (qs "manifest.json")) = false →
      failureKey qt w.fs path = qt.dirName path) := by
  have hed : w.mgr.editor.isNone = false := by
    cases he : w.mgr.editor with
    | none => rw [he] at hinit; exact absurd hinit (by decide)
    | some e => rfl
  have hmissing : w.fs.exists (qt.absoluteFilePath path (qs "manifest.json")) = false →
      failureKey qt w.fs path = qt.dirName path := by
    intro hm
    have hread : w.fs.read (qt.absoluteFilePath path (qs "manifest.json")) = none := by
      unfold FileSystem.exists at hm
      unfold FileSystem.read
      cases hl : List.lookup (qt.absoluteFilePath path (qs "manifest.json")) w.fs.files with
      | none => rfl
      | some b => rw [hl] at hm; simp at hm
    simp [failureKey, declaredName, PluginManager.parseManifest, hread, QJsonObject.value,
      QJsonValue.toString, QJsonValue.toStringOr, QString.isEmpty]
  refine ⟨?_, ?_, ?_, hmissing⟩
  all_goals
    unfold PluginManager.loadPlugin
    simp only [hed, Bool.false_eq_true, if_false]
    by_cases hm : w.fs.exists (qt.absoluteFilePath path (qs "manifest.json")) = true
    · have he : w.fs.exists (resolvedEntryPath qt w.fs path) = false := by
        rcases h with h | h
        · rw [h] at hm; exact absurd hm (by decide)
        · exact h
      unfold resolvedEntryPath at he
      simp only [hm, Bool.not_true, Bool.false_eq_true, if_false]
      by_cases h1 : QJsonObject.isEmpty (PluginManager.parseManifest qt w.fs
          (qt.absoluteFilePath path (qs "manifest.json"))) = true
      · have hname : declaredName qt w.fs path = [] := by
          unfold declaredName
          have : PluginManager.parseManifest qt w.fs
              (qt.absoluteFilePath path (qs "manifest.json")) = [] := by
            simpa [QJsonObject.isEmpty] using h1
          rw [this]; rfl
        simp [h1, failureKey, hname, QString.isEmpty, World.setFailed_spec]
      · by_cases h2 : QString.isEmpty (declaredName qt w.fs path) = true
        · have h2' := h2
          unfold declaredName at h2'
          simp [h1, h2', failureKey, h2, World.setFailed_spec]
        · have h2' := h2
          unfold declaredName at h2'
          by_cases h3 : (!QString.isEmpty ((QJsonObject.value (PluginManager.parseManifest qt w.fs
              (qt.absoluteFilePath path (qs "manifest.json")))
                (qs "nnp-compatible-versions")).toString) &&
              !PluginManager.isVersionCompatible ((QJsonObject.value
                (PluginManager.parseManifest qt w.fs
                  (qt.absoluteFilePath path (qs "manifest.json")))
                (qs "nnp-compatible-versions")).toString) (qs "0.1.0")) = true
          · simp only [h1, h2', h3, Bool.false_eq_true, if_false, if_true] <;>
              simp [failureKey, h2, World.setFailed_spec] <;>
              (unfold declaredName; simp [World.setFailed_spec])
          · simp only [h1, h2', h3, he, Bool.false_eq_true, if_false, Bool.not_false, if_true] <;>
              simp [failureKey, h2, World.setFailed_spec] <;>
              (unfold declaredName; simp [World.setFailed_spec])
    · have hm' : w.fs.exists (qt.absoluteFilePath path (qs "manifest.json")) = false := by
        simpa using hm
      simp [hm', hmissing hm', World.setFailed_spec]

/-- C10 as amended, on the example tree: "/plugins/a" has no manifest and its failure
is recorded under the directory name "a"; "/plugins/c" declares the name "a" and an
entry script that does not exist, and its failure is recorded under "a". -/
theorem loadPlugin_missing_file_witness :
    ((PluginManager.loadPlugin exampleQt exampleLua (World.initial 7 exampleFs)
        (qs "/plugins/a")).1 = false ∧
      failureKey exampleQt exampleFs (qs "/plugins/a") = qs "a") ∧
    (exampleFs.exists (resolvedEntryPath exampleQt exampleFs (qs "/plugins/c")) = false ∧
      failureKey exampleQt exampleFs (qs "/plugins/c") = qs "a" ∧
      (PluginManager.loadPlugin exampleQt exampleLua (World.initial 7 exampleFs)
        (qs "/plugins/c")).2.mgr.plugins = [] ∧
      (QMap.find (PluginManager.loadPlugin exampleQt exampleLua (World.initial 7 exampleFs)
        (qs "/plugins/c")).2.mgr.failedPlugins (qs "a")).isSome = true) :=
  ⟨⟨(loadPlugin_missing_file exampleQt exampleLua (World.initial 7 exampleFs) (qs "/plugins/a")
      (by decide) (Or.inl (by decide))).1,
    (loadPlugin_missing_file exampleQt exampleLua (World.initial 7 exampleFs) (qs "/plugins/a")
      (by decide) (Or.inl (by decide))).2.2.2 (by decide)⟩,
   by decide, by decide,
   (loadPlugin_missing_file exampleQt exampleLua (World.initial 7 exampleFs) (qs "/plugins/c")
      (by decide) (Or.inr (by decide))).2.1,
   (loadPlugin_missing_file exampleQt exampleLua (World.initial 7 exampleFs) (qs "/plugins/c")
      (by decide) (Or.inr (by decide))).2.2.1⟩

/-- C10 fails as stated, in two ways.  With the plugin "a" loaded from "/other/x", the
load of "/plugins/c", which declares the name "a" and whose entry script does not
exist, fails and records "a" as failed while "a" is still a key of the loaded
mapping.  And the load of "/plugins/b", whose manifest declares no name and whose
entry script does not exist, is recorded under the directory name "b", not under the
declared name, which is empty. -/
theorem loadPlugin_missing_file_counterexample :
    (exampleLoaded.mgr.editor = some 7 ∧
      exampleLoaded.fs.exists (resolvedEntryPath exampleQt exampleLoaded.fs (qs "/plugins/c"))
        = false ∧
      declaredName exampleQt exampleLoaded.fs (qs "/plugins/c") = qs "a" ∧
      (PluginManager.loadPlugin exampleQt exampleLua exampleLoaded (qs "/plugins/c")).1 = false ∧
      QMap.keys (PluginManager.loadPlugin exampleQt exampleLua exampleLoaded
        (qs "/plugins/c")).2.mgr.failedPlugins = [qs "a"] ∧
      QMap.keys (PluginManager.loadPlugin exampleQt exampleLua exampleLoaded
        (qs "/plugins/c")).2.mgr.plugins = [qs "a"]) ∧
    (exampleFs.exists (qs "/plugins/b/manifest.json") = true ∧
      exampleFs.exists (resolvedEntryPath exampleQt exampleFs (qs "/plugins/b")) = false ∧
      declaredName exampleQt exampleFs (qs "/plugins/b") = [] ∧
      (PluginManager.loadPlugin exampleQt exampleLua (World.initial 7 exampleFs)
        (qs "/plugins/b")).2.mgr.failedPlugins = [(qs "b", qs "Plugin name is empty")]) :=
  ⟨⟨by decide, by decide, by decide, by decide, by decide, by decide⟩,
   ⟨by decide, by decide, by decide, by decide⟩⟩

/-! ## Reachable worlds: every loaded record has an instance of its own -/

theorem QMap.erase_sublist {V : Type} (m : QMap V) (k : QString) :
    List.Sublist (QMap.erase m k) m := by
  induction m with
  | nil => exact List.Sublist.refl _
  | cons e rest ih =>
    obtain ⟨k', v'⟩ := e
    unfold QMap.erase
    by_cases hk : k' = k
    · rw [if_pos hk]
      exact List.sublist_cons_self _ _
    · rw [if_neg hk]
      exact ih.cons₂ _

theorem QMap.filterMap_insert_mem (m : QMap PluginInfo) (k : QString) (v : PluginInfo) (x : Nat)
    (hx : x ∈ (QMap.insert m k v).filterMap (fun e => e.2.luaState)) :
    v.luaState = some x ∨ x ∈ m.filterMap (fun e => e.2.luaState) := by
  induction m with
  | nil =>
    simp only [QMap.insert, List.mem_filterMap, List.mem_singleton] at hx
    obtain ⟨e, he, hL⟩ := hx
    subst he
    exact Or.inl hL
  | cons e rest ih =>
    obtain ⟨k', v'⟩ := e
    unfold QMap.insert at hx
    by_cases hk : k' = k
    · rw [if_pos hk] at hx
      rcases List.mem_filterMap.mp hx with ⟨e, he, hL⟩
      rcases List.mem_cons.mp he with he | he
      · subst he; exact Or.inl hL
      · exact Or.inr (List.mem_filterMap.mpr ⟨e, List.mem_cons_of_mem _ he, hL⟩)
    · rw [if_neg hk] at hx
      by_cases hlt : QString.lt k k' = true
      · rw [if_pos hlt] at hx
        rcases List.mem_filterMap.mp hx with ⟨e, he, hL⟩
        rcases List.mem_cons.mp he with he | he
        · subst he; exact Or.inl hL
        · exact Or.inr (List.mem_filterMap.mpr ⟨e, he, hL⟩)
      · rw [if_neg hlt] at hx
        rcases List.mem_filterMap.mp hx with ⟨e, he, hL⟩
        rcases List.mem_cons.mp he with he | he
        · subst he
          exact Or.inr (List.mem_filterMap.mpr ⟨(k', v'), List.mem_cons_self _ _, hL⟩)
        · rcases ih (List.mem_filterMap.mpr ⟨e, he, hL⟩) with h | h
          · exact Or.inl h
          · rcases List.mem_filterMap.mp h with ⟨e2, he2, hL2⟩
            exact Or.inr (List.mem_filterMap.mpr ⟨e2, List.mem_cons_of_mem _ he2, hL2⟩)

theorem QMap.filterMap_insert_nodup (m : QMap PluginInfo) (k : QString) (v : PluginInfo)
    (L : Nat) (hv : v.luaState = some L)
    (hnew : L ∉ m.filterMap (fun e => e.2.luaState))
    (hnd : (m.filterMap (fun e => e.2.luaState)).Nodup) :
    ((QMap.insert m k v).filterMap (fun e => e.2.luaState)).Nodup := by
  induction m with
  | nil => simp [QMap.insert, List.filterMap_cons, hv]
  | cons e rest ih =>
    obtain ⟨k', v'⟩ := e
    have hrest_nd : (rest.filterMap (fun e => e.2.luaState)).Nodup := by
      cases hv' : v'.luaState with
      | none => simpa [List.filterMap_cons, hv'] using hnd
      | some L' =>
        rw [List.filterMap_cons] at hnd
        simp only [hv'] at hnd
        exact (List.nodup_cons.mp hnd).2
    have hrest_new : L ∉ rest.filterMap (fun e => e.2.luaState) := by
      intro hmem
      apply hnew
      rcases List.mem_filterMap.mp hmem with ⟨e2, he2, hL2⟩
      exact List.mem_filterMap.mpr ⟨e2, List.mem_cons_of_mem _ he2, hL2⟩
    unfold QMap.insert
    by_cases hk : k' = k
    · rw [if_pos hk, List.filterMap_cons]
      simp only [hv]
      exact List.nodup_cons.mpr ⟨hrest_new, hrest_nd⟩
    · rw [if_neg hk]
      by_cases hlt : QString.lt k k' = true
      · rw [if_pos hlt, List.filterMap_cons]
        simp only [hv]
        exact List.nodup_cons.mpr ⟨hnew, hnd⟩
      · rw [if_neg hlt, List.filterMap_cons]
        cases hv' : v'.luaState with
        | none =>
          simp only []
          exact ih hrest_new hrest_nd
        | some L' =>
          simp only []
          refine List.nodup_cons.mpr ⟨?_, ih hrest_new hrest_nd⟩
          intro hmem
          rcases QMap.filterMap_insert_mem rest k v L' hmem with h | h
          · rw [hv] at h
            cases h
            apply hnew
            exact List.mem_filterMap.mpr ⟨(k', v'), List.mem_cons_self _ _, hv'⟩
          · rw [List.filterMap_cons] at hnd
            simp only [hv'] at hnd
            exact (List.nodup_cons.mp hnd).1 h

theorem callHandler_frame (lua : Interp) (name : QString) (args : List LuaValue) (w : World)
    (info : PluginInfo) :
    (PluginManager.callHandler lua name args w info).mgr = w.mgr ∧
    (PluginManager.callHandler lua name args w info).heap.next = w.heap.next := by
  unfold PluginManager.callHandler
  split
  · exact ⟨rfl, rfl⟩
  · split
    · exact ⟨rfl, rfl⟩
    · split
      · exact ⟨rfl, rfl⟩
      · exact ⟨rfl, rfl⟩

theorem foldl_callHandler_frame (lua : Interp) (name : QString) (args : List LuaValue) :
    ∀ (ps : List (QString × PluginInfo)) (w : World),
      (ps.foldl (fun w e => PluginManager.callHandler lua name args w e.2) w).mgr = w.mgr ∧
      (ps.foldl (fun w e => PluginManager.callHandler lua name args w e.2) w).heap.next =
        w.heap.next := by
  intro ps
  induction ps with
  | nil => intro w; exact ⟨rfl, rfl⟩
  | cons p rest ih =>
    intro w
    obtain ⟨h1, h2⟩ := callHandler_frame lua name args w p.2
    obtain ⟨h3, h4⟩ := ih (PluginManager.callHandler lua name args w p.2)
    simp only [List.foldl_cons]
    exact ⟨h3.trans h1, h4.trans h2⟩

theorem executeCommand_frame (lua : Interp) (w : World) (commandId : QString) :
    (PluginManager.executeCommand lua w commandId).2.mgr = w.mgr ∧
    (PluginManager.executeCommand lua w commandId).2.heap.next = w.heap.next := by
  unfold PluginManager.executeCommand
  simp only []
  split
  · exact ⟨rfl, rfl⟩
  · split
    · exact ⟨rfl, rfl⟩
    · split
      · exact ⟨rfl, rfl⟩
      · split
        · exact ⟨rfl, rfl⟩
        · split
          · split <;> exact ⟨rfl, rfl⟩
          · exact ⟨rfl, rfl⟩

theorem callPluginFunction_some_frame (lua : Interp) (w : World)
    (pluginName functionName : QString) (args : List QString) (r : QString × World)
    (h : PluginManager.callPluginFunction lua w pluginName functionName args = some r) :
    r.2.mgr = w.mgr ∧ r.2.heap.next = w.heap.next := by
  unfold PluginManager.callPluginFunction at h
  split at h
  · cases h; exact ⟨rfl, rfl⟩
  · split at h
    · cases h; exact ⟨rfl, rfl⟩
    · split at h
      · cases h; exact ⟨rfl, rfl⟩
      · split at h
        · split at h
          · cases h
          · simp only [] at h
            split at h <;> cases h <;> exact ⟨rfl, rfl⟩
        · cases h; exact ⟨rfl, rfl⟩

theorem callPluginFunction_frame (qt : Qt) (lua : Interp) (w : World)
    (pluginName functionName : QString) (args : List QString) :
    ((Op.callPluginFunction pluginName functionName args).run qt lua w).mgr = w.mgr ∧
    ((Op.callPluginFunction pluginName functionName args).run qt lua w).heap.next =
      w.heap.next := by
  show (match PluginManager.callPluginFunction lua w pluginName functionName args with
    | some r => r.2
    | none => w).mgr = w.mgr ∧
    (match PluginManager.callPluginFunction lua w pluginName functionName args with
    | some r => r.2
    | none => w).heap.next = w.heap.next
  cases h : PluginManager.callPluginFunction lua w pluginName functionName args with
  | none => exact ⟨rfl, rfl⟩
  | some r => exact callPluginFunction_some_frame lua w pluginName functionName args r h

theorem createPluginLuaState_spec (qt : Qt) (lua : Interp) (w : World) (pluginPath : QString)
    (manifest : QJsonObject) :
    (PluginManager.createPluginLuaState qt lua w pluginPath manifest).2.mgr = w.mgr ∧
    w.heap.next ≤ (PluginManager.createPluginLuaState qt lua w pluginPath manifest).2.heap.next ∧
    ∀ L, (PluginManager.createPluginLuaState qt lua w pluginPath manifest).1 = some L →
      L = w.heap.next ∧
      (PluginManager.createPluginLuaState qt lua w pluginPath manifest).2.heap.next =
        w.heap.next + 1 := by
  unfold PluginManager.createPluginLuaState
  simp only []
  split
  · exact ⟨rfl, Nat.le_refl _, fun L h => by cases h⟩
  · split
    · exact ⟨rfl, Nat.le_succ _, fun L h => by cases h⟩
    · split
      · exact ⟨rfl, Nat.le_succ _, fun L h => by cases h⟩
      · refine ⟨rfl, Nat.le_succ _, fun L h => ?_⟩
        cases h
        exact ⟨rfl, rfl⟩

theorem loadPlugin_plugins (qt : Qt) (lua : Interp) (w : World) (path : QString) :
    ((PluginManager.loadPlugin qt lua w path).2.mgr.plugins = w.mgr.plugins ∧
      w.heap.next ≤ (PluginManager.loadPlugin qt lua w path).2.heap.next) ∨
    ∃ name info, info.luaState = some w.heap.next ∧
      (PluginManager.loadPlugin qt lua w path).2.heap.next = w.heap.next + 1 ∧
      (PluginManager.loadPlugin qt lua w path).2.mgr.plugins =
        QMap.insert w.mgr.plugins name info := by
  unfold PluginManager.loadPlugin
  simp only []
  split
  · exact Or.inl ⟨rfl, Nat.le_refl _⟩
  · split
    · exact Or.inl ⟨rfl, Nat.le_refl _⟩
    · split
      · exact Or.inl ⟨rfl, Nat.le_refl _⟩
      · split
        · exact Or.inl ⟨rfl, Nat.le_refl _⟩
        · split
          · exact Or.inl ⟨rfl, Nat.le_refl _⟩
          · split
            · exact Or.inl ⟨rfl, Nat.le_refl _⟩
            · split
              · rename_i w1 heq
                obtain ⟨hm, hn, _⟩ := createPluginLuaState_spec qt lua w path
                  (PluginManager.parseManifest qt w.fs (qt.absoluteFilePath path (qs "manifest.json")))
                rw [heq] at hm hn
                refine Or.inl ⟨?_, hn⟩
                show w1.mgr.plugins = w.mgr.plugins
                rw [hm]
              · rename_i L w1 heq
                obtain ⟨hm, _, hL⟩ := createPluginLuaState_spec qt lua w path
                  (PluginManager.parseManifest qt w.fs (qt.absoluteFilePath path (qs "manifest.json")))
                rw [heq] at hm hL
                obtain ⟨hL1, hL2⟩ := hL L rfl
                subst hL1
                rw [hm]
                refine Or.inr ⟨_, _, ?_, ?_, rfl⟩
                · rfl
                · exact hL2

theorem World.OwnInstances.of_frame (w w' : World) (hp : w'.mgr.plugins = w.mgr.plugins)
    (hn : w.heap.next ≤ w'.heap.next) (h : w.OwnInstances) : w'.OwnInstances := by
  unfold World.OwnInstances World.instances at *
  rw [hp]
  exact ⟨fun L hL => Nat.lt_of_lt_of_le (h.1 L hL) hn, h.2⟩

theorem loadPlugin_ownInstances (qt : Qt) (lua : Interp) (w : World) (path : QString)
    (h : w.OwnInstances) : (PluginManager.loadPlugin qt lua w path).2.OwnInstances := by
  rcases loadPlugin_plugins qt lua w path with ⟨hp, hn⟩ | ⟨name, info, hL, hn, hp⟩
  · exact World.OwnInstances.of_frame _ _ hp hn h
  · have hfresh : w.heap.next ∉ w.mgr.plugins.filterMap (fun e => e.2.luaState) :=
      fun hmem => Nat.lt_irrefl _ (h.1 _ hmem)
    unfold World.OwnInstances World.instances
    rw [hp, hn]
    refine ⟨?_, QMap.filterMap_insert_nodup _ _ _ _ hL hfresh h.2⟩
    intro L hmem
    rcases QMap.filterMap_insert_mem _ _ _ _ hmem with h1 | h1
    · rw [hL] at h1
      cases h1
      exact Nat.lt_succ_self _
    · exact Nat.lt_succ_of_lt (h.1 L h1)

theorem unloadPlugin_plugins (qt : Qt) (w : World) (pluginName : QString) :
    List.Sublist (PluginManager.unloadPlugin qt w pluginName).mgr.plugins w.mgr.plugins ∧
    (PluginManager.unloadPlugin qt w pluginName).heap.next = w.heap.next := by
  unfold PluginManager.unloadPlugin
  split
  · exact ⟨List.Sublist.refl _, rfl⟩
  · simp only []
    split
    · exact ⟨QMap.erase_sublist _ _, rfl⟩
    · exact ⟨QMap.erase_sublist _ _, rfl⟩

theorem unloadPlugin_ownInstances (qt : Qt) (w : World) (pluginName : QString)
    (h : w.OwnInstances) : (PluginManager.unloadPlugin qt w pluginName).OwnInstances := by
  obtain ⟨hs, hn⟩ := unloadPlugin_plugins qt w pluginName
  have hsub := hs.filterMap (fun e => e.2.luaState)
  unfold World.OwnInstances World.instances at *
  rw [hn]
  exact ⟨fun L hL => h.1 L (hsub.subset hL), h.2.sublist hsub⟩

/-- In every world the manager can reach, the loaded records hold pairwise different
interpreter instances, all given out before. -/
theorem reachable_ownInstances (qt : Qt) (lua : Interp) (w : World)
    (h : Reachable qt lua w) : w.OwnInstances := by
  induction h with
  | initial editor fs =>
    exact ⟨fun L hL => by simp [World.instances, World.initial] at hL, List.nodup_nil⟩
  | step w op _ ih =>
    cases op with
    | init e =>
      refine World.OwnInstances.of_frame w _ ?_ ?_ ih
      · show ( PluginManager.initialize w e).2.mgr.plugins = w.mgr.plugins
        unfold PluginManager.initialize
        split
        · rfl
        · simp only []
          split <;> rfl
      · show w.heap.next ≤ ( PluginManager.initialize w e).2.heap.next
        unfold PluginManager.initialize
        split
        · exact Nat.le_refl _
        · simp only []
          split <;> exact Nat.le_refl _
    | finalize =>
      exact ⟨fun L hL => by
        simp [Op.run, PluginManager.finalize, World.instances] at hL, List.nodup_nil⟩
    | loadPlugin path => exact loadPlugin_ownInstances qt lua w path ih
    | unloadPlugin n => exact unloadPlugin_ownInstances qt w n ih
    | reloadPlugin n =>
      show (PluginManager.reloadPlugin qt lua w n).OwnInstances
      unfold PluginManager.reloadPlugin
      split
      · exact ih
      · exact loadPlugin_ownInstances qt lua _ _ (unloadPlugin_ownInstances qt w n ih)
    | executeCommand c =>
      obtain ⟨h1, h2⟩ := executeCommand_frame lua w c
      exact World.OwnInstances.of_frame w _ (congrArg PluginManager.plugins h1) (Nat.le_of_eq h2.symm) ih
    | callPluginFunction p f args =>
      obtain ⟨h1, h2⟩ := callPluginFunction_frame qt lua w p f args
      exact World.OwnInstances.of_frame w _ (congrArg PluginManager.plugins h1) (Nat.le_of_eq h2.symm) ih
    | notifyReady =>
      obtain ⟨h1, h2⟩ := foldl_callHandler_frame lua (qs "__plugin_event_ready") [] w.mgr.plugins w
      exact World.OwnInstances.of_frame w _ (congrArg PluginManager.plugins h1) (Nat.le_of_eq h2.symm) ih
    | notifyShutdown =>
      obtain ⟨h1, h2⟩ :=
        foldl_callHandler_frame lua (qs "__plugin_event_shutdown") [] w.mgr.plugins w
      exact World.OwnInstances.of_frame w _ (congrArg PluginManager.plugins h1) (Nat.le_of_eq h2.symm) ih
    | broadcastFileEvent e f =>
      obtain ⟨h1, h2⟩ := foldl_callHandler_frame lua
        (c_str (qs "__plugin_event_" ++ e).toStdString)
        [LuaValue.string (c_str f.toStdString)] w.mgr.plugins w
      exact World.OwnInstances.of_frame w _ (congrArg PluginManager.plugins h1) (Nat.le_of_eq h2.symm) ih

/-! ## The outcomes of a load -/

theorem createPluginLuaState_fs (qt : Qt) (lua : Interp) (w : World) (pluginPath : QString)
    (manifest : QJsonObject) :
    (PluginManager.createPluginLuaState qt lua w pluginPath manifest).2.fs = w.fs := by
  unfold PluginManager.createPluginLuaState
  simp only []
  split
  · rfl
  · split
    · rfl
    · split <;> rfl

theorem qs_append_ne_nil (a b : QString) (h : a ≠ []) : a ++ b ≠ [] := by
  cases a with
  | nil => exact absurd rfl h
  | cons x xs => simp

/-- The three ways a load ends: at once without an editor; with a failure recorded
under the failure key, the registry otherwise as the set-up of the instance left it;
or with the record of the plugin stored under the declared name. -/
theorem loadPlugin_outcome (qt : Qt) (lua : Interp) (w : World) (path : QString) :
    (w.mgr.editor = none ∧ PluginManager.loadPlugin qt lua w path = (false, w)) ∨
    (w.mgr.editor.isSome = true ∧ ∃ (msg : QString) (w1 : World), msg ≠ [] ∧ w1.mgr = w.mgr ∧ w1.fs = w.fs ∧
      w.heap.next ≤ w1.heap.next ∧
      PluginManager.loadPlugin qt lua w path =
        (false, w1.setFailed (failureKey qt w.fs path) msg)) ∨
    (w.mgr.editor.isSome = true ∧ (declaredName qt w.fs path).isEmpty = false ∧
      ∃ w1 : World, PluginManager.createPluginLuaState qt lua w path
          (PluginManager.parseManifest qt w.fs (qt.absoluteFilePath path (qs "manifest.json"))) =
          (some w.heap.next, w1) ∧
        PluginManager.loadPlugin qt lua w path =
          (true, w1.setLoaded (declaredName qt w.fs path)
            (loadedRecord qt w.fs path w.heap.next))) := by
  cases hed : w.mgr.editor with
  | none =>
    left
    refine ⟨rfl, ?_⟩
    unfold PluginManager.loadPlugin
    simp [hed]
  | some ed =>
    right
    have hfail : ∀ (msg : QString) (w1 : World), msg ≠ [] → w1.mgr = w.mgr → w1.fs = w.fs →
        w.heap.next ≤ w1.heap.next →
        PluginManager.loadPlugin qt lua w path =
          (false, w1.setFailed (failureKey qt w.fs path) msg) →
        (((some ed : Option Nat).isSome = true ∧ ∃ (msg : QString) (w1 : World), msg ≠ [] ∧ w1.mgr = w.mgr ∧
          w1.fs = w.fs ∧ w.heap.next ≤ w1.heap.next ∧
          PluginManager.loadPlugin qt lua w path =
            (false, w1.setFailed (failureKey qt w.fs path) msg)) ∨
        ((some ed : Option Nat).isSome = true ∧ (declaredName qt w.fs path).isEmpty = false ∧
          ∃ w1 : World, PluginManager.createPluginLuaState qt lua w path
              (PluginManager.parseManifest qt w.fs
                (qt.absoluteFilePath path (qs "manifest.json"))) = (some w.heap.next, w1) ∧
            PluginManager.loadPlugin qt lua w path =
              (true, w1.setLoaded (declaredName qt w.fs path)
                (loadedRecord qt w.fs path w.heap.next)))) :=
      fun msg w1 h1 h2 h3 h4 h5 => Or.inl ⟨rfl, msg, w1, h1, h2, h3, h4, h5⟩
    by_cases hm : w.fs.exists (qt.absoluteFilePath path (qs "manifest.json")) = true
    · by_cases h1 : QJsonObject.isEmpty (PluginManager.parseManifest qt w.fs
          (qt.absoluteFilePath path (qs "manifest.json"))) = true
      · have hname : declaredName qt w.fs path = [] := by
          unfold declaredName
          have : PluginManager.parseManifest qt w.fs
              (qt.absoluteFilePath path (qs "manifest.json")) = [] := by
            simpa [QJsonObject.isEmpty] using h1
          rw [this]; rfl
        apply hfail (qs "Failed to parse manifest.json") w (by decide) rfl rfl (Nat.le_refl _)
        unfold PluginManager.loadPlugin
        simp [hed, hm, h1, failureKey, hname, QString.isEmpty]
      · by_cases h2 : QString.isEmpty (declaredName qt w.fs path) = true
        · apply hfail (qs "Plugin name is empty") w (by decide) rfl rfl (Nat.le_refl _)
          have h2' := h2
          unfold declaredName at h2'
          unfold PluginManager.loadPlugin
          simp [hed, hm, h1, h2', failureKey, h2]
        · have h2' := h2
          unfold declaredName at h2'
          have hkey : failureKey qt w.fs path = declaredName qt w.fs path := by
            simp [failureKey, h2]
          by_cases h3 : (!QString.isEmpty ((QJsonObject.value (PluginManager.parseManifest qt w.fs
              (qt.absoluteFilePath path (qs "manifest.json")))
                (qs "nnp-compatible-versions")).toString) &&
              !PluginManager.isVersionCompatible ((QJsonObject.value
                (PluginManager.parseManifest qt w.fs
                  (qt.absoluteFilePath path (qs "manifest.json")))
                (qs "nnp-compatible-versions")).toString) (qs "0.1.0")) = true
          · apply hfail (qs "Version incompatible: plugin requires " ++
              (QJsonObject.value (PluginManager.parseManifest qt w.fs
                (qt.absoluteFilePath path (qs "manifest.json")))
                (qs "nnp-compatible-versions")).toString ++ qs ", app is " ++ qs "0.1.0") w
              (by
                rw [List.append_assoc, List.append_assoc]
                exact qs_append_ne_nil _ _ (by decide)) rfl rfl (Nat.le_refl _)
            unfold PluginManager.loadPlugin
            simp only [hed, Option.isNone_some, Bool.false_eq_true, if_false, hm, Bool.not_true,
              h1, h2', h3, if_true, hkey]
            rfl
          · by_cases h4 : w.fs.exists (resolvedEntryPath qt w.fs path) = true
            · have h4' := h4
              unfold resolvedEntryPath at h4'
              obtain ⟨hcm, hcn, hcL⟩ := createPluginLuaState_spec qt lua w path
                (PluginManager.parseManifest qt w.fs (qt.absoluteFilePath path (qs "manifest.json")))
              have hcf := createPluginLuaState_fs qt lua w path
                (PluginManager.parseManifest qt w.fs (qt.absoluteFilePath path (qs "manifest.json")))
              cases hc : PluginManager.createPluginLuaState qt lua w path
                (PluginManager.parseManifest qt w.fs
                  (qt.absoluteFilePath path (qs "manifest.json"))) with
              | mk r w1 =>
                rw [hc] at hcm hcn hcL hcf
                cases r with
                | none =>
                  refine Or.inl ⟨rfl, qs "Failed to create Lua state", w1, by decide, hcm, hcf,
                    hcn, ?_⟩
                  unfold PluginManager.loadPlugin
                  simp only [hed, Option.isNone_some, Bool.false_eq_true, if_false, hm,
                    Bool.not_true, h1, h2', h3, h4', hc, hkey]
                  rfl
                | some L =>
                  obtain ⟨hL, _⟩ := hcL L rfl
                  subst hL
                  right
                  refine ⟨rfl, by simpa using h2, w1, rfl, ?_⟩
                  unfold PluginManager.loadPlugin
                  simp only [hed, Option.isNone_some, Bool.false_eq_true, if_false, hm,
                    Bool.not_true, h1, h2', h3, h4', hc]
                  have hcf' : w1.fs = w.fs := hcf
                  simp only [World.setLoaded, loadedRecord, declaredName, hcf']
            · have h4' := h4
              unfold resolvedEntryPath at h4'
              apply hfail (qs "Entry file not found: " ++
                (QJsonObject.value (PluginManager.parseManifest qt w.fs
                  (qt.absoluteFilePath path (qs "manifest.json"))) (qs "entry")).toStringOr
                    (qs "init.lua")) w
                (qs_append_ne_nil _ _ (by decide)) rfl rfl (Nat.le_refl _)
              unfold PluginManager.loadPlugin
              simp only [hed, Option.isNone_some, Bool.false_eq_true, if_false, hm, Bool.not_true,
                h1, h2', h3, h4', hkey]
              rfl
    · have hm' : w.fs.exists (qt.absoluteFilePath path (qs "manifest.json")) = false := by
        simpa using hm
      have hread : w.fs.read (qt.absoluteFilePath path (qs "manifest.json")) = none := by
        unfold FileSystem.exists at hm'
        unfold FileSystem.read
        cases hl : List.lookup (qt.absoluteFilePath path (qs "manifest.json")) w.fs.files with
        | none => rfl
        | some b => rw [hl] at hm'; simp at hm'
      have hkey : failureKey qt w.fs path = qt.dirName path := by
        simp [failureKey, declaredName, PluginManager.parseManifest, hread, QJsonObject.value,
          QJsonValue.toString, QJsonValue.toStringOr, QString.isEmpty]
      apply hfail (qs "manifest.json not found") w (by decide) rfl rfl (Nat.le_refl _)
      unfold PluginManager.loadPlugin
      simp [hed, hm', hkey]

/-- C11, as amended: on an initialised registry, whenever `loadPlugin` returns failure
the failed mapping afterwards has an entry for the plugin, under its declared name or
under the name of the directory when no name is declared, with a message that is not
empty, and the loaded mapping is as before. -/
theorem loadPlugin_failure_recorded (qt : Qt) (lua : Interp) (w : World) (path : QString)
    (hinit : w.mgr.editor.isSome = true)
    (hfail : (PluginManager.loadPlugin qt lua w path).1 = false) :
    (∃ msg, QMap.find (PluginManager.loadPlugin qt lua w path).2.mgr.failedPlugins
        (failureKey qt w.fs path) = some msg ∧ msg ≠ []) ∧
    (PluginManager.loadPlugin qt lua w path).2.mgr.plugins = w.mgr.plugins := by
  rcases loadPlugin_outcome qt lua w path with ⟨hnone, _⟩ | ⟨_, msg, w1, hmsg, hmgr, _, _, hres⟩ |
    ⟨_, _, w1, _, hres⟩
  · rw [hnone] at hinit
    exact absurd hinit (by decide)
  · rw [hres]
    refine ⟨⟨msg, (World.setFailed_spec w1 _ msg).2, hmsg⟩, ?_⟩
    show (w1.setFailed _ msg).mgr.plugins = w.mgr.plugins
    rw [(World.setFailed_spec w1 _ msg).1, hmgr]
  · rw [hres] at hfail
    exact absurd hfail (by simp)

/-- C11 as amended, on the example tree: the load of "/plugins/b", whose manifest
declares no name, fails and is recorded under the directory name "b". -/
theorem loadPlugin_failure_recorded_witness :
    failureKey exampleQt exampleFs (qs "/plugins/b") = qs "b" ∧
    ((∃ msg, QMap.find (PluginManager.loadPlugin exampleQt exampleLua (World.initial 7 exampleFs)
        (qs "/plugins/b")).2.mgr.failedPlugins
        (failureKey exampleQt (World.initial 7 exampleFs).fs (qs "/plugins/b")) = some msg ∧
        msg ≠ []) ∧
      (PluginManager.loadPlugin exampleQt exampleLua (World.initial 7 exampleFs)
        (qs "/plugins/b")).2.mgr.plugins = (World.initial 7 exampleFs).mgr.plugins) :=
  ⟨by decide,
   loadPlugin_failure_recorded exampleQt exampleLua (World.initial 7 exampleFs) (qs "/plugins/b")
     (by decide) (by decide)⟩

/-- C11 fails as stated: on a registry without editor, the load of "/plugins/a"
returns failure and the failed mapping stays empty. -/
theorem loadPlugin_failure_recorded_counterexample :
    exampleUninitialised.mgr.editor = none ∧
    (PluginManager.loadPlugin exampleQt exampleLua exampleUninitialised (qs "/plugins/a")).1
      = false ∧
    (PluginManager.loadPlugin exampleQt exampleLua exampleUninitialised
      (qs "/plugins/a")).2.mgr.failedPlugins = [] :=
  ⟨by decide, by decide, by decide⟩

/-! ## The order of the keys -/

theorem QString.compare_eq_zero_iff (a b : QString) : QString.compare a b = 0 ↔ a = b := by
  induction a generalizing b with
  | nil => cases b <;> simp [QString.compare]
  | cons x xs ih =>
    cases b with
    | nil => simp [QString.compare]
    | cons y ys =>
      simp only [QString.compare]
      by_cases hxy : x = y
      · subst hxy
        simp [ih]
      · rw [if_neg hxy]
        by_cases hlt : x < y
        · simp [hlt, hxy]
        · simp [hlt, hxy]

theorem QString.lt_iff_lex (a b : QString) :
    QString.lt a b = true ↔ List.Lex (· < ·) a b := by
  have hle := QString.compare_le_iff a b
  have heq := QString.compare_eq_zero_iff a b
  unfold lexLe at hle
  simp only [QString.lt, decide_eq_true_eq]
  constructor
  · intro h
    rcases hle.mp (le_of_lt h) with h1 | h1
    · have := heq.mpr h1
      omega
    · exact h1
  · intro h
    have h1 : QString.compare a b ≤ 0 := hle.mpr (Or.inr h)
    have h2 : QString.compare a b ≠ 0 := by
      intro h0
      have hab := heq.mp h0
      subst hab
      exact (irrefl (r := List.Lex (fun x y : Nat => x < y)) a) h
    omega

theorem QString.lt_irrefl (a : QString) : QString.lt a a = false := by
  cases h : QString.lt a a with
  | false => rfl
  | true =>
    exact absurd ((QString.lt_iff_lex a a).mp h) (irrefl (r := List.Lex (fun x y : Nat => x < y)) a)

theorem QString.lt_trans (a b c : QString) (h1 : QString.lt a b = true)
    (h2 : QString.lt b c = true) : QString.lt a c = true :=
  (QString.lt_iff_lex a c).mpr
    (IsTrans.trans (r := List.Lex (fun x y : Nat => x < y)) a b c
      ((QString.lt_iff_lex a b).mp h1) ((QString.lt_iff_lex b c).mp h2))

theorem QString.lt_of_not_lt_of_ne (a b : QString) (h1 : ¬ QString.lt a b = true) (h2 : a ≠ b) :
    QString.lt b a = true := by
  rcases trichotomous (r := List.Lex (fun x y : Nat => x < y)) a b with h | h | h
  · exact absurd ((QString.lt_iff_lex a b).mpr h) h1
  · exact absurd h h2
  · exact (QString.lt_iff_lex b a).mpr h

theorem QMap.keys_insert_mem {V : Type} (m : QMap V) (k : QString) (v : V) (x : QString)
    (hx : x ∈ QMap.keys (QMap.insert m k v)) : x = k ∨ x ∈ QMap.keys m := by
  induction m with
  | nil =>
    simp only [QMap.insert, QMap.keys, List.map_cons, List.map_nil, List.mem_singleton] at hx
    exact Or.inl hx
  | cons e rest ih =>
    obtain ⟨k', v'⟩ := e
    unfold QMap.insert at hx
    by_cases hk : k' = k
    · rw [if_pos hk] at hx
      simp only [QMap.keys, List.map_cons, List.mem_cons] at hx ⊢
      rcases hx with h | h
      · exact Or.inl h
      · exact Or.inr (Or.inr h)
    · rw [if_neg hk] at hx
      by_cases hlt : QString.lt k k' = true
      · rw [if_pos hlt] at hx
        simp only [QMap.keys, List.map_cons, List.mem_cons] at hx ⊢
        exact hx
      · rw [if_neg hlt] at hx
        simp only [QMap.keys, List.map_cons, List.mem_cons] at hx ⊢
        rcases hx with h | h
        · exact Or.inr (Or.inl h)
        · rcases ih h with h' | h'
          · exact Or.inl h'
          · exact Or.inr (Or.inr h')

theorem QMap.insert_ascending {V : Type} (m : QMap V) (k : QString) (v : V)
    (h : QMap.Ascending m) : QMap.Ascending (QMap.insert m k v) := by
  induction m with
  | nil => simp [QMap.insert, QMap.Ascending, QMap.keys]
  | cons e rest ih =>
    obtain ⟨k', v'⟩ := e
    have h' : (k' :: QMap.keys rest).Pairwise (fun a b => QString.lt a b = true) := h
    obtain ⟨hhead, htail⟩ := List.pairwise_cons.mp h'
    unfold QMap.insert
    by_cases hk : k' = k
    · rw [if_pos hk]
      subst hk
      exact h
    · rw [if_neg hk]
      by_cases hlt : QString.lt k k' = true
      · rw [if_pos hlt]
        show (k :: k' :: QMap.keys rest).Pairwise (fun a b => QString.lt a b = true)
        refine List.pairwise_cons.mpr ⟨?_, h'⟩
        intro y hy
        rcases List.mem_cons.mp hy with hy | hy
        · rw [hy]; exact hlt
        · exact QString.lt_trans _ _ _ hlt (hhead y hy)
      · rw [if_neg hlt]
        show (k' :: QMap.keys (QMap.insert rest k v)).Pairwise
          (fun a b => QString.lt a b = true)
        refine List.pairwise_cons.mpr ⟨?_, ih htail⟩
        intro y hy
        rcases QMap.keys_insert_mem rest k v y hy with hy | hy
        · rw [hy]
          exact QString.lt_of_not_lt_of_ne k k' hlt (fun e => hk e.symm)
        · exact hhead y hy

theorem QMap.ascending_of_sublist {V : Type} (m m' : QMap V) (hs : List.Sublist m' m)
    (h : QMap.Ascending m) : QMap.Ascending m' :=
  List.Pairwise.sublist (hs.map Prod.fst) h

theorem QMap.Ascending.nodup {V : Type} (m : QMap V) (h : QMap.Ascending m) :
    (QMap.keys m).Nodup := by
  refine List.Pairwise.imp ?_ h
  intro a b hab e
  subst e
  rw [QString.lt_irrefl] at hab
  exact absurd hab (by decide)

/-- A property of the loaded mapping that holds of the empty mapping and is kept by
the assignment to a key and by the removal of entries holds in every world the manager
can reach. -/
theorem reachable_plugins_induction (qt : Qt) (lua : Interp) (P : QMap PluginInfo → Prop)
    (h0 : P [])
    (hins : ∀ m k v, P m → P (QMap.insert m k v))
    (hsub : ∀ m m', List.Sublist m' m → P m → P m')
    (w : World) (h : Reachable qt lua w) : P w.mgr.plugins := by
  induction h with
  | initial editor fs => exact h0
  | step w op _ ih =>
    cases op with
    | init e =>
      have : ( PluginManager.initialize w e).2.mgr.plugins = w.mgr.plugins := by
        unfold PluginManager.initialize
        split
        · rfl
        · simp only []
          split <;> rfl
      show P ( PluginManager.initialize w e).2.mgr.plugins
      rw [this]; exact ih
    | finalize => exact h0
    | loadPlugin path =>
      show P (PluginManager.loadPlugin qt lua w path).2.mgr.plugins
      rcases loadPlugin_plugins qt lua w path with ⟨hp, _⟩ | ⟨name, info, _, _, hp⟩
      · rw [hp]; exact ih
      · rw [hp]; exact hins _ _ _ ih
    | unloadPlugin n => exact hsub _ _ (unloadPlugin_plugins qt w n).1 ih
    | reloadPlugin n =>
      show P (PluginManager.reloadPlugin qt lua w n).mgr.plugins
      unfold PluginManager.reloadPlugin
      split
      · exact ih
      · rename_i info _
        have hu := hsub _ _ (unloadPlugin_plugins qt w n).1 ih
        rcases loadPlugin_plugins qt lua (PluginManager.unloadPlugin qt w n) info.path with
          ⟨hp, _⟩ | ⟨name, info', _, _, hp⟩
        · rw [hp]; exact hu
        · rw [hp]; exact hins _ _ _ hu
    | executeCommand c =>
      show P (PluginManager.executeCommand lua w c).2.mgr.plugins
      rw [(executeCommand_frame lua w c).1]; exact ih
    | callPluginFunction p f args =>
      show P ((Op.callPluginFunction p f args).run qt lua w).mgr.plugins
      rw [(callPluginFunction_frame qt lua w p f args).1]; exact ih
    | notifyReady =>
      show P (PluginManager.notifyReady lua w).mgr.plugins
      unfold PluginManager.notifyReady
      rw [(foldl_callHandler_frame lua _ _ w.mgr.plugins w).1]; exact ih
    | notifyShutdown =>
      show P (PluginManager.notifyShutdown lua w).mgr.plugins
      unfold PluginManager.notifyShutdown
      rw [(foldl_callHandler_frame lua _ _ w.mgr.plugins w).1]; exact ih
    | broadcastFileEvent e f =>
      show P (PluginManager.broadcastFileEvent lua w e f).mgr.plugins
      unfold PluginManager.broadcastFileEvent
      rw [(foldl_callHandler_frame lua _ _ w.mgr.plugins w).1]; exact ih

/-- In every world the manager can reach, the keys of the loaded mapping are in
strictly ascending order. -/
theorem reachable_ascending (qt : Qt) (lua : Interp) (w : World) (h : Reachable qt lua w) :
    QMap.Ascending w.mgr.plugins :=
  reachable_plugins_induction qt lua QMap.Ascending List.Pairwise.nil
    (fun m k v => QMap.insert_ascending m k v)
    (fun m m' hs hm => QMap.ascending_of_sublist m m' hs hm) w h

/-! ## Loading twice, unloading and loading again -/

theorem QMap.mem_keys_of_find {V : Type} (m : QMap V) (k : QString) (v : V)
    (h : QMap.find m k = some v) : k ∈ QMap.keys m := by
  induction m with
  | nil => simp [QMap.find] at h
  | cons e rest ih =>
    obtain ⟨k', v'⟩ := e
    unfold QMap.find at h
    by_cases hk : k' = k
    · simp [QMap.keys, hk]
    · rw [if_neg hk] at h
      simp only [QMap.keys, List.map_cons, List.mem_cons]
      exact Or.inr (ih h)

theorem loadPlugin_success (qt : Qt) (lua : Interp) (w : World) (path : QString)
    (h : (PluginManager.loadPlugin qt lua w path).1 = true) :
    ∃ w1 : World, PluginManager.createPluginLuaState qt lua w path
        (PluginManager.parseManifest qt w.fs (qt.absoluteFilePath path (qs "manifest.json"))) =
        (some w.heap.next, w1) ∧
      PluginManager.loadPlugin qt lua w path =
        (true, w1.setLoaded (declaredName qt w.fs path) (loadedRecord qt w.fs path w.heap.next)) := by
  rcases loadPlugin_outcome qt lua w path with ⟨_, hres⟩ | ⟨_, msg, w1, _, _, _, _, hres⟩ |
    ⟨_, _, w1, hc, hres⟩
  · rw [hres] at h; exact absurd h (by simp)
  · rw [hres] at h; exact absurd h (by simp)
  · exact ⟨w1, hc, hres⟩

theorem loadPlugin_success_find (qt : Qt) (lua : Interp) (w : World) (path : QString)
    (h : (PluginManager.loadPlugin qt lua w path).1 = true) :
    PluginManager.getPluginInfo (PluginManager.loadPlugin qt lua w path).2
        (declaredName qt w.fs path) =
      some (loadedRecord qt w.fs path w.heap.next) := by
  obtain ⟨w1, _, hres⟩ := loadPlugin_success qt lua w path h
  rw [hres]
  exact QMap.find_insert_self _ _ _

theorem loadPlugin_fs (qt : Qt) (lua : Interp) (w : World) (path : QString) :
    (PluginManager.loadPlugin qt lua w path).2.fs = w.fs := by
  rcases loadPlugin_outcome qt lua w path with ⟨_, hres⟩ | ⟨_, msg, w1, _, _, hfs, _, hres⟩ |
    ⟨_, _, w1, hc, hres⟩
  · rw [hres]
  · rw [hres]; exact hfs
  · rw [hres]
    have := createPluginLuaState_fs qt lua w path
      (PluginManager.parseManifest qt w.fs (qt.absoluteFilePath path (qs "manifest.json")))
    rw [hc] at this
    exact this

theorem QString.count_eq_one (l : List QString) (a : QString) (d : l.Nodup) (h : a ∈ l) :
    l.count a = 1 := by
  have h1 := List.count_eq_one_of_mem d h
  convert h1 using 2
  exact lawful_beq_subsingleton _ _

/-- C12: when, in a world the manager can reach, two plugin roots that declare the
same name are loaded with success one after the other, `getPluginInfo` gives the
record of the first root after the first load, and after the second load the name is
in `getLoadedPlugins` exactly once and `getPluginInfo` gives for it the record of the
second root: its path, and the version, description, author and manifest read from
its manifest file. -/
theorem loadPlugin_same_name_replaces (qt : Qt) (lua : Interp) (w : World)
    (path1 path2 name : QString) (hreach : Reachable qt lua w)
    (h1 : (PluginManager.loadPlugin qt lua w path1).1 = true)
    (h2 : (PluginManager.loadPlugin qt lua
      (PluginManager.loadPlugin qt lua w path1).2 path2).1 = true)
    (hn1 : declaredName qt w.fs path1 = name)
    (hn2 : declaredName qt w.fs path2 = name) :
    PluginManager.getPluginInfo (PluginManager.loadPlugin qt lua w path1).2 name =
      some (loadedRecord qt w.fs path1 w.heap.next) ∧
    (PluginManager.getLoadedPlugins (PluginManager.loadPlugin qt lua
      (PluginManager.loadPlugin qt lua w path1).2 path2).2).count name = 1 ∧
    PluginManager.getPluginInfo (PluginManager.loadPlugin qt lua
      (PluginManager.loadPlugin qt lua w path1).2 path2).2 name =
      some (loadedRecord qt w.fs path2 (PluginManager.loadPlugin qt lua w path1).2.heap.next) ∧
    (loadedRecord qt w.fs path2 (PluginManager.loadPlugin qt lua w path1).2.heap.next).path
      = path2 := by
  have hfs := loadPlugin_fs qt lua w path1
  have hfind := loadPlugin_success_find qt lua (PluginManager.loadPlugin qt lua w path1).2 path2 h2
  rw [hfs, hn2] at hfind
  have hreach2 : Reachable qt lua (PluginManager.loadPlugin qt lua
      (PluginManager.loadPlugin qt lua w path1).2 path2).2 :=
    Reachable.step _ (Op.loadPlugin path2) (Reachable.step _ (Op.loadPlugin path1) hreach)
  have hfind1 := loadPlugin_success_find qt lua w path1 h1
  rw [hn1] at hfind1
  refine ⟨hfind1, ?_, hfind, rfl⟩
  exact QString.count_eq_one _ _ (QMap.Ascending.nodup _ (reachable_ascending qt lua _ hreach2))
    (QMap.mem_keys_of_find _ _ _ hfind)

/-- C12 on the example tree: "/other/x" and "/other/y" both declare the name "a"; after
the two loads "a" is loaded once, from "/other/y" with the version "2". -/
theorem loadPlugin_same_name_replaces_witness :
    PluginManager.getLoadedPlugins (PluginManager.loadPlugin exampleQt2 exampleLua
      (PluginManager.loadPlugin exampleQt2 exampleLua (World.initial 7 exampleFs2)
        (qs "/other/x")).2 (qs "/other/y")).2 = [qs "a"] ∧
    (loadedRecord exampleQt2 exampleFs2 (qs "/other/y") 2).version = qs "2" ∧
    (PluginManager.getPluginInfo (PluginManager.loadPlugin exampleQt2 exampleLua
        (World.initial 7 exampleFs2) (qs "/other/x")).2 (qs "a") =
      some (loadedRecord exampleQt2 (World.initial 7 exampleFs2).fs (qs "/other/x")
        (World.initial 7 exampleFs2).heap.next) ∧
     (PluginManager.getLoadedPlugins (PluginManager.loadPlugin exampleQt2 exampleLua
      (PluginManager.loadPlugin exampleQt2 exampleLua (World.initial 7 exampleFs2)
        (qs "/other/x")).2 (qs "/other/y")).2).count (qs "a") = 1 ∧
     PluginManager.getPluginInfo (PluginManager.loadPlugin exampleQt2 exampleLua
      (PluginManager.loadPlugin exampleQt2 exampleLua (World.initial 7 exampleFs2)
        (qs "/other/x")).2 (qs "/other/y")).2 (qs "a") =
      some (loadedRecord exampleQt2 (World.initial 7 exampleFs2).fs (qs "/other/y")
        (PluginManager.loadPlugin exampleQt2 exampleLua (World.initial 7 exampleFs2)
          (qs "/other/x")).2.heap.next) ∧
     (loadedRecord exampleQt2 (World.initial 7 exampleFs2).fs (qs "/other/y")
        (PluginManager.loadPlugin exampleQt2 exampleLua (World.initial 7 exampleFs2)
          (qs "/other/x")).2.heap.next).path = qs "/other/y") :=
  ⟨by decide, by decide,
   loadPlugin_same_name_replaces exampleQt2 exampleLua (World.initial 7 exampleFs2)
     (qs "/other/x") (qs "/other/y") (qs "a") (Reachable.initial 7 exampleFs2)
     (by decide) (by decide) (by decide) (by decide)⟩

theorem lookup_map_replace_self (l : List (Nat × lua_State)) (L : Nat) (s : lua_State)
    (hmem : L ∈ l.map Prod.fst) :
    List.lookup L (l.map (fun e => if e.1 = L then (L, s) else e)) = some s := by
  induction l with
  | nil => simp at hmem
  | cons e rest ih =>
    obtain ⟨k, v⟩ := e
    by_cases hk : k = L
    · have hb : (L == L) = true := by simp
      rw [List.map_cons, if_pos hk, List.lookup, hb]
    · have hb : (L == k) = false := by simpa using fun e => hk e.symm
      have hrest : L ∈ rest.map Prod.fst := by
        simp only [List.map_cons, List.mem_cons] at hmem
        rcases hmem with h | h
        · exact absurd h.symm hk
        · exact h
      rw [List.map_cons, if_neg hk, List.lookup, hb]
      exact ih hrest

theorem createPluginLuaState_success (qt : Qt) (lua : Interp) (w : World) (path : QString)
    (L : Nat) (w1 : World)
    (h : PluginManager.createPluginLuaState qt lua w path
      (PluginManager.parseManifest qt w.fs (qt.absoluteFilePath path (qs "manifest.json"))) =
      (some L, w1)) :
    ∃ chunk : Nat, w1.log = w.log ++ [Event.newstate L, Event.pcall L (.function chunk) []] ∧
      (entryState qt lua w.fs path L).isSome = true ∧
      w1.heap.get L = entryState qt lua w.fs path L := by
  unfold PluginManager.createPluginLuaState at h
  unfold entryState resolvedEntryPath
  simp only [] at h
  cases hn : lua.newstate w.heap.next with
  | none => simp [hn] at h
  | some s0 =>
    simp only [hn] at h
    cases hr : w.fs.read (qt.absoluteFilePath path
        (((PluginManager.parseManifest qt w.fs (qt.absoluteFilePath path (qs "manifest.json"))).value
          (qs "entry")).toStringOr (qs "init.lua"))) with
    | none => simp [hr] at h
    | some bytes =>
      simp only [hr] at h
      cases hl : lua.load bytes with
      | error e => simp [hl] at h
      | ok chunk =>
        simp only [hl] at h
        cases hc : (lua.call chunk [] s0).1 with
        | error e => simp [lua_pcall, hc] at h
        | ok vals =>
          simp only [lua_pcall, hc] at h
          have hL : w.heap.next = L := by
            have := congrArg Prod.fst h
            simpa using this
          have hw : w1 = _ := (congrArg Prod.snd h).symm
          subst hL
          refine ⟨chunk, ?_, ?_, ?_⟩
          · rw [hw]
            simp
          · simp [hn, hr, hl, hc]
          · rw [hw]
            simp only [hn, hr, hl, hc, LuaHeap.get, LuaHeap.set]
            exact lookup_map_replace_self _ _ _ (by simp)

theorem QMap.mem_of_find {V : Type} (m : QMap V) (k : QString) (v : V)
    (h : QMap.find m k = some v) : (k, v) ∈ m := by
  induction m with
  | nil => simp [QMap.find] at h
  | cons e rest ih =>
    obtain ⟨k', v'⟩ := e
    unfold QMap.find at h
    by_cases hk : k' = k
    · rw [if_pos hk] at h
      cases h
      rw [hk]
      exact List.mem_cons_self _ _
    · rw [if_neg hk] at h
      exact List.mem_cons_of_mem _ (ih h)

theorem QMap.find_eq_none_of_not_mem {V : Type} (m : QMap V) (k : QString)
    (h : k ∉ QMap.keys m) : QMap.find m k = none := by
  cases hf : QMap.find m k with
  | none => rfl
  | some v => exact absurd (QMap.mem_keys_of_find m k v hf) h

theorem QMap.not_mem_keys_erase {V : Type} (m : QMap V) (k : QString)
    (h : (QMap.keys m).Nodup) : k ∉ QMap.keys (QMap.erase m k) := by
  induction m with
  | nil => simp [QMap.erase, QMap.keys]
  | cons e rest ih =>
    obtain ⟨k', v'⟩ := e
    have h' : (k' :: QMap.keys rest).Nodup := h
    obtain ⟨hhead, htail⟩ := List.nodup_cons.mp h'
    unfold QMap.erase
    by_cases hk : k' = k
    · rw [if_pos hk]
      rw [← hk]
      exact hhead
    · rw [if_neg hk]
      show k ∉ k' :: QMap.keys (QMap.erase rest k)
      intro hmem
      rcases List.mem_cons.mp hmem with h1 | h1
      · exact hk h1.symm
      · exact ih htail h1

theorem unloadPlugin_found (qt : Qt) (w : World) (n : QString) (info : PluginInfo)
    (h : QMap.find w.mgr.plugins n = some info) :
    (PluginManager.unloadPlugin qt w n).mgr.plugins = QMap.erase w.mgr.plugins n := by
  unfold PluginManager.unloadPlugin
  rw [h]
  simp only []
  cases info.luaState <;> rfl

/-- C13: in a world the manager can reach, after `unloadPlugin` of a loaded plugin
`getPluginInfo` gives nothing for its name and the name is not in `getLoadedPlugins`;
and when `loadPlugin` on the root of the plugin then succeeds, the root declaring that
name, `getPluginInfo` gives the record of the root with an instance at a new address,
different from that of the old instance, created and run by this load, whose memory is
that of an interpreter just set up in which the entry script alone has run, whatever
the old instance held. -/
theorem unloadPlugin_then_loadPlugin (qt : Qt) (lua : Interp) (w : World) (n : QString)
    (info : PluginInfo) (hreach : Reachable qt lua w)
    (hinfo : PluginManager.getPluginInfo w n = some info) :
    PluginManager.getPluginInfo (PluginManager.unloadPlugin qt w n) n = none ∧
    n ∉ PluginManager.getLoadedPlugins (PluginManager.unloadPlugin qt w n) ∧
    ((PluginManager.loadPlugin qt lua (PluginManager.unloadPlugin qt w n) info.path).1 = true →
      declaredName qt (PluginManager.unloadPlugin qt w n).fs info.path = n →
      PluginManager.getPluginInfo
          (PluginManager.loadPlugin qt lua (PluginManager.unloadPlugin qt w n) info.path).2 n =
        some (loadedRecord qt (PluginManager.unloadPlugin qt w n).fs info.path
          (PluginManager.unloadPlugin qt w n).heap.next) ∧
      info.luaState ≠ some (PluginManager.unloadPlugin qt w n).heap.next ∧
      (∃ chunk : Nat,
        (PluginManager.loadPlugin qt lua (PluginManager.unloadPlugin qt w n) info.path).2.log =
          (PluginManager.unloadPlugin qt w n).log ++
            [Event.newstate (PluginManager.unloadPlugin qt w n).heap.next,
             Event.pcall (PluginManager.unloadPlugin qt w n).heap.next (.function chunk) []]) ∧
      (entryState qt lua (PluginManager.unloadPlugin qt w n).fs info.path
        (PluginManager.unloadPlugin qt w n).heap.next).isSome = true ∧
      (PluginManager.loadPlugin qt lua (PluginManager.unloadPlugin qt w n) info.path).2.heap.get
          (PluginManager.unloadPlugin qt w n).heap.next =
        entryState qt lua (PluginManager.unloadPlugin qt w n).fs info.path
          (PluginManager.unloadPlugin qt w n).heap.next) := by
  have hfind : QMap.find w.mgr.plugins n = some info := hinfo
  have hnd : (QMap.keys w.mgr.plugins).Nodup :=
    QMap.Ascending.nodup _ (reachable_ascending qt lua w hreach)
  have hnot : n ∉ QMap.keys (PluginManager.unloadPlugin qt w n).mgr.plugins := by
    rw [unloadPlugin_found qt w n info hfind]
    exact QMap.not_mem_keys_erase _ _ hnd
  refine ⟨QMap.find_eq_none_of_not_mem _ _ hnot, hnot, ?_⟩
  intro hload hname
  obtain ⟨w1, hc, hres⟩ := loadPlugin_success qt lua _ _ hload
  obtain ⟨chunk, hlog, hsome, hget⟩ := createPluginLuaState_success qt lua _ _ _ _ hc
  have hfound := loadPlugin_success_find qt lua _ _ hload
  rw [hname] at hfound
  refine ⟨hfound, ?_, ⟨chunk, ?_⟩, hsome, ?_⟩
  · intro hL
    have hmem : (PluginManager.unloadPlugin qt w n).heap.next ∈ w.instances :=
      List.mem_filterMap.mpr ⟨(n, info), QMap.mem_of_find _ _ _ hfind, hL⟩
    have hlt := (reachable_ownInstances qt lua w hreach).1 _ hmem
    rw [(unloadPlugin_plugins qt w n).2] at hlt
    exact Nat.lt_irrefl _ hlt
  · rw [hres]
    exact hlog
  · rw [hres]
    exact hget

/-- C13 on the example registry with "a" loaded from "/other/x" at address 1: after the
unload nothing is found under "a"; the load of "/other/x" that follows gives "a" an
instance at address 2, with the memory of an interpreter just set up. -/
theorem unloadPlugin_then_loadPlugin_witness :
    PluginManager.getPluginInfo exampleLoaded (qs "a") =
      some (loadedRecord exampleQt exampleFs (qs "/other/x") 1) ∧
    PluginManager.getPluginInfo (PluginManager.unloadPlugin exampleQt exampleLoaded (qs "a"))
      (qs "a") = none ∧
    PluginManager.getLoadedPlugins (PluginManager.unloadPlugin exampleQt exampleLoaded (qs "a"))
      = [] ∧
    (PluginManager.unloadPlugin exampleQt exampleLoaded (qs "a")).heap.next = 2 ∧
    (PluginManager.loadPlugin exampleQt exampleLua
        (PluginManager.unloadPlugin exampleQt exampleLoaded (qs "a")) (qs "/other/x")).2.heap.get
        (PluginManager.unloadPlugin exampleQt exampleLoaded (qs "a")).heap.next =
      entryState exampleQt exampleLua
        (PluginManager.unloadPlugin exampleQt exampleLoaded (qs "a")).fs (qs "/other/x")
        (PluginManager.unloadPlugin exampleQt exampleLoaded (qs "a")).heap.next :=
  ⟨rfl,
   (unloadPlugin_then_loadPlugin exampleQt exampleLua exampleLoaded (qs "a")
      (loadedRecord exampleQt exampleFs (qs "/other/x") 1)
      (Reachable.step _ (Op.loadPlugin (qs "/other/x")) (Reachable.initial 7 exampleFs)) rfl).1,
   by decide, by decide,
   ((unloadPlugin_then_loadPlugin exampleQt exampleLua exampleLoaded (qs "a")
      (loadedRecord exampleQt exampleFs (qs "/other/x") 1)
      (Reachable.step _ (Op.loadPlugin (qs "/other/x")) (Reachable.initial 7 exampleFs)) rfl).2.2
      (by decide) (by decide)).2.2.2.2⟩

/-! ## Shutdown -/

theorem lookup_filter_of_none (l : List (Nat × lua_State)) (L L' : Nat)
    (hn : List.lookup L l = none) :
    List.lookup L (l.filter (fun e => e.1 != L')) = none := by
  induction l with
  | nil => rfl
  | cons e rest ih =>
    obtain ⟨k, v⟩ := e
    simp only [List.lookup_cons] at hn
    cases hb : (L == k) with
    | true => rw [hb] at hn; cases hn
    | false =>
      rw [hb] at hn
      rw [List.filter_cons]
      split
      · simp only [List.lookup_cons, hb]
        exact ih hn
      · exact ih hn

theorem lookup_filter_self (l : List (Nat × lua_State)) (L : Nat) :
    List.lookup L (l.filter (fun e => e.1 != L)) = none := by
  induction l with
  | nil => rfl
  | cons e rest ih =>
    obtain ⟨k, v⟩ := e
    rw [List.filter_cons]
    by_cases hk : k = L
    · have : ((k, v).1 != L) = false := by simp [hk]
      rw [this]
      exact ih
    · have : ((k, v).1 != L) = true := by simpa using hk
      rw [this]
      have hb : (L == k) = false := by simpa using fun e => hk e.symm
      simp only [if_true, List.lookup_cons, hb]
      exact ih

theorem LuaHeap.get_close_of_none (h : LuaHeap) (L L' : Nat) (hn : h.get L = none) :
    (h.close L').get L = none :=
  lookup_filter_of_none h.states L L' hn

theorem LuaHeap.get_close_self (h : LuaHeap) (L : Nat) : (h.close L).get L = none :=
  lookup_filter_self h.states L

theorem unloadPlugin_head (qt : Qt) (w : World) (k : QString) (info : PluginInfo)
    (rest : QMap PluginInfo) (hp : w.mgr.plugins = (k, info) :: rest) :
    (PluginManager.unloadPlugin qt w k).mgr.plugins = rest ∧
    (PluginManager.unloadPlugin qt w k).mgr.editor = w.mgr.editor ∧
    (PluginManager.unloadPlugin qt w k).log = w.log ++ (info.luaState.toList.map Event.close) ∧
    (∀ L, info.luaState = some L → (PluginManager.unloadPlugin qt w k).heap.get L = none) ∧
    (∀ L, w.heap.get L = none → (PluginManager.unloadPlugin qt w k).heap.get L = none) := by
  have hfind : QMap.find w.mgr.plugins k = some info := by
    rw [hp]; simp [QMap.find]
  unfold PluginManager.unloadPlugin
  rw [hfind]
  simp only []
  cases hL : info.luaState with
  | none =>
    refine ⟨?_, rfl, by simp, fun L h => (by cases h), fun L h => h⟩
    show QMap.erase w.mgr.plugins k = rest
    rw [hp]; simp [QMap.erase]
  | some L =>
    refine ⟨?_, rfl, by simp [lua_close, PluginManager.savePluginConfig], ?_, ?_⟩
    · show QMap.erase w.mgr.plugins k = rest
      rw [hp]; simp [QMap.erase]
    · intro L' h
      cases h
      exact LuaHeap.get_close_self _ _
    · intro L' h
      exact LuaHeap.get_close_of_none _ _ _ h

theorem foldl_unloadPlugin (qt : Qt) :
    ∀ (ps : QMap PluginInfo) (w : World), w.mgr.plugins = ps →
      ((QMap.keys ps).foldl (fun w name => PluginManager.unloadPlugin qt w name) w).log =
          w.log ++ (ps.filterMap (fun e => e.2.luaState)).map Event.close ∧
      (∀ L ∈ ps.filterMap (fun e => e.2.luaState),
        ((QMap.keys ps).foldl (fun w name => PluginManager.unloadPlugin qt w name) w).heap.get L
          = none) ∧
      (∀ L, w.heap.get L = none →
        ((QMap.keys ps).foldl (fun w name => PluginManager.unloadPlugin qt w name) w).heap.get L
          = none) := by
  intro ps
  induction ps with
  | nil => intro w _; simp [QMap.keys]
  | cons e rest ih =>
    intro w hp
    obtain ⟨k, info⟩ := e
    obtain ⟨h1, _, h3, h4, h5⟩ := unloadPlugin_head qt w k info rest hp
    obtain ⟨i1, i2, i3⟩ := ih (PluginManager.unloadPlugin qt w k) h1
    simp only [QMap.keys, List.map_cons, List.foldl_cons] at i1 i2 i3 ⊢
    refine ⟨?_, ?_, ?_⟩
    · rw [i1, h3, List.filterMap_cons]
      cases info.luaState <;> simp
    · intro L hL
      rw [List.filterMap_cons] at hL
      cases hi : info.luaState with
      | none =>
        rw [hi] at hL
        exact i2 L hL
      | some L0 =>
        rw [hi] at hL
        rcases List.mem_cons.mp hL with h | h
        · rw [h]
          exact i3 L0 (h4 L0 hi)
        · exact i2 L h
    · intro L hL
      exact i3 L (h5 L hL)

/-- C14: in every world the manager can reach, `finalize` first calls the shutdown
handler of each loaded plugin that has one, once and without arguments, then closes
the instance of every loaded plugin, in the order of the loaded mapping, so that every
handler runs before its instance is closed and no instance of a loaded plugin stays
open; it leaves the loaded and the failed mapping empty, and `initialize` succeeds
afterwards for every editor that is not null. -/
theorem finalize_spec (qt : Qt) (lua : Interp) (w : World) (hreach : Reachable qt lua w) :
    (PluginManager.finalize qt lua w).log =
      w.log ++
        w.mgr.plugins.filterMap
          (fun e => handlerCall w (qs "__plugin_event_shutdown") [] e.2) ++
        w.instances.map Event.close ∧
    (∀ L ∈ w.instances, (PluginManager.finalize qt lua w).heap.get L = none) ∧
    (PluginManager.finalize qt lua w).mgr.plugins = [] ∧
    (PluginManager.finalize qt lua w).mgr.failedPlugins = [] ∧
    ∀ h : Nat, ( PluginManager.initialize (PluginManager.finalize qt lua w) (some h)).1 = true := by
  obtain ⟨hlog, hmgr⟩ := foldl_callHandler lua (qs "__plugin_event_shutdown") [] w.mgr.plugins w
    (reachable_ownInstances qt lua w hreach).2
  have hmgr' : (PluginManager.notifyShutdown lua w).mgr = w.mgr := hmgr
  have hlog' : (PluginManager.notifyShutdown lua w).log = w.log ++
      w.mgr.plugins.filterMap (fun e => handlerCall w (qs "__plugin_event_shutdown") [] e.2) :=
    hlog
  obtain ⟨u1, u2, _⟩ := foldl_unloadPlugin qt w.mgr.plugins (PluginManager.notifyShutdown lua w)
    (by rw [hmgr'])
  have hkeys : PluginManager.getLoadedPlugins (PluginManager.notifyShutdown lua w) =
      QMap.keys w.mgr.plugins := by
    unfold PluginManager.getLoadedPlugins
    rw [hmgr']
  refine ⟨?_, ?_, rfl, rfl, ?_⟩
  · show (List.foldl (fun w name => PluginManager.unloadPlugin qt w name)
      (PluginManager.notifyShutdown lua w)
      (PluginManager.getLoadedPlugins (PluginManager.notifyShutdown lua w))).log = _
    rw [hkeys, u1, hlog']
    rfl
  · intro L hL
    show (List.foldl (fun w name => PluginManager.unloadPlugin qt w name)
      (PluginManager.notifyShutdown lua w)
      (PluginManager.getLoadedPlugins (PluginManager.notifyShutdown lua w))).heap.get L = none
    rw [hkeys]
    exact u2 L hL
  · intro h
    unfold PluginManager.initialize
    simp [PluginManager.finalize]

/-- C14 on the example registry with "a" at address 2 and "s" at address 1, "s" handling
the shutdown: `finalize` calls the handler of "s", then closes the instances of "a" and
of "s", and empties both mappings. -/
theorem finalize_spec_witness :
    QMap.keys exampleShutdown.mgr.plugins = [qs "a", qs "s"] ∧
    (PluginManager.finalize exampleQt2 exampleLua2 exampleShutdown).log =
      exampleShutdown.log ++
        [Event.pcall 1 (.function 0) [], Event.close 2, Event.close 1] ∧
    (PluginManager.finalize exampleQt2 exampleLua2 exampleShutdown).mgr.plugins = [] ∧
    ( PluginManager.initialize (PluginManager.finalize exampleQt2 exampleLua2 exampleShutdown)
      (some 7)).1 = true :=
  ⟨by decide,
   (finalize_spec exampleQt2 exampleLua2 exampleShutdown
      (Reachable.step _ (Op.loadPlugin (qs "/other/x"))
        (Reachable.step _ (Op.loadPlugin (qs "/ev/s")) (Reachable.initial 7 exampleFs2)))).1.trans
      (by decide),
   (finalize_spec exampleQt2 exampleLua2 exampleShutdown
      (Reachable.step _ (Op.loadPlugin (qs "/other/x"))
        (Reachable.step _ (Op.loadPlugin (qs "/ev/s")) (Reachable.initial 7 exampleFs2)))).2.2.1,
   (finalize_spec exampleQt2 exampleLua2 exampleShutdown
      (Reachable.step _ (Op.loadPlugin (qs "/other/x"))
        (Reachable.step _ (Op.loadPlugin (qs "/ev/s")) (Reachable.initial 7 exampleFs2)))).2.2.2.2 7⟩

/-! ## The configuration file -/

/-- C16 fails on the code: the load of "/api/p", whose entry script calls `plugin.on` at
its top level, sets up an instance, runs the script in it and closes it again,
returning failure, because the global `plugin` is not bound in the memory the script
runs in; in the memory that `registerPluginAPI` of `PluginAPI.cpp` makes of it, `plugin`
is a table with the native `on`, and the script ends without error. -/
theorem loadPlugin_without_api :
    (PluginManager.loadPlugin exampleQt2 exampleLua2 (World.initial 7 exampleFs2)
      (qs "/api/p")).1 = false ∧
    (PluginManager.loadPlugin exampleQt2 exampleLua2 (World.initial 7 exampleFs2)
      (qs "/api/p")).2.mgr.failedPlugins = [(qs "api", qs "Failed to create Lua state")] ∧
    (PluginManager.loadPlugin exampleQt2 exampleLua2 (World.initial 7 exampleFs2)
      (qs "/api/p")).2.log =
      [Event.newstate 1, Event.pcall 1 (.function 7) [], Event.close 1] ∧
    (exampleLua2.newstate 1).map (fun s => lua_getglobal s (qs "plugin")) = some .nil ∧
    (exampleLua2.newstate 1).map
      (fun s => lua_getglobal (PluginManager.registerPluginAPI s) (qs "plugin")) = some .nil ∧
    (exampleLua2.newstate 1).map (fun s =>
      lua_getfield (registerPluginAPI s) (lua_getglobal (registerPluginAPI s) (qs "plugin"))
        (qs "on")) = some (lua_pushcfunction (qs "plugin_on")) ∧
    (exampleLua2.newstate 1).map (fun s => (exampleLua2.call 7 [] (registerPluginAPI s)).1) =
      some (.ok []) :=
  ⟨by decide, by decide, by decide, by decide, by decide, by decide, rfl⟩

/-- What `loadPlugin` does on an initialised registry when the manifest file of a plugin
root holds a top-level object in which `name` is absent or the empty string: it fails
and changes nothing but the failed mapping, where it records, under the name of the
directory, "Plugin name is empty" when the object has a member and "Failed to parse
manifest.json" when it has none; no record and no instance is created. -/
theorem loadPlugin_nameless_manifest (qt : Qt) (lua : Interp) (w : World) (path : QString)
    (content : List Nat) (obj : QJsonObject)
    (hinit : w.mgr.editor.isSome = true)
    (hread : w.fs.read (qt.absoluteFilePath path (qs "manifest.json")) = some content)
    (hparse : qt.fromJson content = QJsonDocument.object obj)
    (hname : obj.value (qs "name") = QJsonValue.undefined ∨
      obj.value (qs "name") = QJsonValue.string []) :
    (obj ≠ [] → PluginManager.loadPlugin qt lua w path =
      (false, w.setFailed (qt.dirName path) (qs "Plugin name is empty"))) ∧
    (obj = [] → PluginManager.loadPlugin qt lua w path =
      (false, w.setFailed (qt.dirName path) (qs "Failed to parse manifest.json"))) := by
  have hed : w.mgr.editor.isNone = false := by
    cases he : w.mgr.editor with
    | none => rw [he] at hinit; exact absurd hinit (by decide)
    | some e => rfl
  have hex : w.fs.exists (qt.absoluteFilePath path (qs "manifest.json")) = true := by
    unfold FileSystem.read at hread
    unfold FileSystem.exists
    rw [hread]
    rfl
  have hman : PluginManager.parseManifest qt w.fs (qt.absoluteFilePath path (qs "manifest.json"))
      = obj := by
    unfold PluginManager.parseManifest
    rw [hread]
    simp only [hparse]
  have hstr : (obj.value (qs "name")).toString = [] := by
    rcases hname with h | h <;> rw [h] <;> rfl
  constructor
  · intro hne
    have hemp : QJsonObject.isEmpty obj = false := by
      cases obj with
      | nil => exact absurd rfl hne
      | cons e rest => rfl
    unfold PluginManager.loadPlugin
    simp [hed, hex, hman, hemp, hstr, QString.isEmpty]
  · intro he
    subst he
    unfold PluginManager.loadPlugin
    simp [hed, hex, hman, QJsonObject.isEmpty]

/-- C17 fails on the code: the manifest of "/plugins/e" is the empty object, which is a
well-formed object without name, and its load is recorded with "Failed to parse
manifest.json" and not with "Plugin name is empty": `parseManifest` gives the empty
object for a manifest that cannot be read too, here that of "/plugins/a", and
`loadPlugin` takes every empty object for that.  The load of "/plugins/b", whose
manifest is an object with a version and no name, is recorded with "Plugin name is
empty".  Neither load creates a record or an instance. -/
theorem loadPlugin_empty_object_misreported :
    exampleFs2.read (exampleQt2.absoluteFilePath (qs "/plugins/e") (qs "manifest.json")) =
      some (qs "\x7b\x7d") ∧
    exampleQt2.fromJson (qs "\x7b\x7d") = QJsonDocument.object [] ∧
    PluginManager.loadPlugin exampleQt2 exampleLua2 (World.initial 7 exampleFs2)
        (qs "/plugins/e") =
      (false, (World.initial 7 exampleFs2).setFailed (qs "e")
        (qs "Failed to parse manifest.json")) ∧
    qs "Failed to parse manifest.json" ≠ qs "Plugin name is empty" ∧
    exampleFs2.read (qs "/plugins/a/manifest.json") = none ∧
    PluginManager.parseManifest exampleQt2 exampleFs2 (qs "/plugins/a/manifest.json") = [] ∧
    PluginManager.parseManifest exampleQt2 exampleFs2 (qs "/plugins/e/manifest.json") = [] ∧
    PluginManager.loadPlugin exampleQt2 exampleLua2 (World.initial 7 exampleFs2)
        (qs "/plugins/b") =
      (false, (World.initial 7 exampleFs2).setFailed (qs "b") (qs "Plugin name is empty")) :=
  ⟨by decide, rfl,
   (loadPlugin_nameless_manifest exampleQt2 exampleLua2 (World.initial 7 exampleFs2)
      (qs "/plugins/e") (qs "\x7b\x7d") [] (by decide) (by decide) rfl (Or.inl rfl)).2 rfl,
   by decide, by decide, rfl, rfl,
   (loadPlugin_nameless_manifest exampleQt2 exampleLua2 (World.initial 7 exampleFs2)
      (qs "/plugins/b") (qs "\x7b\"version\":\"1\"\x7d") [(qs "version", .string (qs "1"))]
      (by decide) (by decide) rfl (Or.inl rfl)).1 (by simp)⟩

/-- C18 fails on the code: after two loads of "/other/x" the instances at the addresses
1 and 2 are open and only the one at 2 is held by a record of the loaded mapping; and
after `finalize`, which closes the instance at 2 alone, the one at 1 is still open. -/
theorem instance_left_open :
    exampleLeak.heap.states.map Prod.fst = [1, 2] ∧
    exampleLeak.instances = [2] ∧
    exampleLeak.log =
      [Event.newstate 1, Event.pcall 1 (.function 0) [],
       Event.newstate 2, Event.pcall 2 (.function 0) []] ∧
    (PluginManager.finalize exampleQt exampleLua exampleLeak).log =
      exampleLeak.log ++ [Event.close 2] ∧
    (PluginManager.finalize exampleQt exampleLua exampleLeak).heap.states.map Prod.fst = [1] :=
  ⟨by decide, by decide, by decide, by decide, by decide⟩

/-! ## The order of a broadcast -/

theorem ascending_ext (l1 l2 : List QString)
    (h1 : l1.Pairwise (fun a b => QString.lt a b = true))
    (h2 : l2.Pairwise (fun a b => QString.lt a b = true))
    (hmem : ∀ x, x ∈ l1 ↔ x ∈ l2) : l1 = l2 := by
  induction l1 generalizing l2 with
  | nil =>
    cases l2 with
    | nil => rfl
    | cons b t2 => exact absurd ((hmem b).mpr (List.mem_cons_self _ _)) (List.not_mem_nil _)
  | cons a t1 ih =>
    cases l2 with
    | nil => exact absurd ((hmem a).mp (List.mem_cons_self _ _)) (List.not_mem_nil _)
    | cons b t2 =>
      obtain ⟨ha, ht1⟩ := List.pairwise_cons.mp h1
      obtain ⟨hb, ht2⟩ := List.pairwise_cons.mp h2
      have hirr : ∀ x : QString, ¬ QString.lt x x = true := fun x hx => by
        rw [QString.lt_irrefl] at hx
        exact absurd hx (by decide)
      have hab : a = b := by
        rcases List.mem_cons.mp ((hmem a).mp (List.mem_cons_self _ _)) with h | h
        · exact h
        · rcases List.mem_cons.mp ((hmem b).mpr (List.mem_cons_self _ _)) with h' | h'
          · exact h'.symm
          · exact absurd (QString.lt_trans _ _ _ (ha b h') (hb a h)) (hirr a)
      subst hab
      have hnot1 : a ∉ t1 := fun h => hirr a (ha a h)
      have hnot2 : a ∉ t2 := fun h => hirr a (hb a h)
      have htl : t1 = t2 := by
        apply ih t2 ht1 ht2
        intro x
        constructor
        · intro hx
          rcases List.mem_cons.mp ((hmem x).mp (List.mem_cons_of_mem _ hx)) with h | h
          · rw [h] at hx; exact absurd hx hnot1
          · exact h
        · intro hx
          rcases List.mem_cons.mp ((hmem x).mpr (List.mem_cons_of_mem _ hx)) with h | h
          · rw [h] at hx; exact absurd hx hnot2
          · exact h
      rw [htl]

theorem QMap.find_cons_of_ne {V : Type} (k k' : QString) (v : V) (rest : QMap V) (h : k' ≠ k) :
    QMap.find ((k', v) :: rest) k = QMap.find rest k := by
  rw [QMap.find, if_neg h]

theorem filterMap_lockstep {V W β : Type} (g1 : QString × V → Option β)
    (g2 : QString × W → Option β) :
    ∀ (l1 : QMap V) (l2 : QMap W), QMap.keys l1 = QMap.keys l2 → (QMap.keys l1).Nodup →
      (∀ n i i', QMap.find l1 n = some i → QMap.find l2 n = some i' → g1 (n, i) = g2 (n, i')) →
      l1.filterMap g1 = l2.filterMap g2 := by
  intro l1
  induction l1 with
  | nil =>
    intro l2 hk _ _
    cases l2 with
    | nil => rfl
    | cons e t => simp [QMap.keys] at hk
  | cons e1 t1 ih =>
    intro l2 hk hnd hg
    cases l2 with
    | nil => simp [QMap.keys] at hk
    | cons e2 t2 =>
      obtain ⟨k1, v1⟩ := e1
      obtain ⟨k2, v2⟩ := e2
      simp only [QMap.keys, List.map_cons, List.cons.injEq] at hk
      obtain ⟨hk12, hkt⟩ := hk
      subst hk12
      have hnd' : (k1 :: QMap.keys t1).Nodup := hnd
      obtain ⟨hnot, hndt⟩ := List.nodup_cons.mp hnd'
      have hhead : g1 (k1, v1) = g2 (k1, v2) :=
        hg k1 v1 v2 (by simp [QMap.find]) (by simp [QMap.find])
      have htail : t1.filterMap g1 = t2.filterMap g2 := by
        apply ih t2 hkt hndt
        intro n i i' h1 h2
        have hn : k1 ≠ n := by
          intro e
          apply hnot
          rw [e]
          exact QMap.mem_keys_of_find _ _ _ h1
        exact hg n i i' (by rw [QMap.find_cons_of_ne _ _ _ _ hn]; exact h1)
          (by rw [QMap.find_cons_of_ne _ _ _ _ hn]; exact h2)
      rw [List.filterMap_cons, List.filterMap_cons, hhead, htail]

theorem filterMap_tagged_sublist {V β : Type} (g : V → Option β) (l : QMap V) :
    List.Sublist ((l.filterMap (fun e => (g e.2).map (fun b => (e.1, b)))).map Prod.fst)
      (QMap.keys l) := by
  induction l with
  | nil => exact List.Sublist.refl _
  | cons e rest ih =>
    obtain ⟨k, v⟩ := e
    rw [List.filterMap_cons]
    cases hg : g v with
    | none =>
      simp only [hg, Option.map_none']
      exact ih.cons _
    | some b =>
      simp only [hg, Option.map_some']
      exact ih.cons₂ _

theorem filterMap_tagged_snd {V β : Type} (g : V → Option β) (l : QMap V) :
    (l.filterMap (fun e => (g e.2).map (fun b => (e.1, b)))).map Prod.snd =
      l.filterMap (fun e => g e.2) := by
  induction l with
  | nil => rfl
  | cons e rest ih =>
    obtain ⟨k, v⟩ := e
    rw [List.filterMap_cons, List.filterMap_cons]
    cases hg : g v with
    | none => simpa [hg] using ih
    | some b => simpa [hg] using ih

/-- C19: in every world the manager can reach, `getLoadedPlugins` is in strictly
ascending order of the names, hence without duplicates; each broadcast (a file event,
`notifyReady`, `notifyShutdown`) makes its calls plugin by plugin in that order; and a
second reachable world with the same names loaded has the same `getLoadedPlugins`,
and, when each name binds the same handler in both, the same sequence of plugin names
and called functions with their arguments, however the two worlds were reached. -/
theorem broadcast_order (qt : Qt) (lua : Interp) (w : World) (hreach : Reachable qt lua w) :
    (PluginManager.getLoadedPlugins w).Pairwise (fun a b => QString.lt a b = true) ∧
    (PluginManager.getLoadedPlugins w).Nodup ∧
    (∀ eventName filename,
      (PluginManager.broadcastFileEvent lua w eventName filename).log =
        w.log ++ (broadcastTrace w (c_str (qs "__plugin_event_" ++ eventName).toStdString)
          [LuaValue.string (c_str filename.toStdString)]).map Prod.snd) ∧
    (PluginManager.notifyReady lua w).log =
      w.log ++ (broadcastTrace w (qs "__plugin_event_ready") []).map Prod.snd ∧
    (PluginManager.notifyShutdown lua w).log =
      w.log ++ (broadcastTrace w (qs "__plugin_event_shutdown") []).map Prod.snd ∧
    (∀ handlerName args, List.Sublist ((broadcastTrace w handlerName args).map Prod.fst)
      (PluginManager.getLoadedPlugins w)) ∧
    (∀ (qt' : Qt) (lua' : Interp) (w' : World), Reachable qt' lua' w' →
      (∀ n, n ∈ PluginManager.getLoadedPlugins w ↔ n ∈ PluginManager.getLoadedPlugins w') →
      PluginManager.getLoadedPlugins w = PluginManager.getLoadedPlugins w' ∧
      ∀ handlerName args,
        (∀ n i i', PluginManager.getPluginInfo w n = some i →
          PluginManager.getPluginInfo w' n = some i' →
          (handlerCall w handlerName args i).map Event.callee =
            (handlerCall w' handlerName args i').map Event.callee) →
        (broadcastTrace w handlerName args).map (fun p => (p.1, p.2.callee)) =
          (broadcastTrace w' handlerName args).map (fun p => (p.1, p.2.callee))) := by
  have hasc := reachable_ascending qt lua w hreach
  have hnd := (reachable_ownInstances qt lua w hreach).2
  have hcalls : ∀ name args,
      (w.mgr.plugins.foldl (fun w e => PluginManager.callHandler lua name args w e.2) w).log =
        w.log ++ (broadcastTrace w name args).map Prod.snd := by
    intro name args
    rw [(foldl_callHandler lua name args w.mgr.plugins w hnd).1]
    unfold broadcastTrace
    rw [filterMap_tagged_snd (fun i => handlerCall w name args i)]
  refine ⟨hasc, QMap.Ascending.nodup _ hasc, ?_, hcalls _ _, hcalls _ _, ?_, ?_⟩
  · intro eventName filename
    exact hcalls _ _
  · intro handlerName args
    exact filterMap_tagged_sublist (fun i => handlerCall w handlerName args i) w.mgr.plugins
  · intro qt' lua' w' hreach' hmem
    have hasc' := reachable_ascending qt' lua' w' hreach'
    have hkeys : QMap.keys w.mgr.plugins = QMap.keys w'.mgr.plugins :=
      ascending_ext _ _ hasc hasc' hmem
    refine ⟨hkeys, ?_⟩
    intro handlerName args hsame
    unfold broadcastTrace
    rw [List.map_filterMap, List.map_filterMap]
    apply filterMap_lockstep _ _ w.mgr.plugins w'.mgr.plugins hkeys
      (QMap.Ascending.nodup _ hasc)
    intro n i i' h1 h2
    have h := hsame n i i' h1 h2
    simp only [Option.map_map]
    have hc : ((fun p : QString × Event => (p.1, p.2.callee)) ∘ fun ev => (n, ev)) =
        (fun c => (n, c)) ∘ Event.callee := rfl
    rw [hc, ← Option.map_map, ← Option.map_map, h]

/-- C19 on the example tree: the plugins "p1", "p2" and "p3", loaded in this order and
in the order "p3", "p1", "p2", give the same `getLoadedPlugins`, although the
addresses of their instances differ. -/
theorem broadcast_order_witness :
    exampleEvents.instances = [1, 2, 3] ∧
    exampleEventsReordered.instances = [2, 3, 1] ∧
    PluginManager.getLoadedPlugins exampleEvents = [qs "p1", qs "p2", qs "p3"] ∧
    PluginManager.getLoadedPlugins exampleEvents =
      PluginManager.getLoadedPlugins exampleEventsReordered :=
  ⟨by decide, by decide, by decide,
   ((broadcast_order exampleQt exampleLua exampleEvents
      (Reachable.step _ _ (Reachable.step _ _ (Reachable.step _ _
        (Reachable.initial 7 exampleFs))))).2.2.2.2.2.2
      exampleQt exampleLua exampleEventsReordered
      (Reachable.step _ _ (Reachable.step _ _ (Reachable.step _ _
        (Reachable.initial 7 exampleFs))))
      (by
        intro n
        have h1 : PluginManager.getLoadedPlugins exampleEvents = [qs "p1", qs "p2", qs "p3"] := by
          decide
        have h2 : PluginManager.getLoadedPlugins exampleEventsReordered =
            [qs "p1", qs "p2", qs "p3"] := by decide
        rw [h1, h2])).1⟩

/-! ## Two segments of a command id -/

theorem QString.split_piece_no_sep (s : QString) (sep : Nat) :
    ∀ p ∈ QString.split s sep, sep ∉ p := by
  induction s with
  | nil =>
    intro p hp
    simp only [QString.split, List.mem_singleton] at hp
    rw [hp]
    exact List.not_mem_nil _
  | cons c cs ih =>
    intro p hp
    unfold QString.split at hp
    by_cases hc : c = sep
    · rw [if_pos hc] at hp
      rcases List.mem_cons.mp hp with h | h
      · rw [h]; exact List.not_mem_nil _
      · exact ih p h
    · rw [if_neg hc] at hp
      cases hs : QString.split cs sep with
      | nil => exact absurd hs (QString.split_ne_nil _ _)
      | cons q qs' =>
        rw [hs] at hp ih
        simp only [] at hp
        rcases List.mem_cons.mp hp with h | h
        · rw [h]
          intro hmem
          rcases List.mem_cons.mp hmem with h1 | h1
          · exact hc h1.symm
          · exact ih q (List.mem_cons_self _ _) h1
        · exact ih p (List.mem_cons_of_mem _ h)

theorem QString.split_head_no_sep (s : QString) (sep : Nat) :
    sep ∉ (QString.split s sep).getD 0 [] := by
  cases hs : QString.split s sep with
  | nil => exact absurd hs (QString.split_ne_nil _ _)
  | cons q rest =>
    have := QString.split_piece_no_sep s sep q (by rw [hs]; exact List.mem_cons_self _ _)
    simpa using this

theorem QString.split_three (p c s : QString) (hp : 46 ∉ p) (hc : 46 ∉ c) :
    QString.split (p ++ qs "." ++ c ++ qs "." ++ s) 46 = p :: c :: QString.split s 46 := by
  have hdot : qs "." = [46] := by decide
  have e : p ++ qs "." ++ c ++ qs "." ++ s = p ++ 46 :: (c ++ 46 :: s) := by
    rw [hdot]; simp
  rw [e, QString.split_append_sep _ _ _ hp, QString.split_append_sep _ _ _ hc]

theorem nodup_filterMap_inj {α β : Type} (f : α → Option β) (l : List α)
    (hnd : (l.filterMap f).Nodup) (a b : α) (ha : a ∈ l) (hb : b ∈ l) (x : β)
    (hfa : f a = some x) (hfb : f b = some x) : a = b := by
  induction l with
  | nil => exact absurd ha (List.not_mem_nil _)
  | cons e rest ih =>
    rw [List.filterMap_cons] at hnd
    rcases List.mem_cons.mp ha with ha' | ha'
    · rcases List.mem_cons.mp hb with hb' | hb'
      · rw [ha', hb']
      · subst ha'
        rw [hfa] at hnd
        exact absurd (List.mem_filterMap.mpr ⟨b, hb', hfb⟩) (List.nodup_cons.mp hnd).1
    · rcases List.mem_cons.mp hb with hb' | hb'
      · subst hb'
        rw [hfb] at hnd
        exact absurd (List.mem_filterMap.mpr ⟨a, ha', hfa⟩) (List.nodup_cons.mp hnd).1
      · have hnd' : (rest.filterMap f).Nodup := by
          cases hfe : f e with
          | none => rw [hfe] at hnd; exact hnd
          | some y => rw [hfe] at hnd; exact (List.nodup_cons.mp hnd).2
        exact ih hnd' ha' hb'

theorem executeCommand_log (lua : Interp) (w : World) (commandId : QString) :
    (PluginManager.executeCommand lua w commandId).2.log = w.log ∨
    ∃ (info : PluginInfo) (L f : Nat),
      QMap.find w.mgr.plugins ((commandId.split 46).getD 0 []) = some info ∧
      info.luaState = some L ∧
      (PluginManager.executeCommand lua w commandId).2.log =
        w.log ++ [Event.pcall L (.function f) []] := by
  unfold PluginManager.executeCommand
  simp only []
  split
  · exact Or.inl rfl
  · split
    · exact Or.inl rfl
    · rename_i info hfind
      split
      · exact Or.inl rfl
      · rename_i L hL
        split
        · exact Or.inl rfl
        · split
          · rename_i f _
            refine Or.inr ⟨info, L, f, hfind, hL, ?_⟩
            simp only [lua_pcall]
            split <;> rfl
          · exact Or.inl rfl

/-- C20: `executeCommand` looks at the first two segments of a command id only: for
texts `p` and `c` without a dot and any text `s`, the call on p.c.s has the result and
the effect of the call on p.c; and in a world the manager can reach, no call of
`executeCommand`, whatever the id, makes a call in the instance of a loaded plugin whose
name contains a dot. -/
theorem executeCommand_two_segments (lua : Interp) (w : World) :
    (∀ p c s : QString, 46 ∉ p → 46 ∉ c →
      PluginManager.executeCommand lua w (p ++ qs "." ++ c ++ qs "." ++ s) =
        PluginManager.executeCommand lua w (p ++ qs "." ++ c)) ∧
    (∀ qt : Qt, Reachable qt lua w →
      ∀ (commandId name : QString) (info : PluginInfo) (L : Nat),
        PluginManager.getPluginInfo w name = some info → 46 ∈ name → info.luaState = some L →
        ∀ f args, Event.pcall L f args ∉
          (PluginManager.executeCommand lua w commandId).2.log.drop w.log.length) := by
  constructor
  · intro p c s hp hc
    have h3 := QString.split_three p c s hp hc
    have h2 := QString.split_qualified p c hp hc
    unfold PluginManager.executeCommand
    rw [h3, h2]
    have hlen : ¬ (p :: c :: QString.split s 46).length < 2 := by simp
    simp only [hlen, if_false, List.length_cons, List.length_nil, List.getD_cons_zero,
      List.getD_cons_succ]
    simp
  · intro qt hreach commandId name info L hinfo hdot hL f args hmem
    rcases executeCommand_log lua w commandId with hlog | ⟨info0, L0, f0, hfind0, hL0, hlog⟩
    · rw [hlog, List.drop_length] at hmem
      exact absurd hmem (List.not_mem_nil _)
    · rw [hlog, List.drop_left] at hmem
      have hev : Event.pcall L f args = Event.pcall L0 (.function f0) [] :=
        List.mem_singleton.mp hmem
      have hLL : L = L0 := by
        injection hev
      subst hLL
      have heq := nodup_filterMap_inj (fun e : QString × PluginInfo => e.2.luaState)
        w.mgr.plugins (reachable_ownInstances qt lua w hreach).2
        (name, info) ((commandId.split 46).getD 0 [], info0)
        (QMap.mem_of_find _ _ _ hinfo) (QMap.mem_of_find _ _ _ hfind0) L hL hL0
      have hname : name = (commandId.split 46).getD 0 [] := congrArg Prod.fst heq
      rw [hname] at hdot
      exact QString.split_head_no_sep commandId 46 hdot

/-- C20 on the example registry: the call on "pluginA.cmd.extra" is the call on
"pluginA.cmd", which succeeds with one call of the handler. -/
theorem executeCommand_two_segments_witness :
    PluginManager.executeCommand exampleLua exampleWorld
        (qs "pluginA" ++ qs "." ++ qs "cmd" ++ qs "." ++ qs "extra") =
      PluginManager.executeCommand exampleLua exampleWorld (qs "pluginA" ++ qs "." ++ qs "cmd") ∧
    (PluginManager.executeCommand exampleLua exampleWorld (qs "pluginA.cmd.extra")).1 = true ∧
    (PluginManager.executeCommand exampleLua exampleWorld (qs "pluginA.cmd.extra")).2.log =
      [Event.pcall 1 (.function 0) []] :=
  ⟨(executeCommand_two_segments exampleLua exampleWorld).1 (qs "pluginA") (qs "cmd") (qs "extra")
     (by decide) (by decide),
   by decide, by decide⟩

/-! ## A manager without editor -/

theorem unloadPlugin_editor (qt : Qt) (w : World) (pluginName : QString) :
    (PluginManager.unloadPlugin qt w pluginName).mgr.editor = w.mgr.editor := by
  unfold PluginManager.unloadPlugin
  split
  · rfl
  · simp only []
    split <;> rfl

theorem loadPlugin_without_editor (qt : Qt) (lua : Interp) (w : World) (path : QString)
    (h : w.mgr.editor = none) : PluginManager.loadPlugin qt lua w path = (false, w) := by
  unfold PluginManager.loadPlugin
  simp [h]

theorem Op.run_editor_none (qt : Qt) (lua : Interp) (w : World) (op : Op)
    (hnone : w.mgr.editor = none) (hop : ∀ e, op ≠ Op.init (some e)) :
    (op.run qt lua w).mgr.editor = none := by
  cases op with
  | init e =>
    cases e with
    | none =>
      show ( PluginManager.initialize w none).2.mgr.editor = none
      unfold PluginManager.initialize
      simp [hnone]
    | some e => exact absurd rfl (hop e)
  | finalize => rfl
  | loadPlugin path =>
    show (PluginManager.loadPlugin qt lua w path).2.mgr.editor = none
    rw [loadPlugin_without_editor qt lua w path hnone]
    exact hnone
  | unloadPlugin n =>
    show (PluginManager.unloadPlugin qt w n).mgr.editor = none
    rw [unloadPlugin_editor]
    exact hnone
  | reloadPlugin n =>
    show (PluginManager.reloadPlugin qt lua w n).mgr.editor = none
    unfold PluginManager.reloadPlugin
    split
    · exact hnone
    · rename_i info _
      have hu : (PluginManager.unloadPlugin qt w n).mgr.editor = none := by
        rw [unloadPlugin_editor]
        exact hnone
      rw [loadPlugin_without_editor qt lua _ info.path hu]
      exact hu
  | executeCommand c =>
    show (PluginManager.executeCommand lua w c).2.mgr.editor = none
    rw [(executeCommand_frame lua w c).1]
    exact hnone
  | callPluginFunction p f args =>
    show ((Op.callPluginFunction p f args).run qt lua w).mgr.editor = none
    rw [(callPluginFunction_frame qt lua w p f args).1]
    exact hnone
  | notifyReady =>
    show (PluginManager.notifyReady lua w).mgr.editor = none
    unfold PluginManager.notifyReady
    rw [(foldl_callHandler_frame lua _ _ w.mgr.plugins w).1]
    exact hnone
  | notifyShutdown =>
    show (PluginManager.notifyShutdown lua w).mgr.editor = none
    unfold PluginManager.notifyShutdown
    rw [(foldl_callHandler_frame lua _ _ w.mgr.plugins w).1]
    exact hnone
  | broadcastFileEvent e f =>
    show (PluginManager.broadcastFileEvent lua w e f).mgr.editor = none
    unfold PluginManager.broadcastFileEvent
    rw [(foldl_callHandler_frame lua _ _ w.mgr.plugins w).1]
    exact hnone

theorem foldl_run_editor_none (qt : Qt) (lua : Interp) :
    ∀ (ops : List Op) (w : World), w.mgr.editor = none →
      (∀ op ∈ ops, ∀ e, op ≠ Op.init (some e)) →
      (ops.foldl (fun w op => op.run qt lua w) w).mgr.editor = none := by
  intro ops
  induction ops with
  | nil => intro w h _; exact h
  | cons op rest ih =>
    intro w h hops
    simp only [List.foldl_cons]
    apply ih
    · exact Op.run_editor_none qt lua w op h (hops op (List.mem_cons_self _ _))
    · intro op' hop'
      exact hops op' (List.mem_cons_of_mem _ hop')

/-- C21: on a manager that holds an editor, `initialize` with the null pointer returns
false and leaves the manager with the null editor and everything else as it was; from
then on, through any calls of the member functions other than an `initialize` with an
editor that is not null, every `loadPlugin` returns failure and leaves the world, the
loaded and the failed mapping included, unchanged; and `initialize` with the editor
already held returns false and changes nothing. -/
theorem initialize_null (w : World) (h : Nat) (hw : w.mgr.editor = some h) :
    ( PluginManager.initialize w none).1 = false ∧
    ( PluginManager.initialize w none).2.mgr.editor = none ∧
    ( PluginManager.initialize w none).2.mgr.plugins = w.mgr.plugins ∧
    ( PluginManager.initialize w none).2.mgr.failedPlugins = w.mgr.failedPlugins ∧
    (∀ (qt : Qt) (lua : Interp) (ops : List Op) (path : QString),
      (∀ op ∈ ops, ∀ e, op ≠ Op.init (some e)) →
      PluginManager.loadPlugin qt lua
          (ops.foldl (fun w op => op.run qt lua w) ( PluginManager.initialize w none).2) path =
        (false, ops.foldl (fun w op => op.run qt lua w) ( PluginManager.initialize w none).2)) ∧
    PluginManager.initialize w (some h) = (false, w) := by
  have hne : ¬ w.mgr.editor = none := by rw [hw]; simp
  have hinit : PluginManager.initialize w none =
      (false, { w with mgr := { w.mgr with editor := none } }) := by
    unfold PluginManager.initialize
    simp [hne]
  refine ⟨by rw [hinit], by rw [hinit], by rw [hinit], by rw [hinit], ?_, ?_⟩
  · intro qt lua ops path hops
    apply loadPlugin_without_editor
    apply foldl_run_editor_none qt lua ops _ _ hops
    rw [hinit]
  · unfold PluginManager.initialize
    simp [hw]

theorem initialize_null_witness :
    exampleLoaded.mgr.editor = some 7 ∧
    ( PluginManager.initialize exampleLoaded none).1 = false ∧
    ( PluginManager.initialize exampleLoaded none).2.mgr.editor = none ∧
    PluginManager.loadPlugin exampleQt exampleLua
        ([Op.unloadPlugin (qs "a"), Op.init none, Op.finalize].foldl
          (fun w op => op.run exampleQt exampleLua w)
          ( PluginManager.initialize exampleLoaded none).2) (qs "/other/x") =
      (false, [Op.unloadPlugin (qs "a"), Op.init none, Op.finalize].foldl
          (fun w op => op.run exampleQt exampleLua w)
          ( PluginManager.initialize exampleLoaded none).2) ∧
    PluginManager.initialize exampleLoaded (some 7) = (false, exampleLoaded) :=
  ⟨rfl, (initialize_null exampleLoaded 7 rfl).1, (initialize_null exampleLoaded 7 rfl).2.1,
    (initialize_null exampleLoaded 7 rfl).2.2.2.2.1 exampleQt exampleLua
      [Op.unloadPlugin (qs "a"), Op.init none, Op.finalize] (qs "/other/x")
      (by
        intro op hop e he
        subst he
        simp at hop),
    (initialize_null exampleLoaded 7 rfl).2.2.2.2.2⟩

/-! ## The records of the loaded mapping -/

theorem QMap.mem_insert {V : Type} (m : QMap V) (k : QString) (v : V) (e : QString × V)
    (h : e ∈ QMap.insert m k v) : e = (k, v) ∨ e ∈ m := by
  induction m with
  | nil =>
    simp only [QMap.insert, List.mem_singleton] at h
    exact Or.inl h
  | cons e' rest ih =>
    obtain ⟨k', v'⟩ := e'
    unfold QMap.insert at h
    split at h
    · rcases List.mem_cons.mp h with h1 | h1
      · exact Or.inl h1
      · exact Or.inr (List.mem_cons_of_mem _ h1)
    · split at h
      · rcases List.mem_cons.mp h with h1 | h1
        · exact Or.inl h1
        · exact Or.inr h1
      · rcases List.mem_cons.mp h with h1 | h1
        · exact Or.inr (h1 ▸ List.mem_cons_self _ _)
        · rcases ih h1 with h2 | h2
          · exact Or.inl h2
          · exact Or.inr (List.mem_cons_of_mem _ h2)

/-- The record `loadPlugin` builds is well formed under the declared name, when this
name is not empty. -/
theorem loadedRecord_wellFormed (qt : Qt) (fs : FileSystem) (path : QString) (L : Nat)
    (h : (declaredName qt fs path).isEmpty = false) :
    PluginInfo.WellFormed (declaredName qt fs path) (loadedRecord qt fs path L) := by
  refine ⟨rfl, ?_, ?_, rfl, rfl⟩
  · intro hnil
    rw [hnil] at h
    simp [QString.isEmpty] at h
  · simp [loadedRecord]

/-- A `loadPlugin` leaves the loaded mapping as it was, or writes to it the record it
built, under the declared name, which is not empty. -/
theorem loadPlugin_entries (qt : Qt) (lua : Interp) (w : World) (path : QString) :
    (PluginManager.loadPlugin qt lua w path).2.mgr.plugins = w.mgr.plugins ∨
    ((declaredName qt w.fs path).isEmpty = false ∧
      (PluginManager.loadPlugin qt lua w path).2.mgr.plugins =
        QMap.insert w.mgr.plugins (declaredName qt w.fs path)
          (loadedRecord qt w.fs path w.heap.next)) := by
  rcases loadPlugin_outcome qt lua w path with ⟨_, h⟩ | ⟨_, msg, w1, _, hm, _, _, h⟩ |
    ⟨_, hname, w1, hc, h⟩
  · left
    rw [h]
  · left
    rw [h]
    show w1.mgr.plugins = w.mgr.plugins
    rw [hm]
  · right
    refine ⟨hname, ?_⟩
    have hm := (createPluginLuaState_spec qt lua w path
      (PluginManager.parseManifest qt w.fs (qt.absoluteFilePath path (qs "manifest.json")))).1
    rw [hc] at hm
    have hm' : w1.mgr = w.mgr := hm
    rw [h]
    show QMap.insert w1.mgr.plugins _ _ = _
    rw [hm']

/-- A `loadPlugin` keeps the records of the loaded mapping well formed. -/
theorem loadPlugin_wellFormed (qt : Qt) (lua : Interp) (w : World) (path : QString)
    (hw : ∀ e ∈ w.mgr.plugins, PluginInfo.WellFormed e.1 e.2) :
    ∀ e ∈ (PluginManager.loadPlugin qt lua w path).2.mgr.plugins,
      PluginInfo.WellFormed e.1 e.2 := by
  rcases loadPlugin_entries qt lua w path with h | ⟨hname, h⟩
  · rw [h]
    exact hw
  · rw [h]
    intro e he
    rcases QMap.mem_insert _ _ _ _ he with h1 | h1
    · rw [h1]
      exact loadedRecord_wellFormed qt w.fs path w.heap.next hname
    · exact hw e h1

/-- Every call of a member function keeps the records of the loaded mapping well
formed. -/
theorem Op.run_wellFormed (qt : Qt) (lua : Interp) (w : World) (op : Op)
    (hw : ∀ e ∈ w.mgr.plugins, PluginInfo.WellFormed e.1 e.2) :
    ∀ e ∈ (op.run qt lua w).mgr.plugins, PluginInfo.WellFormed e.1 e.2 := by
  cases op with
  | init ed =>
    have : ( PluginManager.initialize w ed).2.mgr.plugins = w.mgr.plugins := by
      unfold PluginManager.initialize
      split
      · rfl
      · simp only []
        split <;> rfl
    show ∀ e ∈ ( PluginManager.initialize w ed).2.mgr.plugins, PluginInfo.WellFormed e.1 e.2
    rw [this]
    exact hw
  | finalize =>
    intro e he
    cases he
  | loadPlugin path => exact loadPlugin_wellFormed qt lua w path hw
  | unloadPlugin n =>
    intro e he
    exact hw e ((unloadPlugin_plugins qt w n).1.subset he)
  | reloadPlugin n =>
    show ∀ e ∈ (PluginManager.reloadPlugin qt lua w n).mgr.plugins,
      PluginInfo.WellFormed e.1 e.2
    unfold PluginManager.reloadPlugin
    split
    · exact hw
    · rename_i info _
      apply loadPlugin_wellFormed
      intro e he
      exact hw e ((unloadPlugin_plugins qt w n).1.subset he)
  | executeCommand c =>
    show ∀ e ∈ (PluginManager.executeCommand lua w c).2.mgr.plugins,
      PluginInfo.WellFormed e.1 e.2
    rw [(executeCommand_frame lua w c).1]
    exact hw
  | callPluginFunction p f args =>
    show ∀ e ∈ ((Op.callPluginFunction p f args).run qt lua w).mgr.plugins,
      PluginInfo.WellFormed e.1 e.2
    rw [(callPluginFunction_frame qt lua w p f args).1]
    exact hw
  | notifyReady =>
    show ∀ e ∈ (PluginManager.notifyReady lua w).mgr.plugins, PluginInfo.WellFormed e.1 e.2
    unfold PluginManager.notifyReady
    rw [(foldl_callHandler_frame lua _ _ w.mgr.plugins w).1]
    exact hw
  | notifyShutdown =>
    show ∀ e ∈ (PluginManager.notifyShutdown lua w).mgr.plugins, PluginInfo.WellFormed e.1 e.2
    unfold PluginManager.notifyShutdown
    rw [(foldl_callHandler_frame lua _ _ w.mgr.plugins w).1]
    exact hw
  | broadcastFileEvent ev f =>
    show ∀ e ∈ (PluginManager.broadcastFileEvent lua w ev f).mgr.plugins,
      PluginInfo.WellFormed e.1 e.2
    unfold PluginManager.broadcastFileEvent
    rw [(foldl_callHandler_frame lua _ _ w.mgr.plugins w).1]
    exact hw

/-- C22: in every world the manager can reach by calls of its member functions,
`loadPlugin`, `unloadPlugin`, `reloadPlugin` and `finalize` among them, every record of
the loaded mapping is stored under a key that is its own name and is not empty, holds an
interpreter instance, is enabled and has an empty error; and so is every record
`getPluginInfo` finds under a name. -/
theorem loaded_records_wellFormed (qt : Qt) (lua : Interp) (w : World)
    (hreach : Reachable qt lua w) :
    (∀ e ∈ w.mgr.plugins, PluginInfo.WellFormed e.1 e.2) ∧
    (∀ (key : QString) (r : PluginInfo), PluginManager.getPluginInfo w key = some r →
      r.name = key ∧ key ≠ [] ∧ r.luaState ≠ none ∧ r.enabled = true ∧ r.error = []) := by
  have hall : ∀ e ∈ w.mgr.plugins, PluginInfo.WellFormed e.1 e.2 := by
    induction hreach with
    | initial editor fs =>
      intro e he
      cases he
    | step w op _ ih => exact Op.run_wellFormed qt lua w op ih
  refine ⟨hall, ?_⟩
  intro key r hfind
  exact hall (key, r) (QMap.mem_of_find _ _ _ hfind)

theorem loaded_records_wellFormed_witness :
    Reachable exampleQt exampleLua exampleLoaded ∧
    exampleLoaded.mgr.plugins.map (fun e => e.1) = [qs "a"] ∧
    (∀ e ∈ exampleLoaded.mgr.plugins, PluginInfo.WellFormed e.1 e.2) ∧
    (∀ (key : QString) (r : PluginInfo),
      PluginManager.getPluginInfo exampleLoaded key = some r →
      r.name = key ∧ key ≠ [] ∧ r.luaState ≠ none ∧ r.enabled = true ∧ r.error = []) :=
  ⟨Reachable.step _ (Op.loadPlugin (qs "/other/x")) (Reachable.initial 7 exampleFs),
    by decide,
    loaded_records_wellFormed exampleQt exampleLua exampleLoaded
      (Reachable.step _ (Op.loadPlugin (qs "/other/x")) (Reachable.initial 7 exampleFs))⟩

/-! ## Reachable worlds: the instances of the loaded records are open -/

theorem lookup_map_replace_isSome (l : List (Nat × lua_State)) (L L' : Nat) (s : lua_State) :
    (List.lookup L' (l.map (fun e => if e.1 = L then (L, s) else e))).isSome =
      (List.lookup L' l).isSome := by
  by_cases hne : L' = L
  · subst hne
    induction l with
    | nil => rfl
    | cons e rest ih =>
      obtain ⟨k, v⟩ := e
      by_cases hk : k = L'
      · subst hk
        simp [List.lookup_cons]
      · have hb : (L' == k) = false := by simpa using fun e => hk e.symm
        simp only [List.map_cons, if_neg hk, List.lookup_cons, hb]
        exact ih
  · rw [lookup_map_replace l L L' s hne]

theorem LuaHeap.get_set_isSome (h : LuaHeap) (L L' : Nat) (s : lua_State) :
    ((h.set L s).get L').isSome = (h.get L').isSome :=
  lookup_map_replace_isSome h.states L L' s

theorem lookup_filter_of_ne (l : List (Nat × lua_State)) (L L' : Nat) (hne : L' ≠ L) :
    List.lookup L' (l.filter (fun e => e.1 != L)) = List.lookup L' l := by
  induction l with
  | nil => rfl
  | cons e rest ih =>
    obtain ⟨k, v⟩ := e
    rw [List.filter_cons]
    by_cases hk : k = L
    · have h1 : ((k, v).1 != L) = false := by simp [hk]
      have hb : (L' == k) = false := by rw [hk]; simpa using hne
      rw [h1]
      simp only [Bool.false_eq_true, if_false, List.lookup_cons, hb]
      exact ih
    · have h1 : ((k, v).1 != L) = true := by simpa using hk
      rw [h1]
      simp only [if_true, List.lookup_cons]
      rw [ih]

theorem LuaHeap.get_close_of_ne (h : LuaHeap) (L L' : Nat) (hne : L' ≠ L) :
    (h.close L).get L' = h.get L' :=
  lookup_filter_of_ne h.states L L' hne

theorem lookup_append_isSome (l : List (Nat × lua_State)) (L' : Nat) (e : Nat × lua_State)
    (h : (List.lookup L' l).isSome = true) : (List.lookup L' (l ++ [e])).isSome = true := by
  induction l with
  | nil => simp at h
  | cons x rest ih =>
    obtain ⟨k, v⟩ := x
    simp only [List.cons_append, List.lookup_cons] at h ⊢
    cases hb : (L' == k) with
    | true => rfl
    | false =>
      rw [hb] at h
      exact ih h

/-- The set-up of a new instance leaves the instances that are open as they are. -/
theorem createPluginLuaState_open (qt : Qt) (lua : Interp) (w : World) (pluginPath : QString)
    (manifest : QJsonObject) (L' : Nat) (hne : L' ≠ w.heap.next)
    (h : (w.heap.get L').isSome = true) :
    ((PluginManager.createPluginLuaState qt lua w pluginPath manifest).2.heap.get L').isSome =
      true := by
  unfold PluginManager.createPluginLuaState
  simp only []
  cases hn : lua.newstate w.heap.next with
  | none => exact h
  | some s0 =>
    simp only []
    have h1 : ((LuaHeap.mk (w.heap.states ++ [(w.heap.next, s0)]) (w.heap.next + 1)).get
        L').isSome = true := lookup_append_isSome _ _ _ h
    split
    · simp only [lua_close]
      rw [LuaHeap.get_close_of_ne _ _ _ hne]
      exact h1
    · simp only [lua_pcall]
      split
      · simp only [lua_close]
        rw [LuaHeap.get_close_of_ne _ _ _ hne, LuaHeap.get_set_isSome]
        exact h1
      · simp only []
        rw [LuaHeap.get_set_isSome]
        exact h1

theorem loadPlugin_heap (qt : Qt) (lua : Interp) (w : World) (path : QString) :
    (PluginManager.loadPlugin qt lua w path).2.heap = w.heap ∨
    (PluginManager.loadPlugin qt lua w path).2.heap =
      (PluginManager.createPluginLuaState qt lua w path
        (PluginManager.parseManifest qt w.fs
          (qt.absoluteFilePath path (qs "manifest.json")))).2.heap := by
  unfold PluginManager.loadPlugin
  simp only []
  split
  · exact Or.inl rfl
  · split
    · exact Or.inl rfl
    · split
      · exact Or.inl rfl
      · split
        · exact Or.inl rfl
        · split
          · exact Or.inl rfl
          · split
            · exact Or.inl rfl
            · right
              split
              · rename_i heq
                rw [heq]
                rfl
              · rename_i heq
                rw [heq]

theorem World.OpenInstances.of_same_plugins (w w' : World) (hp : w'.mgr.plugins = w.mgr.plugins)
    (hh : ∀ L, (w.heap.get L).isSome = true → (w'.heap.get L).isSome = true)
    (h : w.OpenInstances) : w'.OpenInstances := by
  intro e he
  rw [hp] at he
  obtain ⟨L, s, hL, hs⟩ := h e he
  have := hh L (by rw [hs]; rfl)
  obtain ⟨s', hs'⟩ := Option.isSome_iff_exists.mp this
  exact ⟨L, s', hL, hs'⟩

theorem loadPlugin_open (qt : Qt) (lua : Interp) (w : World) (path : QString)
    (hown : w.OwnInstances) (h : w.OpenInstances) :
    (PluginManager.loadPlugin qt lua w path).2.OpenInstances := by
  have hkeep : ∀ L, L ∈ w.instances → (w.heap.get L).isSome = true →
      ((PluginManager.loadPlugin qt lua w path).2.heap.get L).isSome = true := by
    intro L hmem hopen
    have hne : L ≠ w.heap.next := Nat.ne_of_lt (hown.1 L hmem)
    rcases loadPlugin_heap qt lua w path with hh | hh
    · rw [hh]; exact hopen
    · rw [hh]; exact createPluginLuaState_open qt lua w path _ L hne hopen
  have hold : ∀ e ∈ w.mgr.plugins, ∃ L s, e.2.luaState = some L ∧
      (PluginManager.loadPlugin qt lua w path).2.heap.get L = some s := by
    intro e he
    obtain ⟨L, s, hL, hs⟩ := h e he
    have hmem : L ∈ w.instances := List.mem_filterMap.mpr ⟨e, he, hL⟩
    obtain ⟨s', hs'⟩ := Option.isSome_iff_exists.mp (hkeep L hmem (by rw [hs]; rfl))
    exact ⟨L, s', hL, hs'⟩
  rcases loadPlugin_entries qt lua w path with hp | ⟨hname, hp⟩
  · intro e he
    rw [hp] at he
    exact hold e he
  · intro e he
    rw [hp] at he
    rcases QMap.mem_insert _ _ _ _ he with h1 | h1
    · rcases loadPlugin_outcome qt lua w path with ⟨_, hr⟩ | ⟨_, msg, w1, _, hm, _, _, hr⟩ |
        ⟨_, _, w1, hc, hr⟩
      · exfalso
        rw [hr] at hp
        have hmem : (declaredName qt w.fs path, loadedRecord qt w.fs path w.heap.next) ∈
            w.mgr.plugins := by
          have := QMap.mem_of_find _ _ _ (QMap.find_insert_self w.mgr.plugins
            (declaredName qt w.fs path) (loadedRecord qt w.fs path w.heap.next))
          rw [← hp] at this
          exact this
        have hlt := hown.1 w.heap.next (List.mem_filterMap.mpr ⟨_, hmem, rfl⟩)
        exact Nat.lt_irrefl _ hlt
      · exfalso
        rw [hr] at hp
        have hp' : w.mgr.plugins = QMap.insert w.mgr.plugins (declaredName qt w.fs path)
            (loadedRecord qt w.fs path w.heap.next) := by
          rw [← hp]
          show w.mgr.plugins = w1.mgr.plugins
          rw [hm]
        have hmem : (declaredName qt w.fs path, loadedRecord qt w.fs path w.heap.next) ∈
            w.mgr.plugins := by
          have := QMap.mem_of_find _ _ _ (QMap.find_insert_self w.mgr.plugins
            (declaredName qt w.fs path) (loadedRecord qt w.fs path w.heap.next))
          rw [← hp'] at this
          exact this
        have hlt := hown.1 w.heap.next (List.mem_filterMap.mpr ⟨_, hmem, rfl⟩)
        exact Nat.lt_irrefl _ hlt
      · obtain ⟨_, _, hsome, hget⟩ := createPluginLuaState_success qt lua w path _ w1 hc
        obtain ⟨s', hs'⟩ := Option.isSome_iff_exists.mp hsome
        refine ⟨w.heap.next, s', ?_, ?_⟩
        · rw [h1]; rfl
        · rw [hr]
          show w1.heap.get w.heap.next = some s'
          rw [hget, hs']
    · exact hold e h1

theorem unloadPlugin_open (qt : Qt) (w : World) (n : QString)
    (hown : w.OwnInstances) (hkeys : (QMap.keys w.mgr.plugins).Nodup) (h : w.OpenInstances) :
    (PluginManager.unloadPlugin qt w n).OpenInstances := by
  cases hfind : QMap.find w.mgr.plugins n with
  | none =>
    unfold PluginManager.unloadPlugin
    rw [hfind]
    exact h
  | some info =>
    intro e he
    rw [unloadPlugin_found qt w n info hfind] at he
    have hew : e ∈ w.mgr.plugins := (QMap.erase_sublist _ _).subset he
    obtain ⟨L, s, hL, hs⟩ := h e hew
    refine ⟨L, s, hL, ?_⟩
    unfold PluginManager.unloadPlugin
    rw [hfind]
    simp only []
    cases hi : info.luaState with
    | none => exact hs
    | some L0 =>
      simp only [lua_close, PluginManager.savePluginConfig]
      have hne : L ≠ L0 := by
        intro heq
        subst heq
        have hee := nodup_filterMap_inj (fun e : QString × PluginInfo => e.2.luaState)
          w.mgr.plugins hown.2 e (n, info) hew (QMap.mem_of_find _ _ _ hfind) L hL hi
        have hk : n ∈ QMap.keys (QMap.erase w.mgr.plugins n) := by
          have : e.1 ∈ QMap.keys (QMap.erase w.mgr.plugins n) := List.mem_map_of_mem _ he
          rw [hee] at this
          exact this
        exact QMap.not_mem_keys_erase _ _ hkeys hk
      rw [LuaHeap.get_close_of_ne _ _ _ hne]
      exact hs

theorem callHandler_open (lua : Interp) (name : QString) (args : List LuaValue) (w : World)
    (info : PluginInfo) (L' : Nat) :
    ((PluginManager.callHandler lua name args w info).heap.get L').isSome =
      (w.heap.get L').isSome := by
  unfold PluginManager.callHandler
  split
  · rfl
  · split
    · rfl
    · split
      · simp only [lua_pcall]
        exact LuaHeap.get_set_isSome _ _ _ _
      · rfl

theorem foldl_callHandler_open (lua : Interp) (name : QString) (args : List LuaValue)
    (L' : Nat) :
    ∀ (ps : List (QString × PluginInfo)) (w : World),
      ((ps.foldl (fun w e => PluginManager.callHandler lua name args w e.2) w).heap.get
        L').isSome = (w.heap.get L').isSome := by
  intro ps
  induction ps with
  | nil => intro w; rfl
  | cons p rest ih =>
    intro w
    simp only [List.foldl_cons]
    rw [ih, callHandler_open]

theorem executeCommand_open (lua : Interp) (w : World) (commandId : QString) (L' : Nat) :
    ((PluginManager.executeCommand lua w commandId).2.heap.get L').isSome =
      (w.heap.get L').isSome := by
  unfold PluginManager.executeCommand
  simp only []
  split
  · rfl
  · split
    · rfl
    · split
      · rfl
      · split
        · rfl
        · split
          · simp only [lua_pcall]
            split <;> exact LuaHeap.get_set_isSome _ _ _ _
          · rfl

theorem callPluginFunction_some_open (lua : Interp) (w : World)
    (pluginName functionName : QString) (args : List QString) (r : QString × World) (L' : Nat)
    (h : PluginManager.callPluginFunction lua w pluginName functionName args = some r) :
    (r.2.heap.get L').isSome = (w.heap.get L').isSome := by
  unfold PluginManager.callPluginFunction at h
  split at h
  · cases h; rfl
  · split at h
    · cases h; rfl
    · split at h
      · cases h; rfl
      · split at h
        · split at h
          · cases h
          · simp only [lua_pcall] at h
            split at h <;> cases h <;> exact LuaHeap.get_set_isSome _ _ _ _
        · cases h; rfl

theorem callPluginFunction_open (qt : Qt) (lua : Interp) (w : World)
    (pluginName functionName : QString) (args : List QString) (L' : Nat) :
    (((Op.callPluginFunction pluginName functionName args).run qt lua w).heap.get L').isSome =
      (w.heap.get L').isSome := by
  show ((match PluginManager.callPluginFunction lua w pluginName functionName args with
    | some r => r.2
    | none => w).heap.get L').isSome = (w.heap.get L').isSome
  cases h : PluginManager.callPluginFunction lua w pluginName functionName args with
  | none => rfl
  | some r => exact callPluginFunction_some_open lua w pluginName functionName args r L' h

/-- Every call of a member function in a world the manager can reach keeps the
instances of the loaded records open. -/
theorem Op.run_open (qt : Qt) (lua : Interp) (w : World) (op : Op)
    (hreach : Reachable qt lua w) (h : w.OpenInstances) : (op.run qt lua w).OpenInstances := by
  have hown := reachable_ownInstances qt lua w hreach
  have hkeys := QMap.Ascending.nodup _ (reachable_ascending qt lua w hreach)
  cases op with
  | init e =>
    show ( PluginManager.initialize w e).2.OpenInstances
    unfold PluginManager.initialize
    split
    · exact h
    · simp only []
      split <;> exact h
  | finalize =>
    intro e he
    cases he
  | loadPlugin path => exact loadPlugin_open qt lua w path hown h
  | unloadPlugin n => exact unloadPlugin_open qt w n hown hkeys h
  | reloadPlugin n =>
    show (PluginManager.reloadPlugin qt lua w n).OpenInstances
    unfold PluginManager.reloadPlugin
    split
    · exact h
    · exact loadPlugin_open qt lua _ _ (unloadPlugin_ownInstances qt w n hown)
        (unloadPlugin_open qt w n hown hkeys h)
  | executeCommand c =>
    exact World.OpenInstances.of_same_plugins w _
      (congrArg PluginManager.plugins (executeCommand_frame lua w c).1)
      (fun L hL => (executeCommand_open lua w c L).trans hL) h
  | callPluginFunction p f args =>
    exact World.OpenInstances.of_same_plugins w _
      (congrArg PluginManager.plugins (callPluginFunction_frame qt lua w p f args).1)
      (fun L hL => (callPluginFunction_open qt lua w p f args L).trans hL) h
  | notifyReady =>
    exact World.OpenInstances.of_same_plugins w _
      (congrArg PluginManager.plugins
        (foldl_callHandler_frame lua (qs "__plugin_event_ready") [] w.mgr.plugins w).1)
      (fun L hL => by
        show ((PluginManager.notifyReady lua w).heap.get L).isSome = true
        unfold PluginManager.notifyReady
        rw [foldl_callHandler_open]; exact hL) h
  | notifyShutdown =>
    exact World.OpenInstances.of_same_plugins w _
      (congrArg PluginManager.plugins
        (foldl_callHandler_frame lua (qs "__plugin_event_shutdown") [] w.mgr.plugins w).1)
      (fun L hL => by
        show ((PluginManager.notifyShutdown lua w).heap.get L).isSome = true
        unfold PluginManager.notifyShutdown
        rw [foldl_callHandler_open]; exact hL) h
  | broadcastFileEvent ev f =>
    exact World.OpenInstances.of_same_plugins w _
      (congrArg PluginManager.plugins
        (foldl_callHandler_frame lua (c_str (qs "__plugin_event_" ++ ev).toStdString)
          [LuaValue.string (c_str f.toStdString)] w.mgr.plugins w).1)
      (fun L hL => by
        show ((PluginManager.broadcastFileEvent lua w ev f).heap.get L).isSome = true
        unfold PluginManager.broadcastFileEvent
        rw [foldl_callHandler_open]; exact hL) h

/-- In every world the manager can reach, every loaded record holds an interpreter
instance that is open. -/
theorem reachable_open (qt : Qt) (lua : Interp) (w : World) (h : Reachable qt lua w) :
    w.OpenInstances := by
  induction h with
  | initial editor fs =>
    intro e he
    cases he
  | step w op hw ih => exact Op.run_open qt lua w op hw ih

/-! ## Command dispatch in reachable worlds -/

/-- C6, as amended: in every world the manager can reach, a loaded plugin holds an open
interpreter instance, and for a command id with at least two segments whose first
segment names the plugin, `executeCommand` returns success exactly when the binding of
that instance whose name is `executeCommand_` + second segment, as the C string handed
to the interpreter (ended before the first NUL character, a surrogate without partner
as a question mark), is a function and the call of it without arguments ends without
error; when the binding is no function the world is left as it was, so nothing is
called; when it is a function, this function is called once without arguments and
nothing else is, the manager, with its loaded and failed mappings, is unchanged, and
an error the function raises gives failure.  For a second segment without NUL
character and without surrogates the name is `executeCommand_` + second segment
itself. -/
theorem executeCommand_result (qt : Qt) (lua : Interp) (w : World) (commandId : QString)
    (info : PluginInfo) (hreach : Reachable qt lua w)
    (hseg : 2 ≤ (commandId.split 46).length)
    (hinfo : PluginManager.getPluginInfo w ((commandId.split 46).getD 0 []) = some info) :
    (∃ L s, info.luaState = some L ∧ w.heap.get L = some s) ∧
    (∀ L s, info.luaState = some L → w.heap.get L = some s →
      ((PluginManager.executeCommand lua w commandId).1 = true ↔
        ∃ f vals, lua_getglobal s
            (c_str (qs "executeCommand_" ++ (commandId.split 46).getD 1 []).toStdString) =
            .function f ∧ (lua.call f [] s).1 = .ok vals) ∧
      (lua_isfunction (lua_getglobal s
          (c_str (qs "executeCommand_" ++ (commandId.split 46).getD 1 []).toStdString))
          = false → PluginManager.executeCommand lua w commandId = (false, w)) ∧
      (∀ f, lua_getglobal s
            (c_str (qs "executeCommand_" ++ (commandId.split 46).getD 1 []).toStdString) =
            .function f →
          (PluginManager.executeCommand lua w commandId).2.mgr = w.mgr ∧
          (PluginManager.executeCommand lua w commandId).2.log =
            w.log ++ [Event.pcall L (.function f) []] ∧
          ∀ e, (lua.call f [] s).1 = .error e →
            (PluginManager.executeCommand lua w commandId).1 = false)) ∧
    (c_str (qs "executeCommand_" ++ (commandId.split 46).getD 1 []).toStdString =
        (qs "executeCommand_" ++ c_str ((commandId.split 46).getD 1 [])).toStdString) ∧
    ((∀ u ∈ (commandId.split 46).getD 1 [],
        u ≠ 0 ∧ QChar.isHighSurrogate u = false ∧ QChar.isLowSurrogate u = false) →
      c_str (qs "executeCommand_" ++ (commandId.split 46).getD 1 []).toStdString =
        qs "executeCommand_" ++ (commandId.split 46).getD 1 []) := by
  have hfind : QMap.find w.mgr.plugins ((commandId.split 46).getD 0 []) = some info := hinfo
  have hlen : ¬ (commandId.split 46).length < 2 := by omega
  have hname : c_str (qs "executeCommand_" ++ (commandId.split 46).getD 1 []).toStdString =
      (qs "executeCommand_" ++ c_str ((commandId.split 46).getD 1 [])).toStdString := by
    rw [QString.toStdString_c_str, c_str_append _ _ (by decide)]
  have hplain : (∀ u ∈ (commandId.split 46).getD 1 [],
        u ≠ 0 ∧ QChar.isHighSurrogate u = false ∧ QChar.isLowSurrogate u = false) →
      c_str (qs "executeCommand_" ++ (commandId.split 46).getD 1 []).toStdString =
        qs "executeCommand_" ++ (commandId.split 46).getD 1 [] := by
    intro hplain
    apply c_str_toStdString_of_plain
    intro u hu
    have hpre : ∀ v ∈ qs "executeCommand_",
        v ≠ 0 ∧ QChar.isHighSurrogate v = false ∧ QChar.isLowSurrogate v = false := by decide
    rcases List.mem_append.mp hu with h1 | h1
    · exact hpre u h1
    · exact hplain u h1
  refine ⟨reachable_open qt lua w hreach _ (QMap.mem_of_find _ _ _ hfind), ?_, hname, hplain⟩
  intro L s hL hs
  unfold PluginManager.executeCommand
  simp only [hlen, if_false, hfind, hL, hs]
  cases hb : lua_getglobal s
      (c_str (qs "executeCommand_" ++ (commandId.split 46).getD 1 []).toStdString) with
  | function f =>
    cases hcall : (lua.call f [] s).1 with
    | error e =>
      simp only [lua_pcall, hcall, lua_isfunction]
      refine ⟨by simp [hcall], by simp, ?_⟩
      intro f1 hf
      cases hf
      simp
    | ok vals =>
      simp only [lua_pcall, hcall, lua_isfunction]
      refine ⟨by simp [hcall], by simp, ?_⟩
      intro f1 hf
      cases hf
      simp [hcall]
  | _ => exact ⟨by simp, by simp [lua_isfunction], by simp⟩

/-- C6 as amended, on the command example: "pluginA", loaded from "/cmd/pluginA", holds
the open instance at address 1; "pluginA.cmd" succeeds; "pluginA.bad", whose handler
raises an error, fails with the manager unchanged after the one call; and "pluginA.off",
bound to a number, fails without a call. -/
theorem executeCommand_result_witness :
    Reachable exampleQtCmd exampleLuaCmd exampleCommands ∧
    (PluginManager.getPluginInfo exampleCommands (qs "pluginA")).map PluginInfo.luaState =
      some (some 1) ∧
    (PluginManager.executeCommand exampleLuaCmd exampleCommands (qs "pluginA.cmd")).1 = true ∧
    ((PluginManager.executeCommand exampleLuaCmd exampleCommands (qs "pluginA.bad")).2.mgr =
        exampleCommands.mgr ∧
      (PluginManager.executeCommand exampleLuaCmd exampleCommands (qs "pluginA.bad")).2.log =
        exampleCommands.log ++ [Event.pcall 1 (.function 1) []] ∧
      (PluginManager.executeCommand exampleLuaCmd exampleCommands (qs "pluginA.bad")).1 =
        false) ∧
    PluginManager.executeCommand exampleLuaCmd exampleCommands (qs "pluginA.off") =
      (false, exampleCommands) :=
  ⟨Reachable.step _ _ (Reachable.initial 7 exampleFsCmd), rfl,
   ((executeCommand_result exampleQtCmd exampleLuaCmd exampleCommands (qs "pluginA.cmd")
      (loadedRecord exampleQtCmd exampleFsCmd (qs "/cmd/pluginA") 1)
      (Reachable.step _ _ (Reachable.initial 7 exampleFsCmd)) (by decide) rfl).2.1
      1 _ rfl rfl).1.mpr ⟨0, [], rfl, rfl⟩,
   (fun h => ⟨h.1, h.2.1, h.2.2 (.string (qs "boom")) rfl⟩)
     (((executeCommand_result exampleQtCmd exampleLuaCmd exampleCommands (qs "pluginA.bad")
        (loadedRecord exampleQtCmd exampleFsCmd (qs "/cmd/pluginA") 1)
        (Reachable.step _ _ (Reachable.initial 7 exampleFsCmd)) (by decide) rfl).2.1
        1 _ rfl rfl).2.2 1 rfl),
   ((executeCommand_result exampleQtCmd exampleLuaCmd exampleCommands (qs "pluginA.off")
      (loadedRecord exampleQtCmd exampleFsCmd (qs "/cmd/pluginA") 1)
      (Reachable.step _ _ (Reachable.initial 7 exampleFsCmd)) (by decide) rfl).2.1
      1 _ rfl rfl).2.1 rfl⟩

/-- C6 fails as stated: on the command example, the second segment of the id
"pluginA.cmd" + NUL + "x" is "cmd" + NUL + "x"; the instance of "pluginA" binds nothing
to `executeCommand_` + this segment, and yet `executeCommand` returns success and calls
the function bound to "executeCommand_cmd", where the C string of the name ends. -/
theorem executeCommand_result_counterexample :
    (qs "pluginA.cmd" ++ [0] ++ qs "x").split 46 = [qs "pluginA", qs "cmd" ++ [0] ++ qs "x"] ∧
    (PluginManager.getPluginInfo exampleCommands (qs "pluginA")).map PluginInfo.luaState =
      some (some 1) ∧
    (exampleCommands.heap.get 1).map
      (fun s => lua_getglobal s (qs "executeCommand_" ++ (qs "cmd" ++ [0] ++ qs "x"))) =
      some .nil ∧
    (exampleCommands.heap.get 1).map (fun s => lua_getglobal s (qs "executeCommand_cmd")) =
      some (.function 0) ∧
    (PluginManager.executeCommand exampleLuaCmd exampleCommands
      (qs "pluginA.cmd" ++ [0] ++ qs "x")).1 = true ∧
    (PluginManager.executeCommand exampleLuaCmd exampleCommands
      (qs "pluginA.cmd" ++ [0] ++ qs "x")).2.log =
      exampleCommands.log ++ [Event.pcall 1 (.function 0) []] :=
  ⟨by decide, rfl, by decide, by decide, by decide, by decide⟩

/-- C7, as amended: in every world the manager can reach, a loaded plugin holds an open
interpreter instance, and for a function name that, as the C string handed to the
interpreter, is bound to a function there, `callPluginFunction` with fewer than
`LUA_MINSTACK` arguments makes one call of that function on the arguments in order,
each as the C string of its text (ended before the first NUL character, a surrogate
without partner as a question mark), and returns the first returned value read as a C
string when it is a string, its printed form when it is a number, and the empty text
when it is any other value, when nothing is returned, or when the call raises an
error.  Arguments without NUL character and without surrogates are passed as they
are.  With `LUA_MINSTACK` arguments or more the function and the arguments do not fit
the stack slots that are free, and there is no defined result. -/
theorem callPluginFunction_result (qt : Qt) (lua : Interp) (w : World)
    (pluginName functionName : QString) (args : List QString) (info : PluginInfo)
    (hreach : Reachable qt lua w)
    (hinfo : PluginManager.getPluginInfo w pluginName = some info) :
    (∃ L s, info.luaState = some L ∧ w.heap.get L = some s) ∧
    (∀ L s f, info.luaState = some L → w.heap.get L = some s →
      lua_getglobal s (c_str functionName.toStdString) = .function f →
      (args.length < LUA_MINSTACK →
        PluginManager.callPluginFunction lua w pluginName functionName args =
          some
            (match (lua.call f
                (args.map (fun arg => LuaValue.string (c_str arg.toStdString))) s).1 with
              | .error _ => []
              | .ok vals =>
                match vals.headD .nil with
                | .string t => QString.fromUtf8 (c_str t)
                | .integer i => QString.fromUtf8 (c_str (integerText i))
                | .float t => QString.fromUtf8 (c_str t)
                | _ => [],
             { w with
               heap := w.heap.set L
                 (lua.call f (args.map (fun arg => LuaValue.string (c_str arg.toStdString)))
                   s).2,
               log := w.log ++ [Event.pcall L (.function f)
                 (args.map (fun arg => LuaValue.string (c_str arg.toStdString)))] })) ∧
      (LUA_MINSTACK ≤ args.length →
        PluginManager.callPluginFunction lua w pluginName functionName args = none)) ∧
    ((∀ arg ∈ args, ∀ u ∈ arg,
        u ≠ 0 ∧ QChar.isHighSurrogate u = false ∧ QChar.isLowSurrogate u = false) →
      args.map (fun arg => LuaValue.string (c_str arg.toStdString)) =
        args.map LuaValue.string) := by
  have hfind : QMap.find w.mgr.plugins pluginName = some info := hinfo
  refine ⟨reachable_open qt lua w hreach _ (QMap.mem_of_find _ _ _ hfind), ?_, ?_⟩
  · intro L s f hL hs hf
    constructor
    · intro hargs
      have hfit : ¬ LUA_MINSTACK < 1 + args.length := by omega
      unfold PluginManager.callPluginFunction
      simp only [hfind, hL, hs, hf, hfit, if_false]
      cases hcall : (lua.call f (args.map (fun arg => LuaValue.string (c_str arg.toStdString)))
          s).1 with
      | error e => simp [lua_pcall, hcall]
      | ok vals =>
        simp only [lua_pcall, hcall]
        cases vals.headD LuaValue.nil <;> simp [lua_isstring, lua_tostring]
    · intro hargs
      have hfit : LUA_MINSTACK < 1 + args.length := by omega
      unfold PluginManager.callPluginFunction
      simp only [hfind, hL, hs, hf, hfit, if_true]
  · intro hplain
    apply List.map_congr_left
    intro arg harg
    rw [c_str_toStdString_of_plain arg (hplain arg harg)]

/-- C7 as amended, on the command example: the arguments are passed in order and the
returned text comes back; a returned boolean gives the empty text; a returned text with
a NUL character comes back up to that character; and twenty arguments have no defined
result. -/
theorem callPluginFunction_result_witness :
    Reachable exampleQtCmd exampleLuaCmd exampleCommands ∧
    (PluginManager.callPluginFunction exampleLuaCmd exampleCommands (qs "pluginA") (qs "text")
        [qs "x", qs "y"]).map (fun r => (r.1, r.2.log)) =
      some (qs "done",
        exampleCommands.log ++
          [Event.pcall 1 (.function 3) [.string (qs "x"), .string (qs "y")]]) ∧
    (PluginManager.callPluginFunction exampleLuaCmd exampleCommands (qs "pluginA") (qs "flag")
        []).map Prod.fst = some [] ∧
    (PluginManager.callPluginFunction exampleLuaCmd exampleCommands (qs "pluginA") (qs "nul")
        []).map Prod.fst = some (qs "r") ∧
    PluginManager.callPluginFunction exampleLuaCmd exampleCommands (qs "pluginA") (qs "text")
        (List.replicate 20 []) = none :=
  ⟨Reachable.step _ _ (Reachable.initial 7 exampleFsCmd),
   (congrArg (Option.map (fun r : QString × World => (r.1, r.2.log)))
      (((callPluginFunction_result exampleQtCmd exampleLuaCmd exampleCommands (qs "pluginA")
        (qs "text") [qs "x", qs "y"]
        (loadedRecord exampleQtCmd exampleFsCmd (qs "/cmd/pluginA") 1)
        (Reachable.step _ _ (Reachable.initial 7 exampleFsCmd)) rfl).2.1
        1 _ 3 rfl rfl rfl).1 (by decide))).trans (by decide),
   (congrArg (Option.map Prod.fst)
      (((callPluginFunction_result exampleQtCmd exampleLuaCmd exampleCommands (qs "pluginA")
        (qs "flag") []
        (loadedRecord exampleQtCmd exampleFsCmd (qs "/cmd/pluginA") 1)
        (Reachable.step _ _ (Reachable.initial 7 exampleFsCmd)) rfl).2.1
        1 _ 4 rfl rfl rfl).1 (by decide))).trans (by decide),
   (congrArg (Option.map Prod.fst)
      (((callPluginFunction_result exampleQtCmd exampleLuaCmd exampleCommands (qs "pluginA")
        (qs "nul") []
        (loadedRecord exampleQtCmd exampleFsCmd (qs "/cmd/pluginA") 1)
        (Reachable.step _ _ (Reachable.initial 7 exampleFsCmd)) rfl).2.1
        1 _ 10 rfl rfl rfl).1 (by decide))).trans (by decide),
   ((callPluginFunction_result exampleQtCmd exampleLuaCmd exampleCommands (qs "pluginA")
      (qs "text") (List.replicate 20 [])
      (loadedRecord exampleQtCmd exampleFsCmd (qs "/cmd/pluginA") 1)
      (Reachable.step _ _ (Reachable.initial 7 exampleFsCmd)) rfl).2.1
      1 _ 3 rfl rfl rfl).2 (by decide)⟩

/-- C7 fails as stated: on the command example, the function bound to "answer" in the
instance of "pluginA" returns the number 42, which is no string, and
`callPluginFunction` returns the text "42" instead of the empty text; and the argument
"a" + NUL + "b" reaches the function bound to "text" as "a". -/
theorem callPluginFunction_number_counterexample :
    (exampleCommands.heap.get 1).map (fun s => lua_getglobal s (qs "answer")) =
      some (.function 2) ∧
    (exampleCommands.heap.get 1).map (fun s => (exampleLuaCmd.call 2 [] s).1) =
      some (.ok [LuaValue.integer 42]) ∧
    (PluginManager.callPluginFunction exampleLuaCmd exampleCommands (qs "pluginA") (qs "answer")
      []).map Prod.fst = some (qs "42") ∧
    qs "42" ≠ [] ∧
    (PluginManager.callPluginFunction exampleLuaCmd exampleCommands (qs "pluginA") (qs "text")
      [qs "a" ++ [0] ++ qs "b"]).map (fun r => r.2.log) =
      some (exampleCommands.log ++ [Event.pcall 1 (.function 3) [.string (qs "a")]]) ∧
    qs "a" ≠ qs "a" ++ [0] ++ qs "b" :=
  ⟨by decide, rfl, by decide, by decide, by decide, by decide⟩

/-! ## The calls of a broadcast -/

/-- C8, as amended: in every world the manager can reach, every loaded plugin holds an
open interpreter instance, and the broadcast of a file event calls, in the order of the
loaded mapping, the function bound to `__plugin_event_` + event in each loaded plugin
that has one, once, and calls nothing else, a plugin whose binding is no function
being passed over; the only argument is the file name as the C string handed to the
interpreter (ended before the first NUL character, a surrogate without partner as a
question mark), which is the file name itself when it has no NUL character and no
surrogate; this holds whatever the handlers do, raising an error included, and the
registry is as before.  For the six file events the name of the binding is
`__plugin_event_` + event as it stands. -/
theorem broadcastFileEvent_calls (qt : Qt) (lua : Interp) (w : World)
    (eventName filename : QString) (hreach : Reachable qt lua w) :
    (PluginManager.broadcastFileEvent lua w eventName filename).log =
        w.log ++ w.mgr.plugins.filterMap (fun e =>
          handlerCall w (c_str (qs "__plugin_event_" ++ eventName).toStdString)
            [LuaValue.string (c_str filename.toStdString)] e.2) ∧
    (PluginManager.broadcastFileEvent lua w eventName filename).mgr = w.mgr ∧
    (∀ e ∈ w.mgr.plugins, ∃ L s, e.2.luaState = some L ∧ w.heap.get L = some s ∧
      handlerCall w (c_str (qs "__plugin_event_" ++ eventName).toStdString)
          [LuaValue.string (c_str filename.toStdString)] e.2 =
        match lua_getglobal s (c_str (qs "__plugin_event_" ++ eventName).toStdString) with
        | .function f =>
          some (Event.pcall L (.function f) [LuaValue.string (c_str filename.toStdString)])
        | _ => none) ∧
    ((∀ u ∈ filename,
        u ≠ 0 ∧ QChar.isHighSurrogate u = false ∧ QChar.isLowSurrogate u = false) →
      c_str filename.toStdString = filename) ∧
    (eventName ∈ [qs "beforeFileOpen", qs "afterFileOpen", qs "beforeFileSave",
        qs "afterFileSave", qs "beforeFileClose", qs "afterFileClose"] →
      c_str (qs "__plugin_event_" ++ eventName).toStdString =
        qs "__plugin_event_" ++ eventName) :=
  ⟨(broadcastFileEvent_of_distinct lua w eventName filename
      (reachable_ownInstances qt lua w hreach).2).1,
   (broadcastFileEvent_of_distinct lua w eventName filename
      (reachable_ownInstances qt lua w hreach).2).2,
   by
    intro e he
    obtain ⟨L, s, hL, hs⟩ := reachable_open qt lua w hreach e he
    refine ⟨L, s, hL, hs, ?_⟩
    unfold handlerCall
    simp only [hL, hs],
   c_str_toStdString_of_plain filename,
   by
    intro he
    have hall : ∀ e ∈ [qs "beforeFileOpen", qs "afterFileOpen", qs "beforeFileSave",
        qs "afterFileSave", qs "beforeFileClose", qs "afterFileClose"],
        c_str (qs "__plugin_event_" ++ e).toStdString = qs "__plugin_event_" ++ e := by
      decide
    exact hall eventName he⟩

/-- C8 as amended, on three loaded plugins whose second handler raises an error:
`notifyAfterFileSave` calls the handlers of the first, the second and the third
plugin, each once with the file name, after what the loads themselves had called. -/
theorem broadcastFileEvent_calls_witness :
    QMap.keys exampleEvents.mgr.plugins = [qs "p1", qs "p2", qs "p3"] ∧
    (exampleEvents.heap.get 2).map (fun s => (exampleLua.call 1 [.string (qs "/tmp/f.txt")] s).1) =
      some (.error (.string (qs "boom"))) ∧
    (PluginManager.notifyAfterFileSave exampleLua exampleEvents (qs "/tmp/f.txt")).log =
      exampleEvents.log ++
        [Event.pcall 1 (.function 0) [.string (qs "/tmp/f.txt")],
         Event.pcall 2 (.function 1) [.string (qs "/tmp/f.txt")],
         Event.pcall 3 (.function 0) [.string (qs "/tmp/f.txt")]] :=
  ⟨by decide, rfl,
   (broadcastFileEvent_calls exampleQt exampleLua exampleEvents (qs "afterFileSave")
      (qs "/tmp/f.txt")
      (Reachable.step _ _ (Reachable.step _ _ (Reachable.step _ _
        (Reachable.initial 7 exampleFs))))).1.trans (by decide)⟩

/-- C8 fails as stated: on the three loaded plugins, `notifyAfterFileSave` with the
file name "/tmp/f" + NUL + ".txt" calls the three handlers with "/tmp/f", where the C
string of the name ends, and not with the file name. -/
theorem broadcastFileEvent_calls_counterexample :
    QMap.keys exampleEvents.mgr.plugins = [qs "p1", qs "p2", qs "p3"] ∧
    (PluginManager.notifyAfterFileSave exampleLua exampleEvents
        (qs "/tmp/f" ++ [0] ++ qs ".txt")).log =
      exampleEvents.log ++
        [Event.pcall 1 (.function 0) [.string (qs "/tmp/f")],
         Event.pcall 2 (.function 1) [.string (qs "/tmp/f")],
         Event.pcall 3 (.function 0) [.string (qs "/tmp/f")]] ∧
    qs "/tmp/f" ≠ qs "/tmp/f" ++ [0] ++ qs ".txt" :=
  ⟨by decide, by decide, by decide⟩
